import Mathlib

/-!
# The convolution layer of ConvNet (`c++/sources/layer_c.cpp`)

A shallow embedding of `LayerConv` and a verification of its specification.

* `size_t` values are natural numbers; every `size_t` operation of
  `layer_c.cpp` is taken modulo `2^64` (`szAdd`, `szSub`, `szMul`), and a
  division by zero aborts (`szDiv`). Only the element count of a matrix inside
  the modelled matrix primitive (the number of elements of its storage) is a
  plain product.
* `ftype` values are rationals (exact arithmetic). Where a `size_t` is compared
  with an `ftype` (lines 59 and 77) it is converted to `ftype` first, with the
  rounding of a `float` (`castFtype`); below `2^24` the conversion is exact.
* `mexAssert` aborts the call: a function that can abort returns `Option`.
* The class hierarchy is flattened: `Layer` holds the fields of the base class,
  `LayerConv` extends it.
* State is passed explicitly. A parameter container is a window (offset and
  extents) of the arena of the network; a method maps what it can reach (the
  layer, its predecessor, the arena: `Call`) to what it leaves.
* The matrix primitive, the map views and the parameter container are not in
  `layer_c.cpp`; they are modelled from the specification. The kernel operator
  and the accelerated backend are parameters (`Env`).
-/

namespace ConvNet

/-! ## Machine arithmetic -/

/-- The number of values of a `size_t`. -/
def SIZE_T_MOD : Nat := 18446744073709551616

/-- Addition of two `size_t`. -/
def szAdd (a b : Nat) : Nat := (a + b) % SIZE_T_MOD

/-- Subtraction of two `size_t` (wraps around below zero). -/
def szSub (a b : Nat) : Nat := (a + (SIZE_T_MOD - b % SIZE_T_MOD)) % SIZE_T_MOD

/-- Multiplication of two `size_t`. -/
def szMul (a b : Nat) : Nat := (a * b) % SIZE_T_MOD

/-- The type `ftype` of the source, in exact arithmetic. -/
abbrev ftype : Type := ℚ

/-- The cast `(size_t) x` of a non-negative `ftype`: truncation. -/
def toSizeT (x : ftype) : Nat := ⌊x⌋₊ % SIZE_T_MOD

/-- The bound `2^24` below which every `size_t` has an `ftype` of the same value. -/
def FTYPE_EXACT : Nat := 16777216

/-- The number of low bits of a `size_t` that a significand of 24 bits does
not hold: the number of halvings (at most `fuel`; a `size_t` has 64 bits) that
bring `n` below `2^24`. -/
def dropBits : Nat → Nat → Nat
  | 0, _ => 0
  | fuel + 1, n => if n < FTYPE_EXACT then 0 else dropBits fuel (n / 2) + 1

/-- The conversion of a `size_t` to `ftype` that a comparison of the two makes
(lines 59 and 77). The type `ftype` is declared outside `layer_c.cpp`; it is
taken as `float`: the result is the nearest value with a significand of 24
bits, ties to even. A `double` keeps 53 bits; a value below `2^24` is converted
exactly by both, and what is proved of the comparisons is stated for such
values. -/
def castFtype (n : Nat) : ftype :=
  if n < FTYPE_EXACT then (n : ftype)
  else
    let e := dropBits 64 n
    let q := n / 2 ^ e
    let r := n % 2 ^ e
    let h := 2 ^ (e - 1)
    (((if h < r ∨ (r = h ∧ q % 2 = 1) then q + 1 else q) * 2 ^ e : Nat) : ftype)

/-- Division of two `size_t`: a zero divisor aborts the call. -/
def szDiv (a b : Nat) : Option Nat := if b = 0 then none else some (a / b)

/-- Failure of `mexAssert` aborts the call. -/
def mexAssert (cond : Bool) (_msg : String) : Option Unit :=
  if cond then some () else none

/-- The pair `mexAssert(mexIsField(..), msg)`, `mexGetField(..)`: the field, or abort. -/
def mexGetField {α : Type} (field : Option α) (msg : String) : Option α := do
  mexAssert field.isSome msg
  field

/-! ## The matrix primitive -/

/-- Modelled from the spec: the dense-matrix primitive `Mat` (its header and
implementation are not among the sources). A matrix is its two extents, its
storage order and its flat storage. With `order = false` the element `(i, j)`
lies at `j * size1 + i` of the storage, with `order = true` at
`i * size2 + j`. -/
structure Mat where
  size1 : Nat
  size2 : Nat
  order : Bool
  data : List ftype
deriving DecidableEq

/-! ## Layers -/

/-- The fields of the base class `Layer` that `layer_c.cpp` reads and writes. -/
structure Layer where
  type_ : String
  function_ : String
  numdim_ : Nat
  mapsize_ : List Nat
  outputmaps_ : Nat
  length_ : Nat
  batchsize_ : Nat
  activ_mat_ : Mat
  deriv_mat_ : Mat
deriving DecidableEq

/-- The parameter container `Weights` of a layer: a window of the shared
parameter arena, given by its offset, its two extents and its order. The value
view and the gradient view have the same window, in the two parallel arenas. -/
structure Weights where
  offset : Nat
  size1 : Nat
  size2 : Nat
  order : Bool
deriving DecidableEq

/-- The class `LayerConv`. -/
structure LayerConv extends Layer where
  filtersize_ : List Nat
  padding_ : List Nat
  length_prev_ : Nat
  sum_width_ : Nat
  weights_ : Weights
  biases_ : Weights
deriving DecidableEq

/-- The configuration structure `mx_layer`, as the fields `Init` looks up:
`none` is an absent field. -/
structure MxLayer where
  outputmaps : Option ftype
  function : Option String
  filtersize : Option (List ftype)
  padding : Option (List ftype)
  sumwidth : Option ftype
deriving DecidableEq

/-- An empty matrix. -/
def Mat.empty : Mat := { size1 := 0, size2 := 0, order := false, data := [] }

/-- A container that is not attached yet. -/
def Weights.empty : Weights := { offset := 0, size1 := 0, size2 := 0, order := false }

/-- The constructor `LayerConv::LayerConv`. -/
def LayerConv.new : LayerConv :=
  { type_ := "c", function_ := "relu", numdim_ := 0, mapsize_ := [],
    outputmaps_ := 0, length_ := 0, batchsize_ := 0,
    activ_mat_ := Mat.empty, deriv_mat_ := Mat.empty,
    filtersize_ := [], padding_ := [], length_prev_ := 0, sum_width_ := 1,
    weights_ := Weights.empty, biases_ := Weights.empty }

/-! ## `LayerConv::Init` -/

/-- The loop of lines 47-50: every filter extent is checked, then cast. -/
def readFiltersize : List ftype → Option (List Nat)
  | [] => some []
  | x :: xs => do
    mexAssert (decide (1 ≤ x)) "Filtersize on the c layer must be greater or equal to 1"
    let rest ← readFiltersize xs
    pure (toSizeT x :: rest)

/-- The loop of lines 58-61: every padding is checked against the filter extent
of its dimension, then cast. The comparison of line 59 is made in `ftype`:
`filtersize_[i] - 1` is a `size_t` and is converted (`castFtype`). -/
def readPadding : List ftype → List Nat → Option (List Nat)
  | [], _ => some []
  | x :: xs, fs => do
    mexAssert (decide (0 ≤ x ∧ x ≤ castFtype (szSub (fs.headD 0) 1)))
      "Padding on the c layer must be in the range [0, filtersize-1]"
    let rest ← readPadding xs fs.tail
    pure (toSizeT x :: rest)

/-- The extent of line 68 and line 70, in `size_t` arithmetic. -/
def mapExtent (prev padding filter : Nat) : Nat :=
  szAdd (szSub (szAdd prev (szMul 2 padding)) filter) 1

/-- The state of the loop of lines 69-74: `mapsize_`, `minsize_`, `length_`. -/
structure MapLoop where
  mapsize_ : List Nat
  minsize_ : Nat
  length_ : Nat
deriving DecidableEq

/-- The loop of lines 69-74, over the dimensions that are left. -/
def mapLoop (prev_mapsize padding_ filtersize_ : List Nat) : List Nat → MapLoop → Option MapLoop
  | [], st => some st
  | i :: rest, st => do
    let m := mapExtent (prev_mapsize.getD i 0) (padding_.getD i 0) (filtersize_.getD i 0)
    mexAssert (decide (1 ≤ m)) "Mapsize on the c layer must be greater than 1"
    mapLoop prev_mapsize padding_ filtersize_ rest
      { mapsize_ := st.mapsize_.set i m,
        minsize_ := if m < st.minsize_ then m else st.minsize_,
        length_ := szMul st.length_ m }

/-- The state the loop of lines 69-74 reaches when no assertion fires. -/
def mapLoopResult (prev_mapsize padding_ filtersize_ : List Nat) (dims : List Nat)
    (st : MapLoop) : MapLoop :=
  dims.foldl (fun st i =>
    let m := mapExtent (prev_mapsize.getD i 0) (padding_.getD i 0) (filtersize_.getD i 0)
    { mapsize_ := st.mapsize_.set i m,
      minsize_ := if m < st.minsize_ then m else st.minsize_,
      length_ := szMul st.length_ m }) st

/-- Lines 38-42: the optional activation-function tag. -/
def readFunction (mx_layer : MxLayer) (self : LayerConv) : Option String :=
  match mx_layer.function with
  | some f => do
    mexAssert (decide (f = "soft" ∨ f = "sigm" ∨ f = "relu")) "Unknown function for the c layer"
    pure f
  | none => pure self.function_

/-- Lines 54-65: the optional padding vector; all zero when the field is absent. -/
def readPaddingField (COMP_REGIME : Nat) (mx_layer : MxLayer) (numdim_ : Nat) (filtersize_ : List Nat) : Option (List Nat) :=
  match mx_layer.padding with
  | some padding => do
    mexAssert (decide (padding.length = numdim_)) "Padding vector has the wrong length"
    let padding_ ← readPadding padding filtersize_
    mexAssert (decide (COMP_REGIME = 2 → padding_.getD 0 0 = padding_.getD 1 0))
      "In the GPU version the padding should be squared on all layers"
    pure padding_
  | none => pure (List.replicate numdim_ 0)

/-- Lines 75-81: the optional summation block width. The comparison of line 77
is made in `ftype`: `minsize_` is a `size_t` and is converted (`castFtype`). -/
def readSumwidth (mx_layer : MxLayer) (minsize_ : Nat) (self : LayerConv) : Option Nat :=
  match mx_layer.sumwidth with
  | some sum_width => do
    mexAssert (decide (1 ≤ sum_width ∧ sum_width ≤ castFtype minsize_))
      "Sumwidth must be in the range [0, min(mapsize)]"
    pure (toSizeT sum_width)
  | none => pure (if self.sum_width_ > minsize_ then minsize_ else self.sum_width_)

/-- The method `LayerConv::Init`. `COMP_REGIME` is the compile-time regime
(2 is the accelerated backend). Every entry of `mapsize_` is written by the loop
of lines 69-74, so what `resize` leaves in it does not matter. Line 68 reads the
entries 0 of three vectors of `numdim_` elements: for a predecessor without a
spatial dimension (`numdim_ = 0`) the behaviour of the source is undefined from
there on, and what this function returns then (it reads 0) describes no run of
the source; what is proved of a successful `Init` is for `0 < numdim_`, or takes
the success as a premise. -/
def LayerConv.Init (COMP_REGIME : Nat) (mx_layer : MxLayer) (prev_layer : Layer)
    (self : LayerConv) : Option LayerConv := do
  mexAssert (decide (prev_layer.type_ ≠ "f")) "The c type layer cannot be after f type layer"
  let numdim_ := prev_layer.numdim_
  let length_prev_ := prev_layer.outputmaps_
  let outputmaps ← mexGetField mx_layer.outputmaps "The c type layer must contain the outputmaps field"
  mexAssert (decide (1 ≤ outputmaps)) "Outputmaps on the i layer must be greater or equal to 1"
  let outputmaps_ := toSizeT outputmaps
  let function_ ← readFunction mx_layer self
  let filtersize ← mexGetField mx_layer.filtersize "The c type layer must contain the filtersize field"
  mexAssert (decide (filtersize.length = numdim_)) "Filters and maps must be the same dimensionality"
  let filtersize_ ← readFiltersize filtersize
  mexAssert (decide (COMP_REGIME = 2 → filtersize_.getD 0 0 = filtersize_.getD 1 0))
    "In the GPU version the filtersize should be squared on all layers"
  let padding_ ← readPaddingField COMP_REGIME mx_layer numdim_ filtersize_
  let minsize_ := mapExtent (prev_layer.mapsize_.getD 0 0) (padding_.getD 0 0) (filtersize_.getD 0 0)
  let st ← mapLoop prev_layer.mapsize_ padding_ filtersize_ (List.range numdim_)
    { mapsize_ := List.replicate numdim_ 0, minsize_ := minsize_, length_ := outputmaps_ }
  let sum_width_ ← readSumwidth mx_layer st.minsize_ self
  pure { self with
    numdim_ := numdim_, length_prev_ := length_prev_, outputmaps_ := outputmaps_,
    function_ := function_, filtersize_ := filtersize_, padding_ := padding_,
    mapsize_ := st.mapsize_, length_ := st.length_, sum_width_ := sum_width_ }

/-! ## Operations of the matrix primitive

Modelled from the spec, as `Mat` is: the operations of the matrix primitive that
`layer_c.cpp` calls (resize, reshape, element-wise add/assign/scale, views). -/

/-- Modelled from the spec: the storage position of the element `(i, j)`. -/
def Mat.index (m : Mat) (i j : Nat) : Nat :=
  if m.order then i * m.size2 + j else j * m.size1 + i

/-- Modelled from the spec: the element `(i, j)` of a matrix, `operator()`. -/
def Mat.get (m : Mat) (i j : Nat) : ftype := m.data.getD (m.index i j) 0

/-- Modelled from the spec: the matrix of the given extents and order whose
element `(i, j)` is `f i j`. -/
def Mat.ofFn (size1 size2 : Nat) (order : Bool) (f : Nat → Nat → ftype) : Mat :=
  { size1 := size1, size2 := size2, order := order,
    data := (List.range (size1 * size2)).map (fun idx =>
      f (if order then idx / size2 else idx % size1) (if order then idx % size2 else idx / size1)) }

/-- Modelled from the spec: `Mat::resize`. The extents change, the order stays;
the contents are unspecified, here what the storage held (zero beyond it). -/
def Mat.resize (m : Mat) (size1 size2 : Nat) : Mat :=
  { size1 := size1, size2 := size2, order := m.order,
    data := (List.range (size1 * size2)).map (fun idx => m.data.getD idx 0) }

/-- Modelled from the spec: `Mat::assign`, every element becomes `v`. -/
def Mat.assign (m : Mat) (v : ftype) : Mat :=
  { m with data := List.replicate (m.size1 * m.size2) v }

/-- Modelled from the spec: the same storage and order under other extents. -/
def Mat.withSize (m : Mat) (size1 size2 : Nat) : Mat :=
  { m with size1 := size1, size2 := size2 }

/-- Modelled from the spec: `Mat::reshape`. The storage is kept, only the two
extents change; the number of elements must be the same. -/
def Mat.reshape (m : Mat) (size1 size2 : Nat) : Option Mat := do
  mexAssert (decide (size1 * size2 = m.size1 * m.size2)) "In Mat::reshape the sizes do not correspond"
  pure (m.withSize size1 size2)

/-- Modelled from the spec: `Mat::AddVect`. With `dim = 1` the vector has one
entry per column and is added to every row; otherwise it has one entry per row
and is added to every column. -/
def Mat.AddVect (m : Mat) (vect : Mat) (dim : Nat) : Mat :=
  Mat.ofFn m.size1 m.size2 m.order (fun i j =>
    m.get i j + (if dim = 1 then vect.get 0 j else vect.get i 0))

/-- Modelled from the spec: `Sum(a, vect, dim)`. With `dim = 1` the vector
receives the sum of every column of `a`, otherwise the sum of every row. -/
def Sum (a : Mat) (vect : Mat) (dim : Nat) : Mat :=
  if dim = 1 then
    Mat.ofFn 1 a.size2 vect.order (fun _ j => ((List.range a.size1).map (fun i => a.get i j)).sum)
  else
    Mat.ofFn a.size1 1 vect.order (fun i _ => ((List.range a.size2).map (fun j => a.get i j)).sum)

/-- Modelled from the spec: `operator /=` with a scalar. -/
def Mat.divScalar (m : Mat) (c : ftype) : Mat :=
  { m with data := m.data.map (fun x => x / c) }

/-- Modelled from the spec: `operator +=` of two matrices of the same extents
and order, element by element. -/
def Mat.add (m a : Mat) : Mat :=
  { m with data := List.zipWith (fun x y => x + y) m.data a.data }

/-- Modelled from the spec: `Mat::Validate`, the check that every value is
finite. Every rational is, so the check passes. -/
def Mat.Validate (m : Mat) : Mat := m

/-- Modelled from the spec: the constructor `Mat(mapsize)` of a map with the
given extents, filled with `data` in the order of its pixels. -/
def Mat.ofShape (mapsize : List Nat) (data : List ftype) : Mat :=
  { size1 := mapsize.headD 1, size2 := mapsize.tail.prod, order := false, data := data }

/-! ## The map view utility -/

/-- Modelled from the spec: the view `[k][j]` that `InitMaps(a, mapsize, ..)`
produces, read at this moment. The row `k` of `a` is split into maps of
`mapsize.prod` columns each; the view `[k][j]` is the `j`-th of them. The views
share the storage of `a`: a write through a view is `Mat.addMap` or
`Mat.setMap` on `a`. -/
def InitMaps (a : Mat) (mapsize : List Nat) (k j : Nat) : Mat :=
  Mat.ofShape mapsize ((List.range mapsize.prod).map (fun p => a.get k (j * mapsize.prod + p)))

/-- Modelled from the spec: `view[k][j] += m` for a view of `InitMaps(a, mapsize, ..)`. -/
def Mat.addMap (a : Mat) (mapsize : List Nat) (k j : Nat) (m : Mat) : Mat :=
  Mat.ofFn a.size1 a.size2 a.order (fun r c =>
    if r = k ∧ c / mapsize.prod = j then a.get r c + m.data.getD (c % mapsize.prod) 0
    else a.get r c)

/-- Modelled from the spec: `view[k][j] = m` for a view of `InitMaps(a, mapsize, ..)`. -/
def Mat.setMap (a : Mat) (mapsize : List Nat) (k j : Nat) (m : Mat) : Mat :=
  Mat.ofFn a.size1 a.size2 a.order (fun r c =>
    if r = k ∧ c / mapsize.prod = j then m.data.getD (c % mapsize.prod) 0
    else a.get r c)

/-! ## The parameter arena -/

/-- The network-wide parameter object that `InitWeights` receives: the arena of
the values and the parallel arena of the gradients. -/
structure Arena where
  values : List ftype
  ders : List ftype
deriving DecidableEq

/-- Modelled from the spec: the window of `n` elements at `offset` of a flat arena. -/
def window (arena : List ftype) (offset n : Nat) : List ftype :=
  (List.range n).map (fun idx => arena.getD (offset + idx) 0)

/-- Modelled from the spec: the arena after the window at `offset` received `data`. -/
def writeWindow (arena : List ftype) (offset : Nat) (data : List ftype) : List ftype :=
  (List.range arena.length).map (fun idx =>
    if offset ≤ idx ∧ idx < offset + data.length then data.getD (idx - offset) 0
    else arena.getD idx 0)

/-- Modelled from the spec: `Weights::Attach`, the container bound to the window
at `offset` of the arena. -/
def Weights.Attach (offset size1 size2 : Nat) (order : Bool) : Weights :=
  { offset := offset, size1 := size1, size2 := size2, order := order }

/-- Modelled from the spec: `Weights::get`, the value view. -/
def Weights.get (w : Weights) (arena : Arena) : Mat :=
  { size1 := w.size1, size2 := w.size2, order := w.order,
    data := window arena.values w.offset (w.size1 * w.size2) }

/-- Modelled from the spec: `Weights::der`, the gradient view. -/
def Weights.der (w : Weights) (arena : Arena) : Mat :=
  { size1 := w.size1, size2 := w.size2, order := w.order,
    data := window arena.ders w.offset (w.size1 * w.size2) }

/-- Modelled from the spec: a write through the value view. -/
def Weights.setGet (w : Weights) (arena : Arena) (m : Mat) : Arena :=
  { arena with values := writeWindow arena.values w.offset m.data }

/-- Modelled from the spec: a write through the gradient view. -/
def Weights.setDer (w : Weights) (arena : Arena) (m : Mat) : Arena :=
  { arena with ders := writeWindow arena.ders w.offset m.data }

/-! ## The environment of the layer -/

/-- What `layer_c.cpp` takes from the rest of the repository and from the
build, as parameters: the compile-time constants, the kernel operator `Filter`,
the three calls of the accelerated backend, the random source and the square
root. As the specification says of `Filter`, a call assigns every element of the
output map it is handed: `Filter` is given the extents of that map and returns
its contents, one value per element (`Filter_length`). -/
structure Env where
  COMP_REGIME : Nat
  kMatlabOrder : Bool
  Filter : Mat → Mat → List Nat → Bool → List Nat → List ftype
  Filter_length : ∀ image filter padding conv mapsize,
    (Filter image filter padding conv mapsize).length = mapsize.prod
  FilterActs : Mat → Mat → Mat → List Nat → Nat → Mat
  ImgActs : Mat → Mat → Mat → List Nat → Nat → Mat
  WeightActs : Mat → Mat → Mat → List Nat → Nat → Nat → Nat → Mat
  rand : Nat → List ftype
  sqrt : ftype → ftype

/-- The state a method of the layer can reach: the layer, its predecessor and
the parameter arena. -/
structure Call where
  self : LayerConv
  prev_layer : Layer
  weights : Arena
deriving DecidableEq

/-! ## `LayerConv::Forward` -/

/-- Lines 96-104: the three nested loops of `Forward`. -/
def forwardLoops (E : Env) (c : Call) (batchsize_ : Nat) (activ_mat_ : Mat) : Mat :=
  (List.range batchsize_).foldl (fun activ_mat_ k =>
    (List.range c.self.outputmaps_).foldl (fun activ_mat_ i =>
      (List.range c.prev_layer.outputmaps_).foldl (fun activ_mat_ j =>
        let act_mat := Mat.ofShape c.self.mapsize_
          (E.Filter (InitMaps c.prev_layer.activ_mat_ c.prev_layer.mapsize_ k j)
            (InitMaps (c.self.weights_.get c.weights) c.self.filtersize_ i j)
            c.self.padding_ false c.self.mapsize_)
        activ_mat_.addMap c.self.mapsize_ k i act_mat) activ_mat_) activ_mat_) activ_mat_

/-- Lines 109-114: the bias is added when `passnum` is 0 or 1. -/
def forwardBias (c : Call) (batchsize_ : Nat) (passnum : Int) (activ_mat_ : Mat) : Option Mat :=
  if passnum = 0 ∨ passnum = 1 then do
    mexAssert (activ_mat_.order == false) "activ_mat_.order() should be false"
    let size1 ← szDiv (szMul activ_mat_.size1 activ_mat_.size2) c.self.outputmaps_
    let m ← activ_mat_.reshape size1 c.self.outputmaps_
    let m := m.AddVect (c.self.biases_.get c.weights) 1
    let size2 ← szDiv (szMul m.size1 m.size2) batchsize_
    m.reshape batchsize_ size2
  else pure activ_mat_

/-- The method `LayerConv::Forward`. -/
def LayerConv.Forward (E : Env) (passnum : Int) (c : Call) : Option Call := do
  let batchsize_ := c.prev_layer.batchsize_
  let activ_mat_ := c.self.activ_mat_.resize batchsize_ c.self.length_
  let activ_mat_ :=
    if E.COMP_REGIME ≠ 2 then forwardLoops E c batchsize_ (activ_mat_.assign 0)
    else E.FilterActs c.prev_layer.activ_mat_ (c.self.weights_.get c.weights) activ_mat_
      c.prev_layer.mapsize_ (c.self.padding_.getD 0 0)
  let activ_mat_ ← forwardBias c batchsize_ passnum activ_mat_
  pure { c with self := { c.self with batchsize_ := batchsize_, activ_mat_ := activ_mat_.Validate } }

/-! ## `LayerConv::Backward` -/

/-- Lines 125-128: the complementary padding. -/
def paddingDer (self : LayerConv) : List Nat :=
  (List.range self.numdim_).map (fun i =>
    szSub (szSub (self.filtersize_.getD i 0) 1) (self.padding_.getD i 0))

/-- Lines 133-141: the three nested loops of `Backward`. -/
def backwardLoops (E : Env) (c : Call) (deriv_mat_ : Mat) : Mat :=
  (List.range c.self.batchsize_).foldl (fun deriv_mat_ k =>
    (List.range c.self.outputmaps_).foldl (fun deriv_mat_ i =>
      (List.range c.prev_layer.outputmaps_).foldl (fun deriv_mat_ j =>
        let der_mat := Mat.ofShape c.prev_layer.mapsize_
          (E.Filter (InitMaps c.self.deriv_mat_ c.self.mapsize_ k i)
            (InitMaps (c.self.weights_.get c.weights) c.self.filtersize_ i j)
            (paddingDer c.self) true c.prev_layer.mapsize_)
        deriv_mat_.addMap c.prev_layer.mapsize_ k j der_mat) deriv_mat_) deriv_mat_) deriv_mat_

/-- The method `LayerConv::Backward`. -/
def LayerConv.Backward (E : Env) (c : Call) : Call :=
  let deriv_mat_ := c.prev_layer.deriv_mat_.resize c.prev_layer.batchsize_ c.prev_layer.length_
  let deriv_mat_ :=
    if E.COMP_REGIME ≠ 2 then backwardLoops E c (deriv_mat_.assign 0)
    else E.ImgActs c.self.deriv_mat_ (c.self.weights_.get c.weights) deriv_mat_
      c.prev_layer.mapsize_ (c.self.padding_.getD 0 0)
  { c with prev_layer := { c.prev_layer with deriv_mat_ := deriv_mat_.Validate } }

/-! ## `LayerConv::CalcWeights` -/

/-- Lines 168-175: the kernel gradient of the pair `(i, j)`, summed over the batch. -/
def filDer (E : Env) (c : Call) (i j : Nat) : Mat :=
  (List.range c.self.batchsize_).foldl (fun fil_der k =>
    let ker_mat := Mat.ofShape c.self.filtersize_
      (E.Filter (InitMaps c.prev_layer.activ_mat_ c.prev_layer.mapsize_ k j)
        (InitMaps c.self.deriv_mat_ c.self.mapsize_ k i)
        c.self.padding_ false c.self.filtersize_)
    fil_der.add ker_mat)
    ((Mat.ofShape c.self.filtersize_ []).assign 0)

/-- Lines 161-178: the two outer loops of `CalcWeights`. -/
def calcLoops (E : Env) (c : Call) (weights_der : Mat) : Mat :=
  (List.range c.self.outputmaps_).foldl (fun weights_der i =>
    (List.range c.prev_layer.outputmaps_).foldl (fun weights_der j =>
      weights_der.setMap c.self.filtersize_ i j (filDer E c i j)) weights_der) weights_der

/-- Lines 183-190: the bias gradient. -/
def calcBias (c : Call) : Option Call := do
  let deriv_mat_ := c.self.deriv_mat_
  mexAssert (deriv_mat_.order == false) "deriv_mat_.order() should be false"
  let size1 ← szDiv (szMul deriv_mat_.size1 deriv_mat_.size2) c.self.outputmaps_
  let m ← deriv_mat_.reshape size1 c.self.outputmaps_
  let biases_der := Sum m (c.self.biases_.der c.weights) 1
  let size2 ← szDiv (szMul m.size1 m.size2) c.self.batchsize_
  let m ← m.reshape c.self.batchsize_ size2
  let biases_der := (biases_der.divScalar (c.self.batchsize_ : ftype)).Validate
  pure { c with
    self := { c.self with deriv_mat_ := m },
    weights := c.self.biases_.setDer c.weights biases_der }

/-- The method `LayerConv::CalcWeights`. For `passnum = 2` the matrix
`weights_der` is the gradient view of the weights: what is written to it is
written to the arena, and it is read back from the arena. Otherwise it is a
local empty matrix. A division of a non-empty matrix by a zero `batchsize_`
leaves no finite value, which `Validate` rejects. -/
def LayerConv.CalcWeights (E : Env) (passnum : Int) (c : Call) : Option Call :=
  if passnum < 2 then pure c
  else do
    let weights_der := if passnum = 2 then c.self.weights_.der c.weights else Mat.empty
    let weights_der :=
      if E.COMP_REGIME ≠ 2 then calcLoops E c weights_der
      else E.WeightActs c.prev_layer.activ_mat_ c.self.deriv_mat_ weights_der
        c.prev_layer.mapsize_ (c.self.padding_.getD 0 0) (c.self.filtersize_.getD 0 0)
        c.self.sum_width_
    let c1 := if passnum = 2 then { c with weights := c.self.weights_.setDer c.weights weights_der }
      else c
    let c2 ← if passnum = 2 then calcBias c1 else pure c1
    let weights_der := if passnum = 2 then c.self.weights_.der c2.weights else weights_der
    mexAssert (decide (c.self.batchsize_ ≠ 0 ∨ weights_der.data = [])) "weights_der.Validate()"
    let weights_der := (weights_der.divScalar (c.self.batchsize_ : ftype)).Validate
    pure (if passnum = 2 then { c2 with weights := c.self.weights_.setDer c2.weights weights_der }
      else c2)

/-! ## `LayerConv::InitWeights`, `LayerConv::GetWeights`, `LayerConv::NumWeights` -/

/-- The loop of lines 197-199 and of lines 231-233: the running product of the
filter extents, in `size_t` arithmetic. -/
def mulFiltersize (self : LayerConv) (start : Nat) : Nat :=
  (List.range self.numdim_).foldl (fun acc i => szMul acc (self.filtersize_.getD i 0)) start

/-- The result of `InitWeights`: the layer, the arena and the offset. -/
structure Attached where
  self : LayerConv
  weights : Arena
  offset : Nat
deriving DecidableEq

/-- The method `LayerConv::InitWeights`. -/
def LayerConv.InitWeights (E : Env) (self : LayerConv) (weights : Arena) (offset : Nat)
    (isgen : Bool) : Attached :=
  let numel := mulFiltersize self 1
  let pixel_num := szMul self.length_prev_ numel
  let weights_ := Weights.Attach offset self.outputmaps_ pixel_num false
  let offset := szAdd offset (szMul self.outputmaps_ pixel_num)
  let weights :=
    if isgen then
      let fan_in := pixel_num
      let fan_out := szMul self.outputmaps_ numel
      let rand_coef : ftype := 2 * E.sqrt ((6 : ftype) / ((szAdd fan_in fan_out : Nat) : ftype))
      weights_.setGet weights
        { (weights_.get weights) with
          data := (E.rand (weights_.size1 * weights_.size2)).map (fun x => (x - 1 / 2) * rand_coef) }
    else weights
  let biases_ := Weights.Attach offset 1 self.outputmaps_ E.kMatlabOrder
  let offset := szAdd offset self.outputmaps_
  let weights :=
    if isgen then biases_.setGet weights ((biases_.get weights).assign 0)
    else weights
  { self := { self with weights_ := weights_, biases_ := biases_ },
    weights := weights, offset := offset }

/-- The result of `GetWeights`: the destination and the offset. -/
structure Exported where
  weights : Mat
  offset : Nat
deriving DecidableEq

/-- Modelled from the spec: `view = m` for the view `attach(dest, offset, size1, size2, order)`
of a flat destination, element by element. -/
def Mat.assignWindow (dest : Mat) (offset size1 size2 : Nat) (order : Bool) (m : Mat) : Mat :=
  let view := Mat.ofFn size1 size2 order (fun i j => m.get i j)
  { dest with data := writeWindow dest.data offset view.data }

/-- The method `LayerConv::GetWeights`. -/
def LayerConv.GetWeights (E : Env) (self : LayerConv) (arena : Arena) (weights : Mat)
    (offset : Nat) : Exported :=
  let pixel_num := (self.weights_.get arena).size2
  let weights := weights.assignWindow offset self.outputmaps_ pixel_num false (self.weights_.get arena)
  let offset := szAdd offset (szMul self.outputmaps_ pixel_num)
  let weights := weights.assignWindow offset 1 self.outputmaps_ E.kMatlabOrder (self.biases_.get arena)
  let offset := szAdd offset self.outputmaps_
  { weights := weights, offset := offset }

/-- The method `LayerConv::NumWeights`. -/
def LayerConv.NumWeights (self : LayerConv) : Nat :=
  let num_weights := mulFiltersize self self.length_prev_
  szMul (szAdd num_weights 1) self.outputmaps_



/-! ## A reference environment -/

/-- Modelled from the spec: the kernel operator on two-dimensional maps. Every
output element is the sum, over the positions of the kernel, of the kernel
element times the input element under it; the input is shifted by the padding
and is zero outside its extents. In transposed mode the kernel is traversed in
reversed order. -/
def correlate (image filter : Mat) (padding : List Nat) (conv : Bool) (mapsize : List Nat) :
    List ftype :=
  (List.range mapsize.prod).map (fun p =>
    let i := p % mapsize.headD 1
    let j := p / mapsize.headD 1
    ((List.range filter.size1).map (fun u =>
      ((List.range filter.size2).map (fun v =>
        if padding.getD 0 0 ≤ i + u ∧ i + u - padding.getD 0 0 < image.size1 ∧
            padding.getD 1 0 ≤ j + v ∧ j + v - padding.getD 1 0 < image.size2 then
          (if conv then filter.get (filter.size1 - 1 - u) (filter.size2 - 1 - v)
            else filter.get u v)
            * image.get (i + u - padding.getD 0 0) (j + v - padding.getD 1 0)
        else 0)).sum)).sum)

/-- A CPU environment with `correlate` as the kernel operator. The accelerated
backend is not used in it; the random source yields the constant 3/4. -/
def cpuEnv : Env :=
  { COMP_REGIME := 0, kMatlabOrder := false,
    Filter := correlate,
    Filter_length := fun _ _ _ _ _ => by simp [correlate],
    FilterActs := fun _ _ activ _ _ => activ,
    ImgActs := fun _ _ deriv _ _ => deriv,
    WeightActs := fun _ _ weights_der _ _ _ _ => weights_der,
    rand := fun n => List.replicate n (3 / 4),
    sqrt := fun x => x }

/-! ## Scenarios -/

/-- A predecessor layer of one channel with the given map extents (an input layer). -/
def scenarioPrev (mapsize : List Nat) : Layer :=
  { type_ := "i", function_ := "", numdim_ := mapsize.length, mapsize_ := mapsize,
    outputmaps_ := 1, length_ := mapsize.prod, batchsize_ := 1,
    activ_mat_ := Mat.empty, deriv_mat_ := Mat.empty }

/-- A configuration of one output map with the given filter extents and padding. -/
def scenarioConfig (filtersize : List ftype) (padding : Option (List ftype)) : MxLayer :=
  { outputmaps := some 1, function := none, filtersize := some filtersize,
    padding := padding, sumwidth := none }

/-- The layer that `Init` makes of the 5x5 scenario with a 3x3 filter and padding 1. -/
def scenarioLayer : LayerConv :=
  { LayerConv.new with
    numdim_ := 2, length_prev_ := 1, outputmaps_ := 1, filtersize_ := [3, 3],
    padding_ := [1, 1], mapsize_ := [5, 5], length_ := 25, sum_width_ := 1 }

/-- A predecessor of 3 channels with 5x5 maps. -/
def countPrev : Layer :=
  { type_ := "i", function_ := "", numdim_ := 2, mapsize_ := [5, 5],
    outputmaps_ := 3, length_ := 75, batchsize_ := 4,
    activ_mat_ := Mat.empty, deriv_mat_ := Mat.empty }

/-- A configuration of 2 output maps with a 3x3 filter. -/
def countConfig : MxLayer :=
  { outputmaps := some 2, function := none, filtersize := some [3, 3],
    padding := none, sumwidth := none }

/-- The layer that `Init` makes of `countConfig` after `countPrev`. -/
def countLayer : LayerConv :=
  { LayerConv.new with
    numdim_ := 2, length_prev_ := 3, outputmaps_ := 2, filtersize_ := [3, 3],
    padding_ := [0, 0], mapsize_ := [3, 3], length_ := 18, sum_width_ := 1 }

/-- The layer that `Init` makes of a `2^32 x 2^32` filter on a `2^32 x 2^32` map. -/
def hugeLayer : LayerConv :=
  { LayerConv.new with
    numdim_ := 2, length_prev_ := 1, outputmaps_ := 1,
    filtersize_ := [4294967296, 4294967296],
    padding_ := [0, 0], mapsize_ := [1, 1], length_ := 1, sum_width_ := 1 }

/-- An arena of 70 parameters, all zero. -/
def countArena : Arena :=
  { values := List.replicate 70 0, ders := List.replicate 70 0 }

/-! ## Specification vocabulary -/

/-- A step on a matrix adds `delta` when it keeps the extents and the order and
adds `delta r c` to every element `(r, c)` within the extents. -/
def Adds (T : Mat → Mat) (delta : Nat → Nat → ftype) : Prop :=
  ∀ a : Mat, (T a).size1 = a.size1 ∧ (T a).size2 = a.size2 ∧ (T a).order = a.order ∧
    ∀ r < a.size1, ∀ c < a.size2, (T a).get r c = a.get r c + delta r c

/-- A step on a matrix sets the region `P` to `v` when it keeps the extents and
the order, leaves a storage of as many elements as the matrix has, and makes
every element `(r, c)` of the region `v r c`, leaving the others as they were. -/
def Sets (T : Mat → Mat) (P : Nat → Nat → Bool) (v : Nat → Nat → ftype) : Prop :=
  ∀ a : Mat, (T a).size1 = a.size1 ∧ (T a).size2 = a.size2 ∧ (T a).order = a.order ∧
    (a.data.length = a.size1 * a.size2 → (T a).data.length = a.size1 * a.size2) ∧
    ∀ r < a.size1, ∀ c < a.size2, (T a).get r c = if P r c then v r c else a.get r c

/-- The element `p` of what `Forward` accumulates into the map of the sample `k`
and the output channel `i`: the sum over the input channels `j` of
`Filter(prev_activ[k][j], filters[i][j], padding_, false)`. -/
def forwardSum (E : Env) (c : Call) (k i p : Nat) : ftype :=
  ((List.range c.prev_layer.outputmaps_).map (fun j =>
    (E.Filter (InitMaps c.prev_layer.activ_mat_ c.prev_layer.mapsize_ k j)
      (InitMaps (c.self.weights_.get c.weights) c.self.filtersize_ i j)
      c.self.padding_ false c.self.mapsize_).getD p 0)).sum

/-- The element `p` of what `Backward` accumulates into the gradient map of the
sample `k` and the input channel `j`: the sum over the output channels `i` of
`Filter(deriv[k][i], filters[i][j], padding_der, true)`. -/
def backwardSum (E : Env) (c : Call) (k j p : Nat) : ftype :=
  ((List.range c.self.outputmaps_).map (fun i =>
    (E.Filter (InitMaps c.self.deriv_mat_ c.self.mapsize_ k i)
      (InitMaps (c.self.weights_.get c.weights) c.self.filtersize_ i j)
      (paddingDer c.self) true c.prev_layer.mapsize_).getD p 0)).sum

/-- The element `p` of the kernel gradient of the pair `(i, j)` before the
division: the sum over the samples `k` of
`Filter(prev_activ[k][j], deriv[k][i], padding_, false)`. -/
def weightSum (E : Env) (c : Call) (i j p : Nat) : ftype :=
  ((List.range c.self.batchsize_).map (fun k =>
    (E.Filter (InitMaps c.prev_layer.activ_mat_ c.prev_layer.mapsize_ k j)
      (InitMaps c.self.deriv_mat_ c.self.mapsize_ k i)
      c.self.padding_ false c.self.filtersize_).getD p 0)).sum

/-- The activation matrix of `Forward` when line 109 is reached (lines 85-108),
before the bias is considered. -/
def preActiv (E : Env) (c : Call) : Mat :=
  if E.COMP_REGIME ≠ 2 then
    forwardLoops E c c.prev_layer.batchsize_
      ((c.self.activ_mat_.resize c.prev_layer.batchsize_ c.self.length_).assign 0)
  else E.FilterActs c.prev_layer.activ_mat_ (c.self.weights_.get c.weights)
    (c.self.activ_mat_.resize c.prev_layer.batchsize_ c.self.length_)
    c.prev_layer.mapsize_ (c.self.padding_.getD 0 0)

/-- The state that `Forward` returns when its activation matrix ends as `a`. -/
def Call.forwarded (c : Call) (a : Mat) : Call :=
  { c with self := { c.self with batchsize_ := c.prev_layer.batchsize_, activ_mat_ := a } }

/-- The call with another parameter arena. -/
def Call.withWeights (c : Call) (weights : Arena) : Call :=
  { c with weights := weights }

/-- The call with another bias container and another parameter arena. -/
def Call.withBiases (c : Call) (biases_ : Weights) (weights : Arena) : Call :=
  { c with self := { c.self with biases_ := biases_ }, weights := weights }

/-- The call in which the activation buffer of the layer holds `buf`. -/
def Call.withActiv (c : Call) (buf : Mat) : Call :=
  { c with self := { c.self with activ_mat_ := buf } }

/-- The call in which the gradient buffer of the predecessor holds `buf`. -/
def Call.withPrevDeriv (c : Call) (buf : Mat) : Call :=
  { c with prev_layer := { c.prev_layer with deriv_mat_ := buf } }

/-- The activations of the predecessor in `sampleCall`: two samples of one 3x3 map. -/
def samplePrevActiv : Mat :=
  { size1 := 2, size2 := 9, order := false,
    data := [1, 2, 0, 1, 3, 0, 1, 1, 2, 2, 0, 1, 1, 0, 0, 3, 1, 1] }

/-- The gradients of the layer in `sampleCall`: two samples of two 2x2 maps. -/
def sampleDeriv : Mat :=
  { size1 := 2, size2 := 8, order := false,
    data := [1, 0, 2, 1, 0, 1, 1, 1, 3, 0, 0, 2, 1, 1, 2, 0] }

/-- The layer of `sampleCall`. -/
def sampleLayer : LayerConv :=
  { LayerConv.new with
    numdim_ := 2, length_prev_ := 1, outputmaps_ := 2, filtersize_ := [2, 2],
    padding_ := [0, 0], mapsize_ := [2, 2], length_ := 8, sum_width_ := 1,
    batchsize_ := 2,
    activ_mat_ := { size1 := 1, size2 := 3, order := false, data := [7, 7, 7] },
    deriv_mat_ := sampleDeriv,
    weights_ := { offset := 0, size1 := 2, size2 := 4, order := false },
    biases_ := { offset := 8, size1 := 1, size2 := 2, order := false } }

/-- A call on a small layer: two samples, one input channel of 3x3 maps, two
output channels with 2x2 filters and 2x2 maps, parameters attached at offset 0
of an arena of 10 elements (8 weights, then 2 biases). -/
def sampleCall : Call :=
  { self := sampleLayer,
    prev_layer :=
      { type_ := "i", function_ := "", numdim_ := 2, mapsize_ := [3, 3], outputmaps_ := 1,
        length_ := 9, batchsize_ := 2, activ_mat_ := samplePrevActiv,
        deriv_mat_ := { size1 := 1, size2 := 2, order := false, data := [5, 5] } },
    weights :=
      { values := [1, 2, 0, 1, 1, 0, 2, 1, 10, 20],
        ders := [9, 9, 9, 9, 9, 9, 9, 9, 9, 9] } }

/-- The sum of the gradient values of the output channel `ch` over all samples
of the batch and all positions of the map. -/
def biasSum (c : Call) (ch : Nat) : ftype :=
  ((List.range c.self.batchsize_).map (fun k =>
    ((List.range c.self.mapsize_.prod).map (fun p =>
      c.self.deriv_mat_.get k (ch * c.self.mapsize_.prod + p))).sum)).sum

/-- The configuration of the layer of `sampleCall`: two output maps, 2x2 filters. -/
def sampleConfig : MxLayer :=
  { outputmaps := some 2, function := none, filtersize := some [2, 2],
    padding := none, sumwidth := none }

/-- A destination of 12 elements, all zero. -/
def sampleDest : Mat :=
  { size1 := 1, size2 := 12, order := false, data := List.replicate 12 0 }

/-! ## The batch loops in a given order of the samples

Under `COMP_REGIME == 1` the batch loops of lines 96, 133 and 171 carry
`#pragma omp parallel for`: the samples are processed in no fixed order. The
definitions below are the bodies of these loops for one sample, and the loops
run over the samples in a given order; the serial strategy is the order
`0, .., batchsize_ - 1` of the source. -/

/-- Lines 97-103: what the batch loop of `Forward` does for the sample `k`. -/
def forwardSample (E : Env) (c : Call) (k : Nat) (activ_mat_ : Mat) : Mat :=
  (List.range c.self.outputmaps_).foldl (fun activ_mat_ i =>
    (List.range c.prev_layer.outputmaps_).foldl (fun activ_mat_ j =>
      let act_mat := Mat.ofShape c.self.mapsize_
        (E.Filter (InitMaps c.prev_layer.activ_mat_ c.prev_layer.mapsize_ k j)
          (InitMaps (c.self.weights_.get c.weights) c.self.filtersize_ i j)
          c.self.padding_ false c.self.mapsize_)
      activ_mat_.addMap c.self.mapsize_ k i act_mat) activ_mat_) activ_mat_

/-- The batch loop of `Forward` over the samples in the given order. -/
def forwardLoopsIn (E : Env) (c : Call) (order : List Nat) (activ_mat_ : Mat) : Mat :=
  order.foldl (fun activ_mat_ k => forwardSample E c k activ_mat_) activ_mat_

/-- Lines 134-140: what the batch loop of `Backward` does for the sample `k`. -/
def backwardSample (E : Env) (c : Call) (k : Nat) (deriv_mat_ : Mat) : Mat :=
  (List.range c.self.outputmaps_).foldl (fun deriv_mat_ i =>
    (List.range c.prev_layer.outputmaps_).foldl (fun deriv_mat_ j =>
      let der_mat := Mat.ofShape c.prev_layer.mapsize_
        (E.Filter (InitMaps c.self.deriv_mat_ c.self.mapsize_ k i)
          (InitMaps (c.self.weights_.get c.weights) c.self.filtersize_ i j)
          (paddingDer c.self) true c.prev_layer.mapsize_)
      deriv_mat_.addMap c.prev_layer.mapsize_ k j der_mat) deriv_mat_) deriv_mat_

/-- The batch loop of `Backward` over the samples in the given order. -/
def backwardLoopsIn (E : Env) (c : Call) (order : List Nat) (deriv_mat_ : Mat) : Mat :=
  order.foldl (fun deriv_mat_ k => backwardSample E c k deriv_mat_) deriv_mat_

/-- Lines 168-175 with the kernels of the samples added in the given order. -/
def filDerIn (E : Env) (c : Call) (i j : Nat) (order : List Nat) : Mat :=
  order.foldl (fun fil_der k =>
    let ker_mat := Mat.ofShape c.self.filtersize_
      (E.Filter (InitMaps c.prev_layer.activ_mat_ c.prev_layer.mapsize_ k j)
        (InitMaps c.self.deriv_mat_ c.self.mapsize_ k i)
        c.self.padding_ false c.self.filtersize_)
    fil_der.add ker_mat)
    ((Mat.ofShape c.self.filtersize_ []).assign 0)

/-- The call in which the activations of the predecessor are `x`. -/
def Call.withPrevActiv (c : Call) (x : Mat) : Call :=
  { c with prev_layer := { c.prev_layer with activ_mat_ := x } }

/-- The call in which the gradient buffer of the layer holds `g`. -/
def Call.withDeriv (c : Call) (g : Mat) : Call :=
  { c with self := { c.self with deriv_mat_ := g } }

/-! # Verification -/

/-! ## Assertions and machine arithmetic -/

theorem mexAssert_eq_some (c : Bool) (msg : String) (u : Unit) :
    mexAssert c msg = some u ↔ c = true := by
  unfold mexAssert
  cases c <;> simp

theorem mexAssert_true (msg : String) : mexAssert true msg = some () := rfl

theorem mexGetField_eq_some {α : Type} (field : Option α) (msg : String) (a : α) :
    mexGetField field msg = some a ↔ field = some a := by
  unfold mexGetField mexAssert
  cases field <;> simp

theorem toSizeT_natCast (n : Nat) (h : n < SIZE_T_MOD) : toSizeT (n : ftype) = n := by
  unfold toSizeT
  rw [Nat.floor_natCast, Nat.mod_eq_of_lt h]

theorem castFtype_of_lt (n : Nat) (h : n < FTYPE_EXACT) : castFtype n = (n : ftype) := by
  unfold castFtype
  rw [if_pos h]

theorem div_two_pow_succ (m s : Nat) : m / 2 ^ (s + 1) = m / 2 / 2 ^ s := by
  rw [Nat.pow_succ, Nat.mul_comm, Nat.div_div_eq_div_mul]

theorem dropBits_div (fuel m : Nat) (h : 2 ^ 23 ≤ m) : 2 ^ 23 ≤ m / 2 ^ dropBits fuel m := by
  induction fuel generalizing m with
  | zero => simpa [dropBits] using h
  | succ f ih =>
    unfold dropBits
    split
    · simpa using h
    · rename_i hm
      have h2 : 2 ^ 23 ≤ m / 2 := by
        unfold FTYPE_EXACT at hm
        omega
      have := ih (m / 2) h2
      rw [div_two_pow_succ]
      exact this

theorem castFtype_ge (n : Nat) (h : FTYPE_EXACT ≤ n) : (FTYPE_EXACT : ftype) ≤ castFtype n := by
  unfold castFtype
  rw [if_neg (by omega)]
  have he : dropBits 64 n = dropBits 63 (n / 2) + 1 := by
    show (if n < FTYPE_EXACT then 0 else dropBits 63 (n / 2) + 1) = _
    rw [if_neg (by omega)]
  have hq : 2 ^ 23 ≤ n / 2 ^ dropBits 64 n := by
    rw [he, div_two_pow_succ]
    exact dropBits_div 63 (n / 2) (by unfold FTYPE_EXACT at h; omega)
  have h2 : 2 ≤ 2 ^ dropBits 64 n := by
    rw [he, Nat.pow_succ]
    have : 0 < 2 ^ dropBits 63 (n / 2) := Nat.pos_pow_of_pos _ (by decide)
    omega
  have hm : n / 2 ^ dropBits 64 n ≤
      (if 2 ^ (dropBits 64 n - 1) < n % 2 ^ dropBits 64 n ∨
        (n % 2 ^ dropBits 64 n = 2 ^ (dropBits 64 n - 1) ∧ n / 2 ^ dropBits 64 n % 2 = 1)
        then n / 2 ^ dropBits 64 n + 1 else n / 2 ^ dropBits 64 n) := by
    split <;> omega
  have : FTYPE_EXACT ≤
      (if 2 ^ (dropBits 64 n - 1) < n % 2 ^ dropBits 64 n ∨
        (n % 2 ^ dropBits 64 n = 2 ^ (dropBits 64 n - 1) ∧ n / 2 ^ dropBits 64 n % 2 = 1)
        then n / 2 ^ dropBits 64 n + 1 else n / 2 ^ dropBits 64 n) * 2 ^ dropBits 64 n := by
    calc FTYPE_EXACT = 2 ^ 23 * 2 := by decide
      _ ≤ _ := Nat.mul_le_mul (le_trans hq hm) h2
  dsimp only
  exact_mod_cast this

theorem le_castFtype_iff (x : ftype) (n : Nat) (hx : x < (FTYPE_EXACT : ftype)) :
    x ≤ castFtype n ↔ x ≤ (n : ftype) := by
  by_cases h : n < FTYPE_EXACT
  · rw [castFtype_of_lt n h]
  · have h1 : (FTYPE_EXACT : ftype) ≤ castFtype n := castFtype_ge n (by omega)
    have h2 : (FTYPE_EXACT : ftype) ≤ (n : ftype) := by exact_mod_cast (by omega : FTYPE_EXACT ≤ n)
    constructor
    · intro _; linarith
    · intro _; linarith

theorem mapExtent_mod (p q f : Nat) :
    mapExtent p q f = (p + 2 * q + 1 + (SIZE_T_MOD - f % SIZE_T_MOD)) % SIZE_T_MOD := by
  unfold mapExtent szAdd szSub szMul SIZE_T_MOD
  omega

theorem mapExtent_eq (p q f : Nat) (h1 : f ≤ p + 2 * q) (h2 : p + 2 * q + 1 - f < SIZE_T_MOD) :
    mapExtent p q f = p + 2 * q + 1 - f := by
  rw [mapExtent_mod]
  unfold SIZE_T_MOD at *
  omega

theorem paddingDer_eq (q f : Nat) (hf : f < SIZE_T_MOD) (h1 : 1 ≤ f) (hq : q ≤ f - 1) :
    szSub (szSub f 1) q = f - 1 - q := by
  unfold szSub SIZE_T_MOD at *
  omega

theorem mapExtent_roundtrip (p q f : Nat) (hp : p < SIZE_T_MOD) (hf : f < SIZE_T_MOD)
    (h1 : 1 ≤ f) (hq : q ≤ f - 1) :
    mapExtent (mapExtent p q f) (szSub (szSub f 1) q) f = p := by
  rw [paddingDer_eq q f hf h1 hq, mapExtent_mod, mapExtent_mod p q f]
  unfold SIZE_T_MOD at *
  omega

/-! ## The loops of `Init` -/

theorem readFiltersize_natCast (fs : List Nat) (h : ∀ x ∈ fs, 1 ≤ x ∧ x < SIZE_T_MOD) :
    readFiltersize (fs.map (Nat.cast : Nat → ftype)) = some fs := by
  induction fs with
  | nil => rfl
  | cons x xs ih =>
    have hx := h x (List.mem_cons_self x xs)
    have hc : (1 : ftype) ≤ (x : ftype) := by exact_mod_cast hx.1
    simp only [List.map_cons, readFiltersize, hc, decide_True, mexAssert_true,
      ih (fun y hy => h y (List.mem_cons_of_mem x hy)), toSizeT_natCast x hx.2,
      Option.bind_eq_bind, Option.some_bind, Option.pure_def]

theorem readPadding_natCast (pd fs : List Nat)
    (h : ∀ d < pd.length, pd.getD d 0 ≤ fs.getD d 0 - 1 ∧ 1 ≤ fs.getD d 0 ∧
      fs.getD d 0 < SIZE_T_MOD)
    (hE : ∀ d < pd.length, pd.getD d 0 < FTYPE_EXACT) :
    readPadding (pd.map (Nat.cast : Nat → ftype)) fs = some pd := by
  induction pd generalizing fs with
  | nil => rfl
  | cons x xs ih =>
    have h0 := h 0 (by simp)
    have hrest : ∀ d < xs.length, xs.getD d 0 ≤ fs.tail.getD d 0 - 1 ∧ 1 ≤ fs.tail.getD d 0 ∧
        fs.tail.getD d 0 < SIZE_T_MOD := by
      intro d hd
      have := h (d + 1) (by simp; omega)
      cases fs with
      | nil => simp at this
      | cons f fs => simpa using this
    have hErest : ∀ d < xs.length, xs.getD d 0 < FTYPE_EXACT := by
      intro d hd
      have := hE (d + 1) (by simp; omega)
      simpa using this
    have hxE : x < FTYPE_EXACT := by simpa using hE 0 (by simp)
    have hhead : fs.headD 0 = fs.getD 0 0 := by cases fs <;> rfl
    have hsub : szSub (fs.headD 0) 1 = fs.getD 0 0 - 1 := by
      rw [hhead]
      have := h0.2.1
      have := h0.2.2
      unfold szSub SIZE_T_MOD at *
      omega
    have hx : x ≤ fs.getD 0 0 - 1 := by simpa using h0.1
    have hxM : x < SIZE_T_MOD := by
      have := h0.2.2
      omega
    have hc : (0 : ftype) ≤ (x : ftype) ∧ (x : ftype) ≤ castFtype (szSub (fs.headD 0) 1) := by
      rw [hsub]
      exact ⟨Nat.cast_nonneg x,
        (le_castFtype_iff _ _ (by exact_mod_cast hxE)).2 (by exact_mod_cast hx)⟩
    simp only [List.map_cons, readPadding, hc, and_self, decide_True, mexAssert_true,
      ih fs.tail hrest hErest, toSizeT_natCast x hxM,
      Option.bind_eq_bind, Option.some_bind, Option.pure_def]

theorem mapLoop_eq_some (pm pd fs : List Nat) (dims : List Nat) (st st1 : MapLoop) :
    mapLoop pm pd fs dims st = some st1 ↔
      (∀ i ∈ dims, 1 ≤ mapExtent (pm.getD i 0) (pd.getD i 0) (fs.getD i 0)) ∧
      st1 = mapLoopResult pm pd fs dims st := by
  induction dims generalizing st with
  | nil => simp [mapLoop, mapLoopResult, eq_comm]
  | cons i rest ih =>
    simp only [mapLoop, mapLoopResult, List.foldl_cons, List.mem_cons, forall_eq_or_imp,
      Option.bind_eq_bind, Option.bind_eq_some, mexAssert_eq_some, decide_eq_true_eq]
    constructor
    · rintro ⟨_, h, h2⟩
      rw [ih] at h2
      exact ⟨⟨h, h2.1⟩, h2.2⟩
    · rintro ⟨⟨h, h2⟩, h3⟩
      exact ⟨(), h, (ih _).2 ⟨h2, h3⟩⟩

theorem mapLoopResult_length (pm pd fs : List Nat) (dims : List Nat) (st : MapLoop) :
    (mapLoopResult pm pd fs dims st).mapsize_.length = st.mapsize_.length := by
  induction dims generalizing st with
  | nil => rfl
  | cons i rest ih =>
    simp only [mapLoopResult, List.foldl_cons] at ih ⊢
    rw [ih]
    simp

theorem mapLoopResult_getD (pm pd fs : List Nat) (dims : List Nat) (st : MapLoop) (d : Nat)
    (hd : d < st.mapsize_.length) (hmem : d ∈ dims) :
    (mapLoopResult pm pd fs dims st).mapsize_.getD d 0 =
      mapExtent (pm.getD d 0) (pd.getD d 0) (fs.getD d 0) := by
  induction dims generalizing st with
  | nil => simp at hmem
  | cons i rest ih =>
    simp only [mapLoopResult, List.foldl_cons] at ih ⊢
    by_cases hr : d ∈ rest
    · exact ih _ (by simpa using hd) hr
    · have hdi : d = i := by
        rcases List.mem_cons.1 hmem with h | h
        · exact h
        · exact absurd h hr
      subst hdi
      have key : ∀ (rest : List Nat) (st : MapLoop), d ∉ rest →
          (List.foldl (fun st i =>
            ({ mapsize_ := st.mapsize_.set i (mapExtent (pm.getD i 0) (pd.getD i 0) (fs.getD i 0)),
               minsize_ := if mapExtent (pm.getD i 0) (pd.getD i 0) (fs.getD i 0) < st.minsize_
                 then mapExtent (pm.getD i 0) (pd.getD i 0) (fs.getD i 0) else st.minsize_,
               length_ := szMul st.length_ (mapExtent (pm.getD i 0) (pd.getD i 0) (fs.getD i 0)) }
              : MapLoop)) st rest).mapsize_.getD d 0 = st.mapsize_.getD d 0 := by
        intro rest
        induction rest with
        | nil => intro st _; rfl
        | cons j rest ih2 =>
          intro st hj
          simp only [List.foldl_cons]
          rw [ih2 _ (fun h => hj (List.mem_cons_of_mem j h))]
          have hne : j ≠ d := fun h => hj (h ▸ List.mem_cons_self j rest)
          simp [List.getD_eq_getElem?_getD, List.getElem?_set, hne]
      rw [key rest _ hr]
      simp [List.getD_eq_getElem?_getD, List.getElem?_set, hd]

theorem mapLoopResult_minsize_ge (pm pd fs : List Nat) (dims : List Nat) (st : MapLoop) (w : Nat)
    (h0 : w ≤ st.minsize_)
    (h : ∀ i ∈ dims, w ≤ mapExtent (pm.getD i 0) (pd.getD i 0) (fs.getD i 0)) :
    w ≤ (mapLoopResult pm pd fs dims st).minsize_ := by
  induction dims generalizing st with
  | nil => exact h0
  | cons i rest ih =>
    simp only [mapLoopResult, List.foldl_cons] at ih ⊢
    apply ih
    · have := h i (List.mem_cons_self i rest)
      simp only
      split <;> assumption
    · exact fun j hj => h j (List.mem_cons_of_mem i hj)

theorem mexGetField_some {α : Type} (a : α) (msg : String) :
    mexGetField (some a) msg = some a := rfl

/-! ## C1: the shape law of `Init` -/

/-- C1 (as amended). For every predecessor with at least one spatial dimension
that is not fully connected and every valid configuration (output maps at least
1 and below `2^64`, where the cast of line 37 is defined, a known function tag
or none, filter extents `fs` at least 1, paddings `pd` with `pd[d] ≤ fs[d] - 1`,
zero when the field is absent, an isotropic shape under the accelerated regime,
a block width within range; paddings and block width below `2^24`, where the
comparisons of lines 59 and 77 are exact) such that for every dimension `d` the
extent `prevMapShape[d] + 2 * pd[d] - fs[d] + 1` is at least 1 and below `2^64`,
`Init` succeeds and stores exactly this extent in `mapsize_[d]`. -/
theorem Init_shape_law (R : Nat) (cfg : MxLayer) (prev : Layer) (self : LayerConv)
    (om : ftype) (fs pd : List Nat)
    (hdim : 0 < prev.numdim_)
    (hprev : prev.type_ ≠ "f")
    (hom : cfg.outputmaps = some om) (hom1 : 1 ≤ om) (homM : om < (SIZE_T_MOD : ftype))
    (hfun : ∀ f, cfg.function = some f → f = "soft" ∨ f = "sigm" ∨ f = "relu")
    (hfs : cfg.filtersize = some (fs.map (Nat.cast : Nat → ftype)))
    (hfslen : fs.length = prev.numdim_)
    (hfs1 : ∀ d < prev.numdim_, 1 ≤ fs.getD d 0 ∧ fs.getD d 0 < SIZE_T_MOD)
    (hpd : cfg.padding = some (pd.map (Nat.cast : Nat → ftype)) ∨
      (cfg.padding = none ∧ pd = List.replicate prev.numdim_ 0))
    (hpdlen : pd.length = prev.numdim_)
    (hpd1 : ∀ d < prev.numdim_, pd.getD d 0 ≤ fs.getD d 0 - 1 ∧ pd.getD d 0 < FTYPE_EXACT)
    (hR : R = 2 → fs.getD 0 0 = fs.getD 1 0 ∧ pd.getD 0 0 = pd.getD 1 0)
    (hext : ∀ d < prev.numdim_, fs.getD d 0 ≤ prev.mapsize_.getD d 0 + 2 * pd.getD d 0 ∧
      prev.mapsize_.getD d 0 + 2 * pd.getD d 0 + 1 - fs.getD d 0 < SIZE_T_MOD)
    (hsw : ∀ w, cfg.sumwidth = some w → 1 ≤ w ∧ w < (FTYPE_EXACT : ftype) ∧
      ∀ d < prev.numdim_,
        w ≤ ((mapExtent (prev.mapsize_.getD d 0) (pd.getD d 0) (fs.getD d 0) : Nat) : ftype)) :
    ∃ L, LayerConv.Init R cfg prev self = some L ∧
      L.filtersize_ = fs ∧ L.padding_ = pd ∧ L.mapsize_.length = prev.numdim_ ∧
      ∀ d < prev.numdim_, ((L.mapsize_.getD d 0 : Nat) : Int) =
        (prev.mapsize_.getD d 0 : Int) + 2 * (pd.getD d 0 : Int) - (fs.getD d 0 : Int) + 1 := by
  have _hcast : om < (SIZE_T_MOD : ftype) := homM
  have hmem : ∀ x ∈ fs, 1 ≤ x ∧ x < SIZE_T_MOD := by
    intro x hx
    obtain ⟨d, hd, rfl⟩ := List.getElem_of_mem hx
    have := hfs1 d (hfslen ▸ hd)
    simpa [List.getD_eq_getElem?_getD, List.getElem?_eq_getElem hd] using this
  have hF := readFiltersize_natCast fs hmem
  have hP : readPaddingField R cfg prev.numdim_ fs = some pd := by
    unfold readPaddingField
    rcases hpd with h | ⟨h, h2⟩
    · have hrp := readPadding_natCast pd fs (fun d hd =>
        ⟨(hpd1 d (hpdlen ▸ hd)).1, hfs1 d (hpdlen ▸ hd)⟩) (fun d hd => (hpd1 d (hpdlen ▸ hd)).2)
      simp only [h, List.length_map, hpdlen, decide_True, mexAssert_true, hrp,
        Option.bind_eq_bind, Option.some_bind, Option.pure_def]
      have : decide (R = 2 → pd.getD 0 0 = pd.getD 1 0) = true :=
        decide_eq_true (fun h => (hR h).2)
      rw [this]
      rfl
    · simp only [h, h2, Option.pure_def]
  have hext' : ∀ d < prev.numdim_,
      mapExtent (prev.mapsize_.getD d 0) (pd.getD d 0) (fs.getD d 0) =
        prev.mapsize_.getD d 0 + 2 * pd.getD d 0 + 1 - fs.getD d 0 :=
    fun d hd => mapExtent_eq _ _ _ (hext d hd).1 (hext d hd).2
  have hL := (mapLoop_eq_some prev.mapsize_ pd fs (List.range prev.numdim_)
    { mapsize_ := List.replicate prev.numdim_ 0,
      minsize_ := mapExtent (prev.mapsize_.getD 0 0) (pd.getD 0 0) (fs.getD 0 0),
      length_ := toSizeT om } _).2 ⟨(by
        intro i hi
        rw [hext' i (List.mem_range.1 hi)]
        have := (hext i (List.mem_range.1 hi)).1
        omega), rfl⟩
  have hS : ∃ sw, readSumwidth cfg (mapLoopResult prev.mapsize_ pd fs (List.range prev.numdim_)
      { mapsize_ := List.replicate prev.numdim_ 0,
        minsize_ := mapExtent (prev.mapsize_.getD 0 0) (pd.getD 0 0) (fs.getD 0 0),
        length_ := toSizeT om }).minsize_ self = some sw := by
    unfold readSumwidth
    cases hw : cfg.sumwidth with
    | none => exact ⟨_, rfl⟩
    | some w =>
      obtain ⟨hw1, hwE, hw2⟩ := hsw w hw
      refine ⟨toSizeT w, ?_⟩
      have hfl : ∀ n : Nat, w ≤ (n : ftype) → ⌈w⌉₊ ≤ n := fun n h => Nat.ceil_le.2 h
      have hle : ⌈w⌉₊ ≤ (mapLoopResult prev.mapsize_ pd fs (List.range prev.numdim_)
          { mapsize_ := List.replicate prev.numdim_ 0,
            minsize_ := mapExtent (prev.mapsize_.getD 0 0) (pd.getD 0 0) (fs.getD 0 0),
            length_ := toSizeT om }).minsize_ := by
        apply mapLoopResult_minsize_ge
        · exact hfl _ (hw2 0 hdim)
        · exact fun i hi => hfl _ (hw2 i (List.mem_range.1 hi))
      have hle' : w ≤ castFtype (mapLoopResult prev.mapsize_ pd fs (List.range prev.numdim_)
          { mapsize_ := List.replicate prev.numdim_ 0,
            minsize_ := mapExtent (prev.mapsize_.getD 0 0) (pd.getD 0 0) (fs.getD 0 0),
            length_ := toSizeT om }).minsize_ :=
        (le_castFtype_iff _ _ hwE).2 (le_trans (Nat.le_ceil w) (by exact_mod_cast hle))
      simp only [hw1, hle', and_self, decide_True, mexAssert_true,
        Option.bind_eq_bind, Option.some_bind, Option.pure_def]
  obtain ⟨sw, hS⟩ := hS
  have hFun : ∃ fn, readFunction cfg self = some fn := by
    unfold readFunction
    cases hf : cfg.function with
    | none => exact ⟨_, rfl⟩
    | some f =>
      have := hfun f hf
      exact ⟨f, by simp only [this, decide_True, mexAssert_true,
        Option.bind_eq_bind, Option.some_bind, Option.pure_def]⟩
  obtain ⟨fn, hFun⟩ := hFun
  have hRf : decide (R = 2 → fs.getD 0 0 = fs.getD 1 0) = true :=
    decide_eq_true (fun h => (hR h).1)
  have hI : LayerConv.Init R cfg prev self = some { self with
      numdim_ := prev.numdim_, length_prev_ := prev.outputmaps_, outputmaps_ := toSizeT om,
      function_ := fn, filtersize_ := fs, padding_ := pd,
      mapsize_ := (mapLoopResult prev.mapsize_ pd fs (List.range prev.numdim_)
        { mapsize_ := List.replicate prev.numdim_ 0,
          minsize_ := mapExtent (prev.mapsize_.getD 0 0) (pd.getD 0 0) (fs.getD 0 0),
          length_ := toSizeT om }).mapsize_,
      length_ := (mapLoopResult prev.mapsize_ pd fs (List.range prev.numdim_)
        { mapsize_ := List.replicate prev.numdim_ 0,
          minsize_ := mapExtent (prev.mapsize_.getD 0 0) (pd.getD 0 0) (fs.getD 0 0),
          length_ := toSizeT om }).length_,
      sum_width_ := sw } := by
    unfold LayerConv.Init
    simp only [hprev, ne_eq, not_false_eq_true, decide_True, mexAssert_true, hom, hfs,
      mexGetField_some, hom1, hFun, List.length_map, hfslen, hF, hRf, hP, hL, hS,
      Option.bind_eq_bind, Option.some_bind, Option.pure_def]
  refine ⟨_, hI, rfl, rfl, ?_, ?_⟩
  · simp [mapLoopResult_length]
  · intro d hd
    show (((mapLoopResult _ _ _ _ _).mapsize_.getD d 0 : Nat) : Int) = _
    rw [mapLoopResult_getD _ _ _ _ _ d (by simpa using hd) (List.mem_range.2 hd), hext' d hd]
    have := (hext d hd).1
    omega

/-- The witness that the hypotheses of `Init_shape_law` can be met: the
scenario of the specification with padding 1 (5x5 input, 3x3 filter, output
5x5), and the evaluation of the scenario with padding 0 (output 3x3). -/
theorem Init_shape_law_witness :
    (∃ L, LayerConv.Init 0 (scenarioConfig [3, 3] (some [1, 1])) (scenarioPrev [5, 5])
        LayerConv.new = some L ∧
      L.filtersize_ = [3, 3] ∧ L.padding_ = [1, 1] ∧ L.mapsize_.length = 2 ∧
      ∀ d < 2, ((L.mapsize_.getD d 0 : Nat) : Int) =
        (([5, 5] : List Nat).getD d 0 : Int) + 2 * (([1, 1] : List Nat).getD d 0 : Int)
          - (([3, 3] : List Nat).getD d 0 : Int) + 1) ∧
    (LayerConv.Init 0 (scenarioConfig [3, 3] (some [1, 1])) (scenarioPrev [5, 5])
        LayerConv.new).map (fun L => L.mapsize_) = some [5, 5] ∧
    (LayerConv.Init 0 (scenarioConfig [3, 3] none) (scenarioPrev [5, 5])
        LayerConv.new).map (fun L => L.mapsize_) = some [3, 3] :=
  ⟨Init_shape_law 0 (scenarioConfig [3, 3] (some [1, 1])) (scenarioPrev [5, 5]) LayerConv.new
      1 [3, 3] [1, 1] (by decide) (by decide) rfl (by decide) (by norm_num [SIZE_T_MOD])
      (by intro f h; cases h) rfl rfl
      (by decide) (Or.inl rfl) rfl (by decide) (by decide) (by decide) (by intro w h; cases h),
    by decide, by decide⟩

/-- C1, counterexample. The claim as stated fails where the extent does not fit
a `size_t`: for a predecessor map of extent `2^64 - 1` in dimension 0, filter 3
and padding 2, every hypothesis of the claim holds (the extent
`2^64 - 1 + 2 * 2 - 3 + 1` is at least 1), `Init` succeeds, and it stores 1 in
`mapsize_[0]`, not `2^64 + 1`. -/
theorem Init_shape_law_overflow :
    (∀ d < 2, (1 : Int) ≤ (([18446744073709551615, 5] : List Nat).getD d 0 : Int)
      + 2 * (([2, 2] : List Nat).getD d 0 : Int) - (([3, 3] : List Nat).getD d 0 : Int) + 1) ∧
    (LayerConv.Init 0 (scenarioConfig [3, 3] (some [2, 2]))
      (scenarioPrev [18446744073709551615, 5]) LayerConv.new).map (fun L => L.mapsize_)
        = some [1, 7] ∧
    ¬ ∃ L, LayerConv.Init 0 (scenarioConfig [3, 3] (some [2, 2]))
        (scenarioPrev [18446744073709551615, 5]) LayerConv.new = some L ∧
      ∀ d < 2, ((L.mapsize_.getD d 0 : Nat) : Int) =
        (([18446744073709551615, 5] : List Nat).getD d 0 : Int)
          + 2 * (([2, 2] : List Nat).getD d 0 : Int) - (([3, 3] : List Nat).getD d 0 : Int) + 1 := by
  have h : (LayerConv.Init 0 (scenarioConfig [3, 3] (some [2, 2]))
      (scenarioPrev [18446744073709551615, 5]) LayerConv.new).map (fun L => L.mapsize_)
        = some [1, 7] := by decide
  refine ⟨by decide, h, ?_⟩
  rintro ⟨L, hL, hd⟩
  rw [hL] at h
  have h0 := hd 0 (by decide)
  simp only [Option.map_some', Option.some.injEq] at h
  rw [h] at h0
  revert h0
  decide


/-! ## C2: maps that are too small -/

/-- C2, evaluation at the failing input. For a 2x2 predecessor map, a 5x5 filter
and no padding the extent `2 + 2 * 0 - 5 + 1` is negative in every dimension,
yet `Init` completes and stores `2^64 - 2` as both map extents: the `size_t`
subtraction of line 70 wraps around and the assertion of line 71 passes. When
the extent is exactly zero (4x4 predecessor map), the assertion does fire. -/
theorem Init_accepts_negative_extent :
    (∀ d < 2, (([2, 2] : List Nat).getD d 0 : Int) + 2 * 0 - (([5, 5] : List Nat).getD d 0 : Int) + 1
      < 1) ∧
    (LayerConv.Init 0 (scenarioConfig [5, 5] none) (scenarioPrev [2, 2]) LayerConv.new).map
      (fun L => (L.mapsize_, L.length_))
        = some ([18446744073709551614, 18446744073709551614], 4) ∧
    LayerConv.Init 0 (scenarioConfig [5, 5] none) (scenarioPrev [4, 4]) LayerConv.new = none := by
  decide

/-! ## What a successful `Init` has done -/

theorem Init_eq_some_iff (R : Nat) (cfg : MxLayer) (prev : Layer) (self L : LayerConv) :
    LayerConv.Init R cfg prev self = some L ↔
      ∃ om fn q fs pd st sw,
        prev.type_ ≠ "f" ∧ cfg.outputmaps = some om ∧ 1 ≤ om ∧
        readFunction cfg self = some fn ∧
        cfg.filtersize = some q ∧ q.length = prev.numdim_ ∧ readFiltersize q = some fs ∧
        (R = 2 → fs.getD 0 0 = fs.getD 1 0) ∧
        readPaddingField R cfg prev.numdim_ fs = some pd ∧
        mapLoop prev.mapsize_ pd fs (List.range prev.numdim_)
          { mapsize_ := List.replicate prev.numdim_ 0,
            minsize_ := mapExtent (prev.mapsize_.getD 0 0) (pd.getD 0 0) (fs.getD 0 0),
            length_ := toSizeT om } = some st ∧
        readSumwidth cfg st.minsize_ self = some sw ∧
        L = { self with
          numdim_ := prev.numdim_, length_prev_ := prev.outputmaps_, outputmaps_ := toSizeT om,
          function_ := fn, filtersize_ := fs, padding_ := pd,
          mapsize_ := st.mapsize_, length_ := st.length_, sum_width_ := sw } := by
  unfold LayerConv.Init
  simp only [Option.bind_eq_bind, Option.bind_eq_some, mexAssert_eq_some, mexGetField_eq_some,
    decide_eq_true_eq, Option.pure_def, Option.some.injEq]
  constructor
  · rintro ⟨_, h1, om, h2, _, h3, fn, h4, q, h5, _, h6, fs, h7, _, h8, pd, h9, st, h10, sw, h11, h12⟩
    exact ⟨om, fn, q, fs, pd, st, sw, h1, h2, h3, h4, h5, h6, h7, h8, h9, h10, h11, h12.symm⟩
  · rintro ⟨om, fn, q, fs, pd, st, sw, h1, h2, h3, h4, h5, h6, h7, h8, h9, h10, h11, h12⟩
    exact ⟨(), h1, om, h2, (), h3, fn, h4, q, h5, (), h6, fs, h7, (), h8, pd, h9, st, h10, sw, h11,
      h12.symm⟩

theorem readFiltersize_lt (q : List ftype) (fs : List Nat) (h : readFiltersize q = some fs) :
    fs.length = q.length ∧ ∀ d, fs.getD d 0 < SIZE_T_MOD := by
  induction q generalizing fs with
  | nil =>
    simp only [readFiltersize, Option.some.injEq] at h
    subst h
    exact ⟨rfl, fun d => by simp [SIZE_T_MOD]⟩
  | cons x xs ih =>
    simp only [readFiltersize, Option.bind_eq_bind, Option.bind_eq_some, mexAssert_eq_some,
      Option.pure_def, Option.some.injEq] at h
    obtain ⟨_, _, rest, hrest, rfl⟩ := h
    obtain ⟨h1, h2⟩ := ih rest hrest
    refine ⟨by simp [h1], fun d => ?_⟩
    cases d with
    | zero =>
      simp only [List.getD_cons_zero, toSizeT]
      exact Nat.mod_lt _ (by simp [SIZE_T_MOD])
    | succ d => simpa using h2 d


/-! ## C3: the round-trip shape law -/

theorem paddingDer_getD (L : LayerConv) (d : Nat) (hd : d < L.numdim_) :
    (paddingDer L).getD d 0 = szSub (szSub (L.filtersize_.getD d 0) 1) (L.padding_.getD d 0) := by
  unfold paddingDer
  rw [List.getD_eq_getElem?_getD, List.getElem?_map, List.getElem?_range hd]
  rfl

/-- C3. After a successful `Init`, for every dimension `d` whose padding is
within `[0, filterShape[d] - 1]`: the complementary padding that `Backward`
computes is `filterShape[d] - 1 - padding[d]`, and the output-extent formula of
the kernel operator, applied in `size_t` arithmetic to the stored `mapShape[d]`
with this padding, gives `prevMapShape[d]` exactly; over the integers the same
holds whenever the stored `mapShape[d]` is the extent of the shape law. -/
theorem roundtrip_shape_law (R : Nat) (cfg : MxLayer) (prev : Layer) (self L : LayerConv)
    (hI : LayerConv.Init R cfg prev self = some L) (d : Nat) (hd : d < prev.numdim_)
    (hprev : prev.mapsize_.getD d 0 < SIZE_T_MOD)
    (hpad : (L.padding_.getD d 0 : Int) ≤ (L.filtersize_.getD d 0 : Int) - 1) :
    ((paddingDer L).getD d 0 : Int) =
        (L.filtersize_.getD d 0 : Int) - 1 - (L.padding_.getD d 0 : Int) ∧
      mapExtent (L.mapsize_.getD d 0) ((paddingDer L).getD d 0) (L.filtersize_.getD d 0) =
        prev.mapsize_.getD d 0 ∧
      ((L.mapsize_.getD d 0 : Int) = (prev.mapsize_.getD d 0 : Int)
          + 2 * (L.padding_.getD d 0 : Int) - (L.filtersize_.getD d 0 : Int) + 1 →
        (L.mapsize_.getD d 0 : Int) + 2 * ((paddingDer L).getD d 0 : Int)
          - (L.filtersize_.getD d 0 : Int) + 1 = (prev.mapsize_.getD d 0 : Int)) := by
  obtain ⟨om, fn, q, fs, pd, st, sw, -, -, -, -, -, -, hfs, -, -, hloop, -, rfl⟩ :=
    (Init_eq_some_iff R cfg prev self L).1 hI
  obtain ⟨-, hst⟩ := (mapLoop_eq_some _ _ _ _ _ _).1 hloop
  have hf := (readFiltersize_lt q fs hfs).2 d
  have hpd := paddingDer_getD { self with
      numdim_ := prev.numdim_, length_prev_ := prev.outputmaps_, outputmaps_ := toSizeT om,
      function_ := fn, filtersize_ := fs, padding_ := pd,
      mapsize_ := st.mapsize_, length_ := st.length_, sum_width_ := sw } d hd
  simp only at hpad hpd ⊢
  have h1 : 1 ≤ fs.getD d 0 := by omega
  have hq : pd.getD d 0 ≤ fs.getD d 0 - 1 := by omega
  have hm : st.mapsize_.getD d 0 =
      mapExtent (prev.mapsize_.getD d 0) (pd.getD d 0) (fs.getD d 0) := by
    rw [hst]
    exact mapLoopResult_getD _ _ _ _ _ d (by simpa using hd) (List.mem_range.2 hd)
  have hder := paddingDer_eq (pd.getD d 0) (fs.getD d 0) hf h1 hq
  rw [hpd]
  refine ⟨?_, ?_, ?_⟩
  · rw [hder]
    omega
  · rw [hm]
    exact mapExtent_roundtrip _ _ _ hprev hf h1 hq
  · intro h
    rw [hder]
    omega

/-- The witness of `roundtrip_shape_law`: the 5x5 scenario with a 3x3 filter
and padding 1, in dimension 0. The complementary padding is 1 and the extent 5
is recovered. -/
theorem roundtrip_shape_law_witness :
    LayerConv.Init 0 (scenarioConfig [3, 3] (some [1, 1])) (scenarioPrev [5, 5]) LayerConv.new
      = some scenarioLayer ∧
    ((paddingDer scenarioLayer).getD 0 0 : Int) =
        (scenarioLayer.filtersize_.getD 0 0 : Int) - 1 - (scenarioLayer.padding_.getD 0 0 : Int) ∧
      mapExtent (scenarioLayer.mapsize_.getD 0 0) ((paddingDer scenarioLayer).getD 0 0)
        (scenarioLayer.filtersize_.getD 0 0) = (scenarioPrev [5, 5]).mapsize_.getD 0 0 ∧
      ((scenarioLayer.mapsize_.getD 0 0 : Int) = ((scenarioPrev [5, 5]).mapsize_.getD 0 0 : Int)
          + 2 * (scenarioLayer.padding_.getD 0 0 : Int)
          - (scenarioLayer.filtersize_.getD 0 0 : Int) + 1 →
        (scenarioLayer.mapsize_.getD 0 0 : Int) + 2 * ((paddingDer scenarioLayer).getD 0 0 : Int)
          - (scenarioLayer.filtersize_.getD 0 0 : Int) + 1
          = ((scenarioPrev [5, 5]).mapsize_.getD 0 0 : Int)) :=
  ⟨by decide,
    roundtrip_shape_law 0 (scenarioConfig [3, 3] (some [1, 1])) (scenarioPrev [5, 5])
      LayerConv.new scenarioLayer (by decide) 0 (by decide) (by decide) (by decide)⟩


/-! ## C4: the number of parameters -/

theorem foldl_szMul_mod (f : Nat → Nat) (n a : Nat) :
    ((List.range n).foldl (fun acc i => szMul acc (f i)) a) % SIZE_T_MOD =
      (a * ((List.range n).map f).prod) % SIZE_T_MOD := by
  induction n with
  | zero => simp
  | succ n ih =>
    rw [List.range_succ, List.foldl_append, List.map_append, List.prod_append]
    simp only [List.foldl_cons, List.foldl_nil, List.map_cons, List.map_nil, List.prod_cons,
      List.prod_nil, mul_one]
    rw [szMul, Nat.mod_mod, Nat.mul_mod, ih, ← Nat.mul_mod, mul_assoc]

theorem map_getD_range (l : List Nat) :
    (List.range l.length).map (fun i => l.getD i 0) = l := by
  apply List.ext_getElem
  · simp
  · intro i h1 h2
    simp [List.getD_eq_getElem?_getD, List.getElem?_eq_getElem h2]

theorem mulFiltersize_mod (L : LayerConv) (h : L.filtersize_.length = L.numdim_) (a : Nat) :
    mulFiltersize L a % SIZE_T_MOD = (a * L.filtersize_.prod) % SIZE_T_MOD := by
  unfold mulFiltersize
  rw [foldl_szMul_mod, ← h, map_getD_range]

theorem Init_filtersize_length (R : Nat) (cfg : MxLayer) (prev : Layer) (self L : LayerConv)
    (hI : LayerConv.Init R cfg prev self = some L) :
    L.filtersize_.length = L.numdim_ ∧ L.numdim_ = prev.numdim_ ∧
      L.length_prev_ = prev.outputmaps_ := by
  obtain ⟨om, fn, q, fs, pd, st, sw, -, -, -, -, -, hq, hfs, -, -, -, -, rfl⟩ :=
    (Init_eq_some_iff R cfg prev self L).1 hI
  exact ⟨by rw [(readFiltersize_lt q fs hfs).1, hq], rfl, rfl⟩

theorem NumWeights_mod (L : LayerConv) (h : L.filtersize_.length = L.numdim_) :
    L.NumWeights =
      (L.outputmaps_ * (L.length_prev_ * L.filtersize_.prod + 1)) % SIZE_T_MOD := by
  unfold LayerConv.NumWeights
  simp only [szMul, szAdd]
  rw [Nat.mul_mod, Nat.mod_mod, Nat.add_mod, mulFiltersize_mod L h, ← Nat.add_mod, ← Nat.mul_mod,
    mul_comm]

/-- C4 (as amended). For every initialised layer, `NumWeights` returns
`channels * (prevChannels * kernelVolume + 1)` reduced modulo `2^64`, which is
this very number whenever it is below `2^64`; `kernelVolume` is the product of
the filter extents and `prevChannels` the channel count of the predecessor
recorded at `Init`. -/
theorem NumWeights_eq (R : Nat) (cfg : MxLayer) (prev : Layer) (self L : LayerConv)
    (hI : LayerConv.Init R cfg prev self = some L) :
    L.length_prev_ = prev.outputmaps_ ∧
    L.NumWeights =
      (L.outputmaps_ * (L.length_prev_ * L.filtersize_.prod + 1)) % SIZE_T_MOD ∧
    (L.outputmaps_ * (L.length_prev_ * L.filtersize_.prod + 1) < SIZE_T_MOD →
      L.NumWeights = L.outputmaps_ * (L.length_prev_ * L.filtersize_.prod + 1)) := by
  obtain ⟨h1, -, h3⟩ := Init_filtersize_length R cfg prev self L hI
  refine ⟨h3, NumWeights_mod L h1, fun hlt => ?_⟩
  rw [NumWeights_mod L h1, Nat.mod_eq_of_lt hlt]

/-- The witness of `NumWeights_eq`: 2 channels after 3 channels with a 3x3
filter have 56 parameters. -/
theorem NumWeights_eq_witness :
    LayerConv.Init 0 countConfig countPrev LayerConv.new = some countLayer ∧
    countLayer.NumWeights = 56 ∧
    (countLayer.length_prev_ = countPrev.outputmaps_ ∧
    countLayer.NumWeights =
      (countLayer.outputmaps_ * (countLayer.length_prev_ * countLayer.filtersize_.prod + 1))
        % SIZE_T_MOD ∧
    (countLayer.outputmaps_ * (countLayer.length_prev_ * countLayer.filtersize_.prod + 1)
        < SIZE_T_MOD →
      countLayer.NumWeights =
        countLayer.outputmaps_ * (countLayer.length_prev_ * countLayer.filtersize_.prod + 1))) :=
  ⟨by decide, by decide,
    NumWeights_eq 0 countConfig countPrev LayerConv.new countLayer (by decide)⟩

/-- C4, counterexample. A layer of one channel after one channel with a filter
of `2^32 x 2^32` on a map of `2^32 x 2^32` is initialised; its
`channels * (prevChannels * kernelVolume + 1)` is `2^64 + 1`, and `NumWeights`
returns 1. -/
theorem NumWeights_overflow :
    LayerConv.Init 0 (scenarioConfig [4294967296, 4294967296] none)
      (scenarioPrev [4294967296, 4294967296]) LayerConv.new = some hugeLayer ∧
    hugeLayer.outputmaps_ * (hugeLayer.length_prev_ * hugeLayer.filtersize_.prod + 1)
      = 18446744073709551617 ∧
    hugeLayer.NumWeights = 1 ∧
    hugeLayer.NumWeights ≠
      hugeLayer.outputmaps_ * (hugeLayer.length_prev_ * hugeLayer.filtersize_.prod + 1) := by
  decide


/-! ## C5: the span of the parameters -/

theorem mulFiltersize_lt (L : LayerConv) (a : Nat) (ha : a < SIZE_T_MOD) :
    mulFiltersize L a < SIZE_T_MOD := by
  unfold mulFiltersize
  generalize L.numdim_ = n
  induction n with
  | zero => simpa using ha
  | succ n _ =>
    rw [List.range_succ, List.foldl_append]
    simp only [List.foldl_cons, List.foldl_nil, szMul]
    exact Nat.mod_lt _ (by simp [SIZE_T_MOD])

theorem span_offset (o om X : Nat) :
    szAdd (szAdd o (szMul om (X % SIZE_T_MOD))) om =
      (o + (om * (X + 1)) % SIZE_T_MOD) % SIZE_T_MOD := by
  unfold szAdd szMul
  have e1 : om * (X % SIZE_T_MOD) ≡ om * X [MOD SIZE_T_MOD] :=
    (Nat.mod_modEq X SIZE_T_MOD).mul_left om
  have e2 : (o + om * (X % SIZE_T_MOD) % SIZE_T_MOD) % SIZE_T_MOD + om ≡ o + om * X + om
      [MOD SIZE_T_MOD] :=
    ((Nat.mod_modEq _ _).trans (((Nat.mod_modEq _ _).trans e1).add_left o)).add_right om
  have e3 : o + om * (X + 1) % SIZE_T_MOD ≡ o + om * X + om [MOD SIZE_T_MOD] := by
    have : o + om * X + om = o + om * (X + 1) := by ring
    rw [this]
    exact (Nat.mod_modEq _ _).add_left o
  exact e2.trans e3.symm

theorem pixel_num_eq (L : LayerConv) (h : L.filtersize_.length = L.numdim_) :
    szMul L.length_prev_ (mulFiltersize L 1) =
      (L.length_prev_ * L.filtersize_.prod) % SIZE_T_MOD := by
  have h1 : mulFiltersize L 1 = L.filtersize_.prod % SIZE_T_MOD := by
    have := mulFiltersize_mod L h 1
    rwa [Nat.mod_eq_of_lt (mulFiltersize_lt L 1 (by simp [SIZE_T_MOD])), one_mul] at this
  rw [szMul, h1, Nat.mul_mod, Nat.mod_mod, ← Nat.mul_mod]

theorem InitWeights_offset (E : Env) (L : LayerConv) (h : L.filtersize_.length = L.numdim_)
    (W : Arena) (o : Nat) (isgen : Bool) :
    (L.InitWeights E W o isgen).offset = (o + L.NumWeights) % SIZE_T_MOD := by
  rw [NumWeights_mod L h]
  show szAdd (szAdd o (szMul L.outputmaps_ (szMul L.length_prev_ (mulFiltersize L 1))))
    L.outputmaps_ = _
  rw [pixel_num_eq L h, span_offset]

theorem GetWeights_offset (E : Env) (L : LayerConv) (h : L.filtersize_.length = L.numdim_)
    (hw : L.weights_.size2 = szMul L.length_prev_ (mulFiltersize L 1))
    (W : Arena) (dest : Mat) (o : Nat) :
    (L.GetWeights E W dest o).offset = (o + L.NumWeights) % SIZE_T_MOD := by
  rw [NumWeights_mod L h]
  show szAdd (szAdd o (szMul L.outputmaps_ L.weights_.size2)) L.outputmaps_ = _
  rw [hw, pixel_num_eq L h, span_offset]

/-- C5 (as amended). For every initialised layer and every starting offset `o`,
`InitWeights` (with or without initialisation) leaves
`offset = (o + NumWeights()) mod 2^64`, and so does `GetWeights` on the attached
layer. When `o + channels * (prevChannels * kernelVolume + 1)` is below `2^64`,
both leave `offset = o + NumWeights()`, the weights window starts at `o` and has
`channels * prevChannels * kernelVolume` elements, and the biases window starts
where the weights window ends and has `channels` elements: the two windows are
adjacent and disjoint. -/
theorem parameter_span (E : Env) (R : Nat) (cfg : MxLayer) (prev : Layer) (self L : LayerConv)
    (hI : LayerConv.Init R cfg prev self = some L) (W : Arena) (o : Nat) (isgen : Bool) :
    (L.InitWeights E W o isgen).offset = (o + L.NumWeights) % SIZE_T_MOD ∧
    (∀ (W2 : Arena) (dest : Mat) (o2 : Nat),
      ((L.InitWeights E W o isgen).self.GetWeights E W2 dest o2).offset =
        (o2 + L.NumWeights) % SIZE_T_MOD) ∧
    (o + L.outputmaps_ * (L.length_prev_ * L.filtersize_.prod + 1) < SIZE_T_MOD →
      (L.InitWeights E W o isgen).offset = o + L.NumWeights ∧
      ((L.InitWeights E W o isgen).self.GetWeights E (L.InitWeights E W o isgen).weights
          (Mat.empty) o).offset = o + L.NumWeights ∧
      (L.InitWeights E W o isgen).self.weights_.offset = o ∧
      (L.InitWeights E W o isgen).self.weights_.size1 *
          (L.InitWeights E W o isgen).self.weights_.size2 =
        L.outputmaps_ * L.length_prev_ * L.filtersize_.prod ∧
      (L.InitWeights E W o isgen).self.biases_.offset =
        o + L.outputmaps_ * L.length_prev_ * L.filtersize_.prod ∧
      (L.InitWeights E W o isgen).self.biases_.size1 *
          (L.InitWeights E W o isgen).self.biases_.size2 = L.outputmaps_) := by
  obtain ⟨hlen, -, -⟩ := Init_filtersize_length R cfg prev self L hI
  have hG : ∀ (W2 : Arena) (dest : Mat) (o2 : Nat),
      ((L.InitWeights E W o isgen).self.GetWeights E W2 dest o2).offset =
        (o2 + L.NumWeights) % SIZE_T_MOD := by
    intro W2 dest o2
    exact GetWeights_offset E (L.InitWeights E W o isgen).self hlen rfl W2 dest o2
  refine ⟨InitWeights_offset E L hlen W o isgen, hG, fun hfit => ?_⟩
  have hN : L.NumWeights = L.outputmaps_ * (L.length_prev_ * L.filtersize_.prod + 1) := by
    rw [NumWeights_mod L hlen]
    exact Nat.mod_eq_of_lt (by omega)
  have hsz : L.outputmaps_ * szMul L.length_prev_ (mulFiltersize L 1) =
      L.outputmaps_ * L.length_prev_ * L.filtersize_.prod := by
    rw [pixel_num_eq L hlen, mul_assoc]
    rcases Nat.eq_zero_or_pos L.outputmaps_ with h0 | hpos
    · simp [h0]
    · congr 1
      apply Nat.mod_eq_of_lt
      have : L.length_prev_ * L.filtersize_.prod + 1 ≤
          L.outputmaps_ * (L.length_prev_ * L.filtersize_.prod + 1) :=
        Nat.le_mul_of_pos_left _ hpos
      omega
  have hoff : szAdd o (szMul L.outputmaps_ (szMul L.length_prev_ (mulFiltersize L 1))) =
      o + L.outputmaps_ * L.length_prev_ * L.filtersize_.prod := by
    rw [szAdd, szMul, hsz]
    have h2 : L.outputmaps_ * (L.length_prev_ * L.filtersize_.prod + 1) =
        L.outputmaps_ * L.length_prev_ * L.filtersize_.prod + L.outputmaps_ := by ring
    rw [h2] at hfit
    generalize L.outputmaps_ * L.length_prev_ * L.filtersize_.prod = Y at hfit ⊢
    rw [Nat.mod_eq_of_lt (a := Y) (by omega), Nat.mod_eq_of_lt (by omega)]
  refine ⟨?_, ?_, rfl, hsz, hoff, ?_⟩
  · rw [InitWeights_offset E L hlen W o isgen, hN]
    exact Nat.mod_eq_of_lt hfit
  · rw [hG, hN]
    exact Nat.mod_eq_of_lt hfit
  · show 1 * L.outputmaps_ = L.outputmaps_
    exact one_mul _

/-- The witness of `parameter_span`: the layer of 56 parameters attached at
offset 7 of an arena of 70 elements. Both methods leave the offset 63, the
weights window is `[7, 61)` and the biases window `[61, 63)`. -/
theorem parameter_span_witness :
    LayerConv.Init 0 countConfig countPrev LayerConv.new = some countLayer ∧
    7 + countLayer.outputmaps_ * (countLayer.length_prev_ * countLayer.filtersize_.prod + 1)
      < SIZE_T_MOD ∧
    ((countLayer.InitWeights cpuEnv countArena 7 true).offset = 63 ∧
      (countLayer.InitWeights cpuEnv countArena 7 true).self.weights_
        = { offset := 7, size1 := 2, size2 := 27, order := false } ∧
      (countLayer.InitWeights cpuEnv countArena 7 true).self.biases_
        = { offset := 61, size1 := 1, size2 := 2, order := false }) ∧
    ((countLayer.InitWeights cpuEnv countArena 7 true).offset
        = (7 + countLayer.NumWeights) % SIZE_T_MOD ∧
    (∀ (W2 : Arena) (dest : Mat) (o2 : Nat),
      ((countLayer.InitWeights cpuEnv countArena 7 true).self.GetWeights cpuEnv W2 dest o2).offset =
        (o2 + countLayer.NumWeights) % SIZE_T_MOD) ∧
    (7 + countLayer.outputmaps_ * (countLayer.length_prev_ * countLayer.filtersize_.prod + 1)
        < SIZE_T_MOD →
      (countLayer.InitWeights cpuEnv countArena 7 true).offset = 7 + countLayer.NumWeights ∧
      ((countLayer.InitWeights cpuEnv countArena 7 true).self.GetWeights cpuEnv
          (countLayer.InitWeights cpuEnv countArena 7 true).weights (Mat.empty) 7).offset
        = 7 + countLayer.NumWeights ∧
      (countLayer.InitWeights cpuEnv countArena 7 true).self.weights_.offset = 7 ∧
      (countLayer.InitWeights cpuEnv countArena 7 true).self.weights_.size1 *
          (countLayer.InitWeights cpuEnv countArena 7 true).self.weights_.size2 =
        countLayer.outputmaps_ * countLayer.length_prev_ * countLayer.filtersize_.prod ∧
      (countLayer.InitWeights cpuEnv countArena 7 true).self.biases_.offset =
        7 + countLayer.outputmaps_ * countLayer.length_prev_ * countLayer.filtersize_.prod ∧
      (countLayer.InitWeights cpuEnv countArena 7 true).self.biases_.size1 *
          (countLayer.InitWeights cpuEnv countArena 7 true).self.biases_.size2
        = countLayer.outputmaps_)) :=
  ⟨by decide, by decide, ⟨by decide, by decide, by decide⟩,
    parameter_span cpuEnv 0 countConfig countPrev LayerConv.new countLayer (by decide)
      countArena 7 true⟩

/-- C5, counterexample. Attached at the offset `2^64 - 1`, the layer of 56
parameters leaves the offset 55, which is not `2^64 - 1 + 56`. -/
theorem parameter_span_overflow :
    LayerConv.Init 0 countConfig countPrev LayerConv.new = some countLayer ∧
    countLayer.NumWeights = 56 ∧
    (countLayer.InitWeights cpuEnv countArena 18446744073709551615 false).offset = 55 ∧
    (countLayer.InitWeights cpuEnv countArena 18446744073709551615 false).offset ≠
      18446744073709551615 + countLayer.NumWeights := by
  decide


/-! ## The matrix primitive -/

theorem index_lt (s1 s2 : Nat) (o : Bool) (i j : Nat) (hi : i < s1) (hj : j < s2) :
    (if o then i * s2 + j else j * s1 + i) < s1 * s2 := by
  cases o
  · have : (j + 1) * s1 ≤ s2 * s1 := Nat.mul_le_mul_right s1 hj
    simp only [Bool.false_eq_true, if_false]
    nlinarith
  · have : (i + 1) * s2 ≤ s1 * s2 := Nat.mul_le_mul_right s2 hi
    simp only [if_true]
    nlinarith

theorem Mat.get_ofFn (s1 s2 : Nat) (o : Bool) (f : Nat → Nat → ftype) (i j : Nat)
    (hi : i < s1) (hj : j < s2) : (Mat.ofFn s1 s2 o f).get i j = f i j := by
  have hlt := index_lt s1 s2 o i j hi hj
  unfold Mat.get Mat.index Mat.ofFn
  simp only
  rw [List.getD_eq_getElem?_getD, List.getElem?_map, List.getElem?_range hlt]
  cases o
  · simp only [Bool.false_eq_true, if_false, Option.map_some', Option.getD_some]
    rw [Nat.mul_add_mod_of_lt hi, Nat.add_comm, Nat.add_mul_div_right _ _ (by omega),
      Nat.div_eq_of_lt hi, Nat.zero_add]
  · simp only [if_true, Option.map_some', Option.getD_some]
    rw [Nat.mul_add_mod_of_lt hj, Nat.add_comm, Nat.add_mul_div_right _ _ (by omega),
      Nat.div_eq_of_lt hj, Nat.zero_add]

theorem Mat.get_assign_zero (m : Mat) (i j : Nat) : (m.assign 0).get i j = 0 := by
  unfold Mat.get Mat.assign
  simp only [List.getD_eq_getElem?_getD, List.getElem?_replicate]
  split <;> rfl

theorem addMap_adds (ms : List Nat) (k j : Nat) (m : Mat) :
    Adds (fun a => a.addMap ms k j m)
      (fun r c => if r = k ∧ c / ms.prod = j then m.data.getD (c % ms.prod) 0 else 0) := by
  intro a
  refine ⟨rfl, rfl, rfl, fun r hr c hc => ?_⟩
  show (Mat.ofFn a.size1 a.size2 a.order _).get r c = _
  rw [Mat.get_ofFn _ _ _ _ _ _ hr hc]
  by_cases h : r = k ∧ c / ms.prod = j
  · simp only [if_pos h]
  · simp only [if_neg h, add_zero]

theorem Adds_foldl {β : Type} (xs : List β) (T : β → Mat → Mat) (delta : β → Nat → Nat → ftype)
    (h : ∀ x ∈ xs, Adds (T x) (delta x)) :
    Adds (fun a => xs.foldl (fun a x => T x a) a)
      (fun r c => (xs.map (fun x => delta x r c)).sum) := by
  induction xs with
  | nil => intro a; simp
  | cons x xs ih =>
    intro a
    have hx := h x (List.mem_cons_self x xs) a
    have hxs := ih (fun y hy => h y (List.mem_cons_of_mem x hy)) (T x a)
    simp only [List.foldl_cons, List.map_cons, List.sum_cons] at hxs ⊢
    refine ⟨hxs.1.trans hx.1, hxs.2.1.trans hx.2.1, hxs.2.2.1.trans hx.2.2.1, fun r hr c hc => ?_⟩
    rw [hxs.2.2.2 r (hx.1 ▸ hr) c (hx.2.1 ▸ hc), hx.2.2.2 r hr c hc, add_assoc]

theorem sum_range_ite (n r : Nat) (f : Nat → ftype) :
    ((List.range n).map (fun k => if r = k then f k else 0)).sum = if r < n then f r else 0 := by
  induction n with
  | zero => simp
  | succ n ih =>
    rw [List.range_succ, List.map_append, List.sum_append, ih]
    simp only [List.map_cons, List.map_nil, List.sum_cons, List.sum_nil, add_zero]
    by_cases h1 : r < n
    · have h2 : r ≠ n := by omega
      have h3 : r < n + 1 := by omega
      simp [h1, h2, h3]
    · by_cases h2 : r = n
      · subst h2
        simp
      · have h3 : ¬ r < n + 1 := by omega
        simp [h1, h2, h3]


/-! ## C6: `Forward` without bias -/

theorem sum_map_ite_const {β : Type} (xs : List β) (P : Prop) [Decidable P] (f : β → ftype) :
    (xs.map (fun x => if P then f x else 0)).sum = if P then (xs.map f).sum else 0 := by
  by_cases h : P <;> simp [h]

theorem loops_delta (B C J r q : Nat) (g : Nat → Nat → Nat → ftype) :
    ((List.range B).map (fun k => ((List.range C).map (fun i =>
      ((List.range J).map (fun j => if r = k ∧ q = i then g k i j else 0)).sum)).sum)).sum =
      if r < B ∧ q < C then ((List.range J).map (fun j => g r q j)).sum else 0 := by
  simp only [ite_and, sum_map_ite_const, sum_range_ite]

theorem InitMaps_eq (a : Mat) (ms : List Nat) (k i : Nat) (f : Nat → ftype)
    (h : ∀ p < ms.prod, a.get k (i * ms.prod + p) = f p) :
    InitMaps a ms k i = Mat.ofShape ms ((List.range ms.prod).map f) := by
  unfold InitMaps
  congr 1
  apply List.map_congr_left
  intro p hp
  exact h p (List.mem_range.1 hp)

theorem block_div_mod (i n p : Nat) (hp : p < n) : (i * n + p) / n = i ∧ (i * n + p) % n = p := by
  constructor
  · rw [Nat.add_comm, Nat.add_mul_div_right _ _ (by omega), Nat.div_eq_of_lt hp, Nat.zero_add]
  · rw [Nat.add_comm, Nat.add_mul_mod_self_right, Nat.mod_eq_of_lt hp]

theorem block_lt (i n p C : Nat) (hi : i < C) (hp : p < n) : i * n + p < C * n := by
  have : (i + 1) * n ≤ C * n := Nat.mul_le_mul_right n hi
  nlinarith

theorem forwardLoops_adds (E : Env) (c : Call) (B : Nat) :
    Adds (forwardLoops E c B) (fun r col =>
      if r < B ∧ col / c.self.mapsize_.prod < c.self.outputmaps_ then
        forwardSum E c r (col / c.self.mapsize_.prod) (col % c.self.mapsize_.prod)
      else 0) := by
  have h := Adds_foldl (List.range B)
    (fun k a => (List.range c.self.outputmaps_).foldl (fun a i =>
      (List.range c.prev_layer.outputmaps_).foldl (fun a j =>
        a.addMap c.self.mapsize_ k i (Mat.ofShape c.self.mapsize_
          (E.Filter (InitMaps c.prev_layer.activ_mat_ c.prev_layer.mapsize_ k j)
            (InitMaps (c.self.weights_.get c.weights) c.self.filtersize_ i j)
            c.self.padding_ false c.self.mapsize_))) a) a)
    _ (fun k _ => Adds_foldl (List.range c.self.outputmaps_)
      (fun i a => (List.range c.prev_layer.outputmaps_).foldl (fun a j =>
        a.addMap c.self.mapsize_ k i (Mat.ofShape c.self.mapsize_
          (E.Filter (InitMaps c.prev_layer.activ_mat_ c.prev_layer.mapsize_ k j)
            (InitMaps (c.self.weights_.get c.weights) c.self.filtersize_ i j)
            c.self.padding_ false c.self.mapsize_))) a)
      _ (fun i _ => Adds_foldl (List.range c.prev_layer.outputmaps_)
        (fun j a => a.addMap c.self.mapsize_ k i (Mat.ofShape c.self.mapsize_
          (E.Filter (InitMaps c.prev_layer.activ_mat_ c.prev_layer.mapsize_ k j)
            (InitMaps (c.self.weights_.get c.weights) c.self.filtersize_ i j)
            c.self.padding_ false c.self.mapsize_)))
        _ (fun j _ => addMap_adds c.self.mapsize_ k i _)))
  intro a
  obtain ⟨h1, h2, h3, h4⟩ := h a
  refine ⟨h1, h2, h3, fun r hr col hc => ?_⟩
  have := h4 r hr col hc
  simp only [Mat.ofShape] at this
  rw [loops_delta] at this
  exact this

theorem Forward_nobias (E : Env) (c : Call) (passnum : Int) (buf : Mat)
    (hcpu : E.COMP_REGIME ≠ 2) (hpass : passnum ≠ 0 ∧ passnum ≠ 1)
    (hlen : c.self.length_ = c.self.outputmaps_ * c.self.mapsize_.prod) :
    ∃ c1, LayerConv.Forward E passnum (c.withActiv buf) = some c1 ∧
      c1.self.activ_mat_.size1 = c.prev_layer.batchsize_ ∧
      c1.self.activ_mat_.size2 = c.self.length_ ∧
      c1.self.activ_mat_.order = buf.order ∧
      (∀ k < c.prev_layer.batchsize_, ∀ i < c.self.outputmaps_, ∀ p < c.self.mapsize_.prod,
        c1.self.activ_mat_.get k (i * c.self.mapsize_.prod + p) = forwardSum E c k i p) := by
  obtain ⟨h1, h2, h3, h4⟩ := forwardLoops_adds E c c.prev_layer.batchsize_
    ((buf.resize c.prev_layer.batchsize_ c.self.length_).assign 0)
  have hF : LayerConv.Forward E passnum (c.withActiv buf) = some
      { c.withActiv buf with self := { (c.withActiv buf).self with
          batchsize_ := c.prev_layer.batchsize_,
          activ_mat_ := forwardLoops E c c.prev_layer.batchsize_
            ((buf.resize c.prev_layer.batchsize_ c.self.length_).assign 0) } } := by
    unfold LayerConv.Forward forwardBias
    have hp : ¬ (passnum = 0 ∨ passnum = 1) := by
      rintro (h | h)
      · exact hpass.1 h
      · exact hpass.2 h
    simp only [hcpu, ne_eq, not_false_eq_true, if_true, if_neg hp, Option.pure_def,
      Option.bind_eq_bind, Option.some_bind]
    rfl
  refine ⟨_, hF, h1, h2, h3, fun k hk i hi p hp => ?_⟩
  have hcol : i * c.self.mapsize_.prod + p < c.self.length_ := by
    rw [hlen]
    exact block_lt _ _ _ _ hi hp
  have := h4 k hk _ hcol
  obtain ⟨hd, hm⟩ := block_div_mod i c.self.mapsize_.prod p hp
  beta_reduce at this
  rw [hd, hm, if_pos ⟨hk, hi⟩, Mat.get_assign_zero, zero_add] at this
  exact this

/-- C6. On the CPU path and for a pass kind other than 0 and 1, `Forward`
succeeds on every initialised layer, the activation buffer becomes
`[batchSize x sampleLength]`, and for every sample `k` and output channel `i`
the activation map `activ[k][i]` is the sum over the input channels `j` of
`Filter(prev_activ[k][j], filters[i][j], padding, false)`; this holds whatever
the activation buffer `buf` held before the call. -/
theorem Forward_sum (E : Env) (c : Call) (passnum : Int) (buf : Mat)
    (hcpu : E.COMP_REGIME ≠ 2) (hpass : passnum ≠ 0 ∧ passnum ≠ 1)
    (hlen : c.self.length_ = c.self.outputmaps_ * c.self.mapsize_.prod) :
    ∃ c1, LayerConv.Forward E passnum (c.withActiv buf) = some c1 ∧
      c1.self.activ_mat_.size1 = c.prev_layer.batchsize_ ∧
      c1.self.activ_mat_.size2 = c.self.length_ ∧
      ∀ k < c.prev_layer.batchsize_, ∀ i < c.self.outputmaps_,
        InitMaps c1.self.activ_mat_ c.self.mapsize_ k i =
          Mat.ofShape c.self.mapsize_
            ((List.range c.self.mapsize_.prod).map (fun p => forwardSum E c k i p)) := by
  obtain ⟨c1, h1, h2, h3, -, h5⟩ := Forward_nobias E c passnum buf hcpu hpass hlen
  exact ⟨c1, h1, h2, h3, fun k hk i hi => InitMaps_eq _ _ _ _ _ (h5 k hk i hi)⟩


/-- The witness of `Forward_sum`: the small layer of `sampleCall`, pass kind 2,
with a buffer of a wrong shape full of sevens before the call. -/
theorem Forward_sum_witness :
    cpuEnv.COMP_REGIME ≠ 2 ∧ ((2 : Int) ≠ 0 ∧ (2 : Int) ≠ 1) ∧
    sampleCall.self.length_ = sampleCall.self.outputmaps_ * sampleCall.self.mapsize_.prod ∧
    forwardSum cpuEnv sampleCall 0 0 0 = 6 ∧
    ∃ c1, LayerConv.Forward cpuEnv 2 (sampleCall.withActiv sampleCall.self.activ_mat_) = some c1 ∧
      c1.self.activ_mat_.size1 = sampleCall.prev_layer.batchsize_ ∧
      c1.self.activ_mat_.size2 = sampleCall.self.length_ ∧
      ∀ k < sampleCall.prev_layer.batchsize_, ∀ i < sampleCall.self.outputmaps_,
        InitMaps c1.self.activ_mat_ sampleCall.self.mapsize_ k i =
          Mat.ofShape sampleCall.self.mapsize_
            ((List.range sampleCall.self.mapsize_.prod).map
              (fun p => forwardSum cpuEnv sampleCall k i p)) :=
  ⟨by decide, by decide, by decide,
    by norm_num [forwardSum, cpuEnv, correlate, sampleCall, sampleLayer, samplePrevActiv, InitMaps,
      Mat.ofShape, Mat.get, Mat.index, Weights.get, window, List.range, List.range.loop],
    Forward_sum cpuEnv sampleCall 2 sampleCall.self.activ_mat_ (by decide) (by decide)
      (by decide)⟩


/-! ## C7: `Backward` -/

theorem loops_delta_inner (B C J r q : Nat) (g : Nat → Nat → Nat → ftype) :
    ((List.range B).map (fun k => ((List.range C).map (fun i =>
      ((List.range J).map (fun j => if r = k ∧ q = j then g k i j else 0)).sum)).sum)).sum =
      if r < B ∧ q < J then ((List.range C).map (fun i => g r i q)).sum else 0 := by
  simp only [ite_and, sum_map_ite_const, sum_range_ite]

theorem backwardLoops_adds (E : Env) (c : Call) :
    Adds (backwardLoops E c) (fun r col =>
      if r < c.self.batchsize_ ∧ col / c.prev_layer.mapsize_.prod < c.prev_layer.outputmaps_ then
        backwardSum E c r (col / c.prev_layer.mapsize_.prod) (col % c.prev_layer.mapsize_.prod)
      else 0) := by
  have h := Adds_foldl (List.range c.self.batchsize_)
    (fun k a => (List.range c.self.outputmaps_).foldl (fun a i =>
      (List.range c.prev_layer.outputmaps_).foldl (fun a j =>
        a.addMap c.prev_layer.mapsize_ k j (Mat.ofShape c.prev_layer.mapsize_
          (E.Filter (InitMaps c.self.deriv_mat_ c.self.mapsize_ k i)
            (InitMaps (c.self.weights_.get c.weights) c.self.filtersize_ i j)
            (paddingDer c.self) true c.prev_layer.mapsize_))) a) a)
    _ (fun k _ => Adds_foldl (List.range c.self.outputmaps_)
      (fun i a => (List.range c.prev_layer.outputmaps_).foldl (fun a j =>
        a.addMap c.prev_layer.mapsize_ k j (Mat.ofShape c.prev_layer.mapsize_
          (E.Filter (InitMaps c.self.deriv_mat_ c.self.mapsize_ k i)
            (InitMaps (c.self.weights_.get c.weights) c.self.filtersize_ i j)
            (paddingDer c.self) true c.prev_layer.mapsize_))) a)
      _ (fun i _ => Adds_foldl (List.range c.prev_layer.outputmaps_)
        (fun j a => a.addMap c.prev_layer.mapsize_ k j (Mat.ofShape c.prev_layer.mapsize_
          (E.Filter (InitMaps c.self.deriv_mat_ c.self.mapsize_ k i)
            (InitMaps (c.self.weights_.get c.weights) c.self.filtersize_ i j)
            (paddingDer c.self) true c.prev_layer.mapsize_)))
        _ (fun j _ => addMap_adds c.prev_layer.mapsize_ k j _)))
  intro a
  obtain ⟨h1, h2, h3, h4⟩ := h a
  refine ⟨h1, h2, h3, fun r hr col hc => ?_⟩
  have := h4 r hr col hc
  simp only [Mat.ofShape] at this
  rw [loops_delta_inner] at this
  exact this

/-- C7. On the CPU path, for a layer whose batch size is that of its
predecessor: `Backward` leaves the gradient buffer of the predecessor with the
shape `[batchSize x prevSampleLength]`, and for every sample `k` and input
channel `j` the gradient map `prev_deriv[k][j]` is the sum over the output
channels `i` of `Filter(deriv[k][i], filters[i][j], padding_der, true)`, whatever
the buffer `buf` held before the call (it is zeroed, nothing of it is left);
`padding_der[d]` is `filterShape[d] - 1 - padding[d]` when the padding is in
range; the layer itself (its own gradient buffer included) and the parameter
arena are unchanged. -/
theorem Backward_sum (E : Env) (c : Call) (buf : Mat)
    (hcpu : E.COMP_REGIME ≠ 2)
    (hB : c.self.batchsize_ = c.prev_layer.batchsize_)
    (hlen : c.prev_layer.length_ = c.prev_layer.outputmaps_ * c.prev_layer.mapsize_.prod) :
    (LayerConv.Backward E (c.withPrevDeriv buf)).prev_layer.deriv_mat_.size1
      = c.prev_layer.batchsize_ ∧
    (LayerConv.Backward E (c.withPrevDeriv buf)).prev_layer.deriv_mat_.size2
      = c.prev_layer.length_ ∧
    (∀ k < c.prev_layer.batchsize_, ∀ j < c.prev_layer.outputmaps_,
      InitMaps (LayerConv.Backward E (c.withPrevDeriv buf)).prev_layer.deriv_mat_
          c.prev_layer.mapsize_ k j =
        Mat.ofShape c.prev_layer.mapsize_
          ((List.range c.prev_layer.mapsize_.prod).map (fun p => backwardSum E c k j p))) ∧
    (∀ d < c.self.numdim_, 1 ≤ c.self.filtersize_.getD d 0 →
      c.self.filtersize_.getD d 0 < SIZE_T_MOD →
      c.self.padding_.getD d 0 ≤ c.self.filtersize_.getD d 0 - 1 →
      (paddingDer c.self).getD d 0 = c.self.filtersize_.getD d 0 - 1 - c.self.padding_.getD d 0) ∧
    (LayerConv.Backward E (c.withPrevDeriv buf)).self = c.self ∧
    (LayerConv.Backward E (c.withPrevDeriv buf)).weights = c.weights := by
  obtain ⟨h1, h2, -, h4⟩ := backwardLoops_adds E c
    ((buf.resize c.prev_layer.batchsize_ c.prev_layer.length_).assign 0)
  have hBk : (LayerConv.Backward E (c.withPrevDeriv buf)).prev_layer.deriv_mat_ =
      backwardLoops E c ((buf.resize c.prev_layer.batchsize_ c.prev_layer.length_).assign 0) := by
    unfold LayerConv.Backward
    simp only [hcpu, ne_eq, not_false_eq_true, if_true]
    rfl
  rw [hBk]
  refine ⟨h1, h2, fun k hk j hj => InitMaps_eq _ _ _ _ _ (fun p hp => ?_),
    fun d hd hf1 hfM hp => ?_, rfl, rfl⟩
  · have hcol : j * c.prev_layer.mapsize_.prod + p < c.prev_layer.length_ := by
      rw [hlen]
      exact block_lt _ _ _ _ hj hp
    have := h4 k hk _ hcol
    obtain ⟨hd, hm⟩ := block_div_mod j c.prev_layer.mapsize_.prod p hp
    beta_reduce at this
    rw [hd, hm, if_pos ⟨hB ▸ hk, hj⟩, Mat.get_assign_zero, zero_add] at this
    exact this
  · rw [paddingDer_getD c.self d hd]
    exact paddingDer_eq _ _ hfM hf1 hp

/-- The witness of `Backward_sum`: the small layer of `sampleCall`, with a
buffer of a wrong shape full of fives before the call. -/
theorem Backward_sum_witness :
    cpuEnv.COMP_REGIME ≠ 2 ∧ sampleCall.self.batchsize_ = sampleCall.prev_layer.batchsize_ ∧
    sampleCall.prev_layer.length_ =
      sampleCall.prev_layer.outputmaps_ * sampleCall.prev_layer.mapsize_.prod ∧
    backwardSum cpuEnv sampleCall 0 0 0 = 7 ∧
    ((LayerConv.Backward cpuEnv
        (sampleCall.withPrevDeriv sampleCall.prev_layer.deriv_mat_)).prev_layer.deriv_mat_.size1
      = sampleCall.prev_layer.batchsize_ ∧
    (LayerConv.Backward cpuEnv
        (sampleCall.withPrevDeriv sampleCall.prev_layer.deriv_mat_)).prev_layer.deriv_mat_.size2
      = sampleCall.prev_layer.length_ ∧
    (∀ k < sampleCall.prev_layer.batchsize_, ∀ j < sampleCall.prev_layer.outputmaps_,
      InitMaps (LayerConv.Backward cpuEnv
          (sampleCall.withPrevDeriv sampleCall.prev_layer.deriv_mat_)).prev_layer.deriv_mat_
          sampleCall.prev_layer.mapsize_ k j =
        Mat.ofShape sampleCall.prev_layer.mapsize_
          ((List.range sampleCall.prev_layer.mapsize_.prod).map
            (fun p => backwardSum cpuEnv sampleCall k j p))) ∧
    (∀ d < sampleCall.self.numdim_, 1 ≤ sampleCall.self.filtersize_.getD d 0 →
      sampleCall.self.filtersize_.getD d 0 < SIZE_T_MOD →
      sampleCall.self.padding_.getD d 0 ≤ sampleCall.self.filtersize_.getD d 0 - 1 →
      (paddingDer sampleCall.self).getD d 0 =
        sampleCall.self.filtersize_.getD d 0 - 1 - sampleCall.self.padding_.getD d 0) ∧
    (LayerConv.Backward cpuEnv
      (sampleCall.withPrevDeriv sampleCall.prev_layer.deriv_mat_)).self = sampleCall.self ∧
    (LayerConv.Backward cpuEnv
      (sampleCall.withPrevDeriv sampleCall.prev_layer.deriv_mat_)).weights = sampleCall.weights) :=
  ⟨by decide, by decide, by decide,
    by norm_num [backwardSum, cpuEnv, correlate, sampleCall, sampleLayer, sampleDeriv, InitMaps,
      Mat.ofShape, Mat.get, Mat.index, Weights.get, window, List.range, List.range.loop,
      paddingDer, szSub, SIZE_T_MOD],
    Backward_sum cpuEnv sampleCall sampleCall.prev_layer.deriv_mat_ (by decide) (by decide)
      (by decide)⟩


/-! ## C10: `CalcWeights` below pass kind 2 -/

/-- C10. For every pass kind below 2 and every state, `CalcWeights` returns at
once with the state as it was: the gradient view of the weights, the gradient
view of the biases, the gradient buffer of the layer and the parameter values
are unchanged (and so is everything else). -/
theorem CalcWeights_noop (E : Env) (c : Call) (passnum : Int) (h : passnum < 2) :
    ∃ c1, LayerConv.CalcWeights E passnum c = some c1 ∧ c1 = c ∧
      c1.self.weights_.der c1.weights = c.self.weights_.der c.weights ∧
      c1.self.biases_.der c1.weights = c.self.biases_.der c.weights ∧
      c1.self.deriv_mat_ = c.self.deriv_mat_ ∧
      c1.weights.values = c.weights.values := by
  refine ⟨c, ?_, rfl, rfl, rfl, rfl, rfl⟩
  unfold LayerConv.CalcWeights
  rw [if_pos h]
  rfl

/-- The witness of `CalcWeights_noop`: pass kind 1 on `sampleCall`. -/
theorem CalcWeights_noop_witness :
    (1 : Int) < 2 ∧
    ∃ c1, LayerConv.CalcWeights cpuEnv 1 sampleCall = some c1 ∧ c1 = sampleCall ∧
      c1.self.weights_.der c1.weights = sampleCall.self.weights_.der sampleCall.weights ∧
      c1.self.biases_.der c1.weights = sampleCall.self.biases_.der sampleCall.weights ∧
      c1.self.deriv_mat_ = sampleCall.self.deriv_mat_ ∧
      c1.weights.values = sampleCall.weights.values :=
  ⟨by decide, CalcWeights_noop cpuEnv sampleCall 1 (by decide)⟩


/-! ## C9: the bias of `Forward` -/

theorem Forward_eq (E : Env) (passnum : Int) (c : Call) :
    LayerConv.Forward E passnum c =
      (forwardBias c c.prev_layer.batchsize_ passnum (preActiv E c)).map c.forwarded := by
  unfold LayerConv.Forward preActiv
  dsimp only
  generalize forwardBias c c.prev_layer.batchsize_ passnum _ = x
  cases x <;> rfl

theorem bias_index (col n B k : Nat) :
    col / n * (B * n) + (col % n * B + k) = col * B + k := by
  have h := Nat.div_add_mod col n
  have : col / n * (B * n) + col % n * B = (n * (col / n) + col % n) * B := by ring
  rw [← Nat.add_assoc, this, h]

theorem forwardBias_get (c : Call) (B : Nat) (passnum : Int) (a : Mat)
    (hp : passnum = 0 ∨ passnum = 1)
    (h1 : a.size1 = B) (h2 : a.size2 = c.self.outputmaps_ * c.self.mapsize_.prod)
    (ho : a.order = false) (hom : c.self.outputmaps_ ≠ 0) (hB : B ≠ 0)
    (hfit : B * (c.self.outputmaps_ * c.self.mapsize_.prod) < SIZE_T_MOD) :
    ∃ m, forwardBias c B passnum a = some m ∧ m.size1 = B ∧
      m.size2 = c.self.outputmaps_ * c.self.mapsize_.prod ∧ m.order = false ∧
      ∀ k < B, ∀ col < c.self.outputmaps_ * c.self.mapsize_.prod,
        m.get k col = a.get k col +
          (c.self.biases_.get c.weights).get 0 (col / c.self.mapsize_.prod) := by
  have hm1 : szMul a.size1 a.size2 = a.size1 * a.size2 :=
    Nat.mod_eq_of_lt (by rw [h1, h2]; exact hfit)
  have hd1 : a.size1 * a.size2 / c.self.outputmaps_ = B * c.self.mapsize_.prod := by
    rw [h1, h2, ← mul_assoc, mul_comm B, mul_assoc]
    exact Nat.mul_div_cancel_left _ (Nat.pos_of_ne_zero hom)
  have hd2 : B * c.self.mapsize_.prod * c.self.outputmaps_ / B =
      c.self.outputmaps_ * c.self.mapsize_.prod := by
    rw [mul_assoc, Nat.mul_div_cancel_left _ (Nat.pos_of_ne_zero hB), mul_comm]
  have hr1 : B * c.self.mapsize_.prod * c.self.outputmaps_ = a.size1 * a.size2 := by
    rw [h1, h2]; ring
  have hr2 : B * (c.self.outputmaps_ * c.self.mapsize_.prod) =
      B * c.self.mapsize_.prod * c.self.outputmaps_ := by ring
  refine ⟨((a.withSize (B * c.self.mapsize_.prod) c.self.outputmaps_).AddVect
      (c.self.biases_.get c.weights) 1).withSize B (c.self.outputmaps_ * c.self.mapsize_.prod),
    ?_, rfl, rfl, ?_, ?_⟩
  · unfold forwardBias
    rw [if_pos hp]
    simp only [szDiv, hm1, hom, hB, if_false, hd1, Mat.reshape, hr1, ho, beq_self_eq_true,
      decide_True, mexAssert_true, Option.bind_eq_bind, Option.some_bind, Option.pure_def]
    have : szMul ((a.withSize (B * c.self.mapsize_.prod) c.self.outputmaps_).AddVect
        (c.self.biases_.get c.weights) 1).size1
        ((a.withSize (B * c.self.mapsize_.prod) c.self.outputmaps_).AddVect
        (c.self.biases_.get c.weights) 1).size2 = B * c.self.mapsize_.prod * c.self.outputmaps_ :=
      Nat.mod_eq_of_lt (lt_of_eq_of_lt hr2.symm hfit)
    have hn : ((a.withSize (B * c.self.mapsize_.prod) c.self.outputmaps_).AddVect
        (c.self.biases_.get c.weights) 1).size1 *
        ((a.withSize (B * c.self.mapsize_.prod) c.self.outputmaps_).AddVect
        (c.self.biases_.get c.weights) 1).size2 = B * c.self.mapsize_.prod * c.self.outputmaps_ :=
      rfl
    simp only [this, hn, hd2, hr2, decide_True, mexAssert_true, Option.some_bind]
  · exact ho
  · intro k hk col hcol
    have hn : 0 < c.self.mapsize_.prod := by
      rcases Nat.eq_zero_or_pos c.self.mapsize_.prod with h | h
      · rw [h] at hcol; simp at hcol
      · exact h
    have hc' : col / c.self.mapsize_.prod < c.self.outputmaps_ :=
      Nat.div_lt_of_lt_mul (by rwa [mul_comm] at hcol)
    have hr' : col % c.self.mapsize_.prod * B + k < B * c.self.mapsize_.prod := by
      have := Nat.mod_lt col hn
      have : (col % c.self.mapsize_.prod + 1) * B ≤ c.self.mapsize_.prod * B :=
        Nat.mul_le_mul_right B this
      nlinarith
    have hg := Mat.get_ofFn (B * c.self.mapsize_.prod) c.self.outputmaps_ a.order
      (fun i j => (a.withSize (B * c.self.mapsize_.prod) c.self.outputmaps_).get i j +
        (if (1 : Nat) = 1 then (c.self.biases_.get c.weights).get 0 j
          else (c.self.biases_.get c.weights).get i 0))
      (col % c.self.mapsize_.prod * B + k) (col / c.self.mapsize_.prod) hr' hc'
    have e1 : (((a.withSize (B * c.self.mapsize_.prod) c.self.outputmaps_).AddVect
          (c.self.biases_.get c.weights) 1).withSize B
            (c.self.outputmaps_ * c.self.mapsize_.prod)).get k col =
        (Mat.ofFn (B * c.self.mapsize_.prod) c.self.outputmaps_ a.order
          (fun i j => (a.withSize (B * c.self.mapsize_.prod) c.self.outputmaps_).get i j +
            (if (1 : Nat) = 1 then (c.self.biases_.get c.weights).get 0 j
              else (c.self.biases_.get c.weights).get i 0))).get
          (col % c.self.mapsize_.prod * B + k) (col / c.self.mapsize_.prod) := by
      simp only [Mat.get, Mat.index, Mat.AddVect, Mat.ofFn, Mat.withSize, ho, Bool.false_eq_true,
        if_false, bias_index]
    have e2 : (a.withSize (B * c.self.mapsize_.prod) c.self.outputmaps_).get
        (col % c.self.mapsize_.prod * B + k) (col / c.self.mapsize_.prod) = a.get k col := by
      simp only [Mat.get, Mat.index, Mat.withSize, ho, Bool.false_eq_true, if_false, bias_index, h1]
    rw [e1, hg]
    beta_reduce
    rw [e2, if_pos rfl]

theorem preActiv_shape_cpu (E : Env) (c : Call) (hcpu : E.COMP_REGIME ≠ 2) :
    (preActiv E c).size1 = c.prev_layer.batchsize_ ∧ (preActiv E c).size2 = c.self.length_ ∧
      (preActiv E c).order = c.self.activ_mat_.order := by
  unfold preActiv
  rw [if_pos hcpu]
  obtain ⟨h1, h2, h3, -⟩ := forwardLoops_adds E c c.prev_layer.batchsize_
    ((c.self.activ_mat_.resize c.prev_layer.batchsize_ c.self.length_).assign 0)
  exact ⟨h1, h2, h3⟩

theorem preActiv_withBiases (E : Env) (c : Call) (b : Weights) (W : Arena)
    (h : c.self.weights_.get W = c.self.weights_.get c.weights) :
    preActiv E (c.withBiases b W) = preActiv E c := by
  simp only [preActiv, forwardLoops, Call.withBiases, h]

/-- C9. Let the activation matrix have the shape `[batchSize x sampleLength]`
and the order `false` when line 109 is reached (on the CPU path it has, when the
buffer has this order), with at least one channel and one sample and fewer than
`2^64` elements (it is in memory). For a pass
kind 0 or 1, `Forward` succeeds and every element of the output channel `i` of
every sample is the bias-free result of `Forward` (that of any other pass kind)
at that position plus `biases[i]`, the same at every position of the channel.
For every other pass kind the result is the matrix of line 108 as it is, and it
is the same for every bias container and every arena with the same weights. -/
theorem Forward_bias_gating (E : Env) (c : Call) (passnum other : Int)
    (hp : passnum = 0 ∨ passnum = 1) (ho : other ≠ 0 ∧ other ≠ 1)
    (hshape : (preActiv E c).size1 = c.prev_layer.batchsize_ ∧
      (preActiv E c).size2 = c.self.outputmaps_ * c.self.mapsize_.prod ∧
      (preActiv E c).order = false)
    (hom : c.self.outputmaps_ ≠ 0) (hB : c.prev_layer.batchsize_ ≠ 0)
    (hfit : c.prev_layer.batchsize_ * (c.self.outputmaps_ * c.self.mapsize_.prod) < SIZE_T_MOD) :
    ∃ c0 c1, LayerConv.Forward E other c = some c0 ∧ LayerConv.Forward E passnum c = some c1 ∧
      c0.self.activ_mat_ = preActiv E c ∧
      c1.self.activ_mat_.size1 = c.prev_layer.batchsize_ ∧
      c1.self.activ_mat_.size2 = c.self.outputmaps_ * c.self.mapsize_.prod ∧
      (∀ k < c.prev_layer.batchsize_, ∀ i < c.self.outputmaps_, ∀ p < c.self.mapsize_.prod,
        c1.self.activ_mat_.get k (i * c.self.mapsize_.prod + p) =
          c0.self.activ_mat_.get k (i * c.self.mapsize_.prod + p) +
            (c.self.biases_.get c.weights).get 0 i) ∧
      (∀ (b : Weights) (W : Arena), c.self.weights_.get W = c.self.weights_.get c.weights →
        ∃ c2, LayerConv.Forward E other (c.withBiases b W) = some c2 ∧
          c2.self.activ_mat_ = c0.self.activ_mat_) := by
  have hno : ¬ (other = 0 ∨ other = 1) := by
    rintro (h | h)
    · exact ho.1 h
    · exact ho.2 h
  have hfree : ∀ c' : Call, forwardBias c' c'.prev_layer.batchsize_ other (preActiv E c') =
      some (preActiv E c') := by
    intro c'
    unfold forwardBias
    rw [if_neg hno]
    rfl
  obtain ⟨m, hm, hs1, hs2, -, hget⟩ := forwardBias_get c c.prev_layer.batchsize_ passnum
    (preActiv E c) hp hshape.1 hshape.2.1 hshape.2.2 hom hB hfit
  have h0 : LayerConv.Forward E other c = some (c.forwarded (preActiv E c)) := by
    rw [Forward_eq, hfree c]
    rfl
  have h1 : LayerConv.Forward E passnum c = some (c.forwarded m) := by
    rw [Forward_eq, hm]
    rfl
  refine ⟨_, _, h0, h1, rfl, hs1, hs2, ?_, ?_⟩
  · intro k hk i hi p hp
    have := hget k hk _ (block_lt _ _ _ _ hi hp)
    rw [(block_div_mod i c.self.mapsize_.prod p hp).1] at this
    exact this
  · intro b W hW
    have h2 : LayerConv.Forward E other (c.withBiases b W) =
        some ((c.withBiases b W).forwarded (preActiv E (c.withBiases b W))) := by
      rw [Forward_eq, hfree (c.withBiases b W)]
      rfl
    exact ⟨_, h2, preActiv_withBiases E c b W hW⟩

/-- The witness of `Forward_bias_gating`: pass kinds 0 and 2 on `sampleCall`,
whose biases are 10 and 20. -/
theorem Forward_bias_gating_witness :
    ((0 : Int) = 0 ∨ (0 : Int) = 1) ∧ ((2 : Int) ≠ 0 ∧ (2 : Int) ≠ 1) ∧
    ((preActiv cpuEnv sampleCall).size1 = sampleCall.prev_layer.batchsize_ ∧
      (preActiv cpuEnv sampleCall).size2 =
        sampleCall.self.outputmaps_ * sampleCall.self.mapsize_.prod ∧
      (preActiv cpuEnv sampleCall).order = false) ∧
    sampleCall.self.outputmaps_ ≠ 0 ∧ sampleCall.prev_layer.batchsize_ ≠ 0 ∧
    sampleCall.prev_layer.batchsize_ *
      (sampleCall.self.outputmaps_ * sampleCall.self.mapsize_.prod) < SIZE_T_MOD ∧
    (sampleCall.self.biases_.get sampleCall.weights).get 0 1 = 20 ∧
    ∃ c0 c1, LayerConv.Forward cpuEnv 2 sampleCall = some c0 ∧
      LayerConv.Forward cpuEnv 0 sampleCall = some c1 ∧
      c0.self.activ_mat_ = preActiv cpuEnv sampleCall ∧
      c1.self.activ_mat_.size1 = sampleCall.prev_layer.batchsize_ ∧
      c1.self.activ_mat_.size2 = sampleCall.self.outputmaps_ * sampleCall.self.mapsize_.prod ∧
      (∀ k < sampleCall.prev_layer.batchsize_, ∀ i < sampleCall.self.outputmaps_,
        ∀ p < sampleCall.self.mapsize_.prod,
        c1.self.activ_mat_.get k (i * sampleCall.self.mapsize_.prod + p) =
          c0.self.activ_mat_.get k (i * sampleCall.self.mapsize_.prod + p) +
            (sampleCall.self.biases_.get sampleCall.weights).get 0 i) ∧
      (∀ (b : Weights) (W : Arena),
        sampleCall.self.weights_.get W = sampleCall.self.weights_.get sampleCall.weights →
        ∃ c2, LayerConv.Forward cpuEnv 2 (sampleCall.withBiases b W) = some c2 ∧
          c2.self.activ_mat_ = c0.self.activ_mat_) :=
  ⟨by decide, by decide, preActiv_shape_cpu cpuEnv sampleCall (by decide), by decide, by decide,
    by decide,
    by norm_num [sampleCall, sampleLayer, Weights.get, window, Mat.get, Mat.index, List.range,
      List.range.loop],
    Forward_bias_gating cpuEnv sampleCall 0 2 (by decide) (by decide)
      (preActiv_shape_cpu cpuEnv sampleCall (by decide)) (by decide) (by decide) (by decide)⟩


/-! ## C8: the mean of the weight gradient -/

theorem getD_zipWith_add (xs ys : List ftype) (h : xs.length = ys.length) (p : Nat) :
    (List.zipWith (fun x y => x + y) xs ys).getD p 0 = xs.getD p 0 + ys.getD p 0 := by
  simp only [List.getD_eq_getElem?_getD, List.getElem?_zipWith]
  by_cases hp : p < xs.length
  · rw [List.getElem?_eq_getElem hp, List.getElem?_eq_getElem (h ▸ hp)]
    rfl
  · rw [List.getElem?_eq_none (by omega), List.getElem?_eq_none (by omega)]
    simp

theorem headD_mul_tail_prod (fs : List Nat) : fs.headD 1 * fs.tail.prod = fs.prod := by
  cases fs <;> simp

theorem foldl_add_data (fs : List Nat) (ks : List Nat) (G : Nat → List ftype)
    (hG : ∀ k, (G k).length = fs.prod) (acc : Mat) (hacc : acc.data.length = fs.prod) :
    (ks.foldl (fun fil k => fil.add (Mat.ofShape fs (G k))) acc).data.length = fs.prod ∧
    ∀ p, (ks.foldl (fun fil k => fil.add (Mat.ofShape fs (G k))) acc).data.getD p 0 =
      acc.data.getD p 0 + (ks.map (fun k => (G k).getD p 0)).sum := by
  induction ks generalizing acc with
  | nil => exact ⟨hacc, fun p => by simp⟩
  | cons k ks ih =>
    have hlen : (acc.add (Mat.ofShape fs (G k))).data.length = fs.prod := by
      simp [Mat.add, Mat.ofShape, hacc, hG]
    obtain ⟨h1, h2⟩ := ih (acc.add (Mat.ofShape fs (G k))) hlen
    refine ⟨h1, fun p => ?_⟩
    simp only [List.foldl_cons, List.map_cons, List.sum_cons]
    rw [h2 p]
    simp only [Mat.add, Mat.ofShape]
    rw [getD_zipWith_add _ _ (by rw [hacc, hG]), add_assoc]

theorem filDer_data (E : Env) (c : Call) (i j p : Nat) :
    (filDer E c i j).data.getD p 0 = weightSum E c i j p := by
  have h := (foldl_add_data c.self.filtersize_ (List.range c.self.batchsize_)
    (fun k => E.Filter (InitMaps c.prev_layer.activ_mat_ c.prev_layer.mapsize_ k j)
      (InitMaps c.self.deriv_mat_ c.self.mapsize_ k i) c.self.padding_ false c.self.filtersize_)
    (fun k => E.Filter_length _ _ _ _ _)
    ((Mat.ofShape c.self.filtersize_ []).assign 0)
    (by
      show (List.replicate _ _).length = _
      rw [List.length_replicate]
      exact headD_mul_tail_prod _)).2 p
  unfold filDer weightSum
  rw [h]
  have : ((Mat.ofShape c.self.filtersize_ []).assign 0).data.getD p 0 = 0 := by
    simp only [Mat.assign, List.getD_eq_getElem?_getD, List.getElem?_replicate]
    split <;> rfl
  rw [this, zero_add]

theorem setMap_sets (ms : List Nat) (k j : Nat) (m : Mat) (v : Nat → Nat → ftype)
    (hv : ∀ c, c / ms.prod = j → m.data.getD (c % ms.prod) 0 = v k c) :
    Sets (fun a => a.setMap ms k j m) (fun r c => decide (r = k ∧ c / ms.prod = j)) v := by
  intro a
  refine ⟨rfl, rfl, rfl, fun _ => by simp [Mat.setMap, Mat.ofFn], fun r hr c hc => ?_⟩
  show (Mat.ofFn a.size1 a.size2 a.order _).get r c = _
  rw [Mat.get_ofFn _ _ _ _ _ _ hr hc]
  by_cases h : r = k ∧ c / ms.prod = j
  · simp only [if_pos h, decide_eq_true h, if_true]
    rw [hv c h.2, h.1]
  · simp only [if_neg h, decide_eq_false h, Bool.false_eq_true, if_false]

theorem Sets_foldl {β : Type} (xs : List β) (T : β → Mat → Mat) (P : β → Nat → Nat → Bool)
    (v : Nat → Nat → ftype) (h : ∀ x ∈ xs, Sets (T x) (P x) v) :
    Sets (fun a => xs.foldl (fun a x => T x a) a) (fun r c => xs.any (fun x => P x r c)) v := by
  induction xs with
  | nil => intro a; simp
  | cons x xs ih =>
    intro a
    have hx := h x (List.mem_cons_self x xs) a
    have hxs := ih (fun y hy => h y (List.mem_cons_of_mem x hy)) (T x a)
    simp only [List.foldl_cons, List.any_cons] at hxs ⊢
    refine ⟨hxs.1.trans hx.1, hxs.2.1.trans hx.2.1, hxs.2.2.1.trans hx.2.2.1, ?_,
      fun r hr c hc => ?_⟩
    · intro ha
      have := hxs.2.2.2.1 (by rw [hx.2.2.2.1 ha, hx.1, hx.2.1])
      rw [this, hx.1, hx.2.1]
    · rw [hxs.2.2.2.2 r (hx.1 ▸ hr) c (hx.2.1 ▸ hc), hx.2.2.2.2 r hr c hc]
      by_cases h1 : P x r c = true <;> by_cases h2 : (xs.any fun x => P x r c) = true <;>
        simp [h1, h2]

theorem calcLoops_sets (E : Env) (c : Call) :
    Sets (calcLoops E c)
      (fun r col => decide (r < c.self.outputmaps_ ∧
        col / c.self.filtersize_.prod < c.prev_layer.outputmaps_))
      (fun r col => weightSum E c r (col / c.self.filtersize_.prod)
        (col % c.self.filtersize_.prod)) := by
  have h := Sets_foldl (List.range c.self.outputmaps_)
    (fun i a => (List.range c.prev_layer.outputmaps_).foldl (fun a j =>
      a.setMap c.self.filtersize_ i j (filDer E c i j)) a)
    _ _ (fun i _ => Sets_foldl (List.range c.prev_layer.outputmaps_)
      (fun j a => a.setMap c.self.filtersize_ i j (filDer E c i j))
      _ _ (fun j _ => setMap_sets c.self.filtersize_ i j (filDer E c i j)
        (fun r col => weightSum E c r (col / c.self.filtersize_.prod)
          (col % c.self.filtersize_.prod))
        (fun col hcol => by
          rw [filDer_data]
          show _ = weightSum E c i (col / c.self.filtersize_.prod) _
          rw [hcol])))
  intro a
  obtain ⟨h1, h2, h3, h4, h5⟩ := h a
  refine ⟨h1, h2, h3, h4, fun r hr col hc => ?_⟩
  have := h5 r hr col hc
  have hany : ((List.range c.self.outputmaps_).any (fun i =>
      (List.range c.prev_layer.outputmaps_).any (fun j =>
        decide (r = i ∧ col / c.self.filtersize_.prod = j)))) =
      decide (r < c.self.outputmaps_ ∧
        col / c.self.filtersize_.prod < c.prev_layer.outputmaps_) := by
    rw [Bool.eq_iff_iff]
    simp only [List.any_eq_true, List.mem_range, decide_eq_true_eq]
    constructor
    · rintro ⟨i, hi, j, hj, rfl, rfl⟩
      exact ⟨hi, hj⟩
    · rintro ⟨hi, hj⟩
      exact ⟨r, hi, _, hj, rfl, rfl⟩
  beta_reduce at this
  rw [hany] at this
  exact this


theorem writeWindow_length (A : List ftype) (off : Nat) (d : List ftype) :
    (writeWindow A off d).length = A.length := by
  simp [writeWindow]

theorem writeWindow_getD (A : List ftype) (off : Nat) (d : List ftype) (idx : Nat)
    (h : idx < A.length) :
    (writeWindow A off d).getD idx 0 =
      if off ≤ idx ∧ idx < off + d.length then d.getD (idx - off) 0 else A.getD idx 0 := by
  unfold writeWindow
  rw [List.getD_eq_getElem?_getD, List.getElem?_map, List.getElem?_range h]
  rfl

theorem map_getD_range_ftype (l : List ftype) :
    (List.range l.length).map (fun i => l.getD i 0) = l := by
  apply List.ext_getElem
  · simp
  · intro i h1 h2
    simp [List.getD_eq_getElem?_getD, List.getElem?_eq_getElem h2]

theorem window_writeWindow (A : List ftype) (off : Nat) (d : List ftype)
    (h : off + d.length ≤ A.length) : window (writeWindow A off d) off d.length = d := by
  unfold window
  conv_rhs => rw [← map_getD_range_ftype d]
  apply List.map_congr_left
  intro idx hidx
  have hlt := List.mem_range.1 hidx
  rw [writeWindow_getD A off d _ (by omega), if_pos ⟨by omega, by omega⟩, Nat.add_sub_cancel_left]

theorem window_writeWindow_disjoint (A : List ftype) (off n boff : Nat) (d : List ftype)
    (hdisj : off + n ≤ boff ∨ boff + d.length ≤ off) (hin : off + n ≤ A.length) :
    window (writeWindow A boff d) off n = window A off n := by
  unfold window
  apply List.map_congr_left
  intro idx hidx
  have hlt := List.mem_range.1 hidx
  rw [writeWindow_getD A boff d _ (by omega), if_neg (by omega)]

theorem window_length (A : List ftype) (off n : Nat) : (window A off n).length = n := by
  simp [window]

theorem Mat.get_divScalar (m : Mat) (x : ftype) (i j : Nat) :
    (m.divScalar x).get i j = m.get i j / x := by
  unfold Mat.get Mat.divScalar Mat.index
  simp only [List.getD_eq_getElem?_getD, List.getElem?_map]
  cases m.data[if m.order = true then i * m.size2 + j else j * m.size1 + i]? <;> simp

theorem calcBias_some (c : Call)
    (hd1 : c.self.deriv_mat_.size1 = c.self.batchsize_)
    (hd2 : c.self.deriv_mat_.size2 = c.self.outputmaps_ * c.self.mapsize_.prod)
    (hdo : c.self.deriv_mat_.order = false)
    (hom : c.self.outputmaps_ ≠ 0) (hB : c.self.batchsize_ ≠ 0)
    (hfit : c.self.batchsize_ * (c.self.outputmaps_ * c.self.mapsize_.prod) < SIZE_T_MOD) :
    ∃ bd : Mat, bd.data.length = c.self.outputmaps_ ∧
      ∃ c2, calcBias c = some c2 ∧ c2.weights.ders = writeWindow c.weights.ders
        c.self.biases_.offset bd.data ∧ c2.weights.values = c.weights.values ∧
        c2.self.weights_ = c.self.weights_ ∧ c2.self.biases_ = c.self.biases_ ∧
        c2.self.deriv_mat_ = (c.self.deriv_mat_.withSize
          (c.self.batchsize_ * c.self.mapsize_.prod) c.self.outputmaps_).withSize
            c.self.batchsize_ (c.self.outputmaps_ * c.self.mapsize_.prod) := by
  have hm1 : szMul c.self.deriv_mat_.size1 c.self.deriv_mat_.size2 =
      c.self.deriv_mat_.size1 * c.self.deriv_mat_.size2 :=
    Nat.mod_eq_of_lt (by rw [hd1, hd2]; exact hfit)
  have hq1 : c.self.deriv_mat_.size1 * c.self.deriv_mat_.size2 / c.self.outputmaps_ =
      c.self.batchsize_ * c.self.mapsize_.prod := by
    rw [hd1, hd2, ← mul_assoc, mul_comm c.self.batchsize_, mul_assoc]
    exact Nat.mul_div_cancel_left _ (Nat.pos_of_ne_zero hom)
  have hq2 : c.self.batchsize_ * c.self.mapsize_.prod * c.self.outputmaps_ / c.self.batchsize_ =
      c.self.outputmaps_ * c.self.mapsize_.prod := by
    rw [mul_assoc, Nat.mul_div_cancel_left _ (Nat.pos_of_ne_zero hB), mul_comm]
  have hr1 : c.self.batchsize_ * c.self.mapsize_.prod * c.self.outputmaps_ =
      c.self.deriv_mat_.size1 * c.self.deriv_mat_.size2 := by
    rw [hd1, hd2]; ring
  have hr2 : c.self.batchsize_ * (c.self.outputmaps_ * c.self.mapsize_.prod) =
      c.self.batchsize_ * c.self.mapsize_.prod * c.self.outputmaps_ := by ring
  refine ⟨((Sum (c.self.deriv_mat_.withSize (c.self.batchsize_ * c.self.mapsize_.prod)
      c.self.outputmaps_) (c.self.biases_.der c.weights) 1).divScalar
        (c.self.batchsize_ : ftype)).Validate, ?_, ?_⟩
  · simp [Mat.Validate, Mat.divScalar, Sum, Mat.ofFn, Mat.withSize]
  · refine ⟨{ c with
        self := { c.self with
                  deriv_mat_ := (c.self.deriv_mat_.withSize
                    (c.self.batchsize_ * c.self.mapsize_.prod) c.self.outputmaps_).withSize
                      c.self.batchsize_ (c.self.outputmaps_ * c.self.mapsize_.prod) },
        weights := c.self.biases_.setDer c.weights
          ((Sum (c.self.deriv_mat_.withSize (c.self.batchsize_ * c.self.mapsize_.prod)
            c.self.outputmaps_) (c.self.biases_.der c.weights) 1).divScalar
              (c.self.batchsize_ : ftype)).Validate }, ?_, rfl, rfl, rfl, rfl, rfl⟩
    unfold calcBias
    simp only [szDiv, hm1, hom, hB, if_false, hq1, Mat.reshape, hr1, hdo, beq_self_eq_true,
      decide_True, mexAssert_true, Option.bind_eq_bind, Option.some_bind, Option.pure_def]
    have : szMul (c.self.deriv_mat_.withSize (c.self.batchsize_ * c.self.mapsize_.prod)
        c.self.outputmaps_).size1 (c.self.deriv_mat_.withSize
        (c.self.batchsize_ * c.self.mapsize_.prod) c.self.outputmaps_).size2 =
        c.self.batchsize_ * c.self.mapsize_.prod * c.self.outputmaps_ :=
      Nat.mod_eq_of_lt (lt_of_eq_of_lt hr2.symm hfit)
    have hn : (c.self.deriv_mat_.withSize (c.self.batchsize_ * c.self.mapsize_.prod)
        c.self.outputmaps_).size1 * (c.self.deriv_mat_.withSize
        (c.self.batchsize_ * c.self.mapsize_.prod) c.self.outputmaps_).size2 =
        c.self.batchsize_ * c.self.mapsize_.prod * c.self.outputmaps_ := rfl
    simp only [this, hn, hq2, hr2, decide_True, mexAssert_true, Option.some_bind]


theorem CalcWeights_two (E : Env) (c : Call) (hcpu : E.COMP_REGIME ≠ 2) :
    LayerConv.CalcWeights E 2 c =
      (calcBias (c.withWeights (c.self.weights_.setDer c.weights
          (calcLoops E c (c.self.weights_.der c.weights))))).bind (fun c2 =>
        (mexAssert (decide (c.self.batchsize_ ≠ 0 ∨ (c.self.weights_.der c2.weights).data = []))
          "weights_der.Validate()").bind (fun _ =>
          some (c2.withWeights (c.self.weights_.setDer c2.weights
            ((c.self.weights_.der c2.weights).divScalar (c.self.batchsize_ : ftype)).Validate)))) := by
  unfold LayerConv.CalcWeights
  have h2 : ¬ ((2 : Int) < 2) := by decide
  simp only [if_neg h2, if_true, hcpu, ne_eq, not_false_eq_true, Option.bind_eq_bind,
    Option.pure_def]
  rfl

theorem Mat.mk_eq (m : Mat) {s1 s2 : Nat} {o : Bool} {d : List ftype}
    (h1 : m.size1 = s1) (h2 : m.size2 = s2) (h3 : m.order = o) (h4 : m.data = d) :
    Mat.mk s1 s2 o d = m := by
  cases m
  simp_all

theorem CalcWeights_der (E : Env) (c : Call)
    (hcpu : E.COMP_REGIME ≠ 2) (hB : c.self.batchsize_ ≠ 0) (hom : c.self.outputmaps_ ≠ 0)
    (hin : c.self.weights_.offset + c.self.weights_.size1 * c.self.weights_.size2
      ≤ c.weights.ders.length)
    (hdisj : c.self.weights_.offset + c.self.weights_.size1 * c.self.weights_.size2
        ≤ c.self.biases_.offset ∨
      c.self.biases_.offset + c.self.outputmaps_ ≤ c.self.weights_.offset)
    (hd1 : c.self.deriv_mat_.size1 = c.self.batchsize_)
    (hd2 : c.self.deriv_mat_.size2 = c.self.outputmaps_ * c.self.mapsize_.prod)
    (hdo : c.self.deriv_mat_.order = false)
    (hfit : c.self.batchsize_ * (c.self.outputmaps_ * c.self.mapsize_.prod) < SIZE_T_MOD) :
    ∃ c1, LayerConv.CalcWeights E 2 c = some c1 ∧
      c.self.weights_.der c1.weights =
        (calcLoops E c (c.self.weights_.der c.weights)).divScalar (c.self.batchsize_ : ftype) := by
  obtain ⟨s1, s2, so, hlen, -⟩ := calcLoops_sets E c (c.self.weights_.der c.weights)
  have hlen' : (calcLoops E c (c.self.weights_.der c.weights)).data.length =
      c.self.weights_.size1 * c.self.weights_.size2 := hlen (window_length _ _ _)
  obtain ⟨bd, hbd, c2, hc2, hders, -, -, -, -⟩ := calcBias_some
    (c.withWeights (c.self.weights_.setDer c.weights
      (calcLoops E c (c.self.weights_.der c.weights)))) hd1 hd2 hdo hom hB hfit
  have hders' : c2.weights.ders = writeWindow (writeWindow c.weights.ders c.self.weights_.offset
      (calcLoops E c (c.self.weights_.der c.weights)).data) c.self.biases_.offset bd.data := hders
  have hwd2 : c.self.weights_.der c2.weights = calcLoops E c (c.self.weights_.der c.weights) := by
    have hdata : window c2.weights.ders c.self.weights_.offset
        (c.self.weights_.size1 * c.self.weights_.size2) =
        (calcLoops E c (c.self.weights_.der c.weights)).data := by
      rw [hders', window_writeWindow_disjoint _ _ _ _ _ (by rw [hbd]; exact hdisj)
        (by rw [writeWindow_length]; exact hin)]
      have := window_writeWindow c.weights.ders c.self.weights_.offset
        (calcLoops E c (c.self.weights_.der c.weights)).data (by rw [hlen']; exact hin)
      rwa [hlen'] at this
    exact Mat.mk_eq _ s1 s2 so hdata.symm
  rw [CalcWeights_two E c hcpu, hc2]
  simp only [Option.some_bind, hB, ne_eq, not_false_eq_true, true_or, decide_True, mexAssert_true]
  refine ⟨_, rfl, ?_⟩
  rw [hwd2]
  have hl3 : ((calcLoops E c (c.self.weights_.der c.weights)).divScalar
      (c.self.batchsize_ : ftype)).Validate.data.length =
      c.self.weights_.size1 * c.self.weights_.size2 := by
    simp [Mat.Validate, Mat.divScalar, hlen']
  have hdata : window (writeWindow c2.weights.ders c.self.weights_.offset
      ((calcLoops E c (c.self.weights_.der c.weights)).divScalar
        (c.self.batchsize_ : ftype)).Validate.data) c.self.weights_.offset
        (c.self.weights_.size1 * c.self.weights_.size2) =
      ((calcLoops E c (c.self.weights_.der c.weights)).divScalar
        (c.self.batchsize_ : ftype)).Validate.data := by
    have := window_writeWindow c2.weights.ders c.self.weights_.offset
      ((calcLoops E c (c.self.weights_.der c.weights)).divScalar
        (c.self.batchsize_ : ftype)).Validate.data
      (by rw [hl3, hders', writeWindow_length, writeWindow_length]; exact hin)
    rwa [hl3] at this
  show ({ size1 := c.self.weights_.size1, size2 := c.self.weights_.size2,
          order := c.self.weights_.order,
          data := window (writeWindow c2.weights.ders c.self.weights_.offset
            ((calcLoops E c (c.self.weights_.der c.weights)).divScalar
              (c.self.batchsize_ : ftype)).Validate.data) c.self.weights_.offset
              (c.self.weights_.size1 * c.self.weights_.size2) } : Mat) = _
  exact Mat.mk_eq _ s1 s2 so hdata.symm


/-- C8. On the CPU path, for the pass kind 2, a batch of at least one sample and
a layer whose weights are attached as `[channels x prevChannels * kernelVolume]`
inside the arena (clear of the biases) and whose gradient buffer is
`[batchSize x sampleLength]`, of fewer than `2^64` elements: `CalcWeights`
succeeds, and the stored
weight-gradient kernel of every pair (output channel `i`, input channel `j`) is
the sum over the samples `k` of
`Filter(prev_activ[k][j], deriv[k][i], padding, false)` divided by `batchSize`.
The division is made exactly once (the stored value times `batchSize` is the
sum), and the stored value is not the undivided sum, unless the two coincide
(`batchSize = 1` or a zero sum). -/
theorem CalcWeights_mean (E : Env) (c : Call)
    (hcpu : E.COMP_REGIME ≠ 2) (hB : 1 ≤ c.self.batchsize_) (hom : c.self.outputmaps_ ≠ 0)
    (hw1 : c.self.weights_.size1 = c.self.outputmaps_)
    (hw2 : c.self.weights_.size2 = c.prev_layer.outputmaps_ * c.self.filtersize_.prod)
    (hin : c.self.weights_.offset + c.self.weights_.size1 * c.self.weights_.size2
      ≤ c.weights.ders.length)
    (hdisj : c.self.weights_.offset + c.self.weights_.size1 * c.self.weights_.size2
        ≤ c.self.biases_.offset ∨
      c.self.biases_.offset + c.self.outputmaps_ ≤ c.self.weights_.offset)
    (hd1 : c.self.deriv_mat_.size1 = c.self.batchsize_)
    (hd2 : c.self.deriv_mat_.size2 = c.self.outputmaps_ * c.self.mapsize_.prod)
    (hdo : c.self.deriv_mat_.order = false)
    (hfit : c.self.batchsize_ * (c.self.outputmaps_ * c.self.mapsize_.prod) < SIZE_T_MOD) :
    ∃ c1, LayerConv.CalcWeights E 2 c = some c1 ∧
      ∀ i < c.self.outputmaps_, ∀ j < c.prev_layer.outputmaps_,
        InitMaps (c.self.weights_.der c1.weights) c.self.filtersize_ i j =
          Mat.ofShape c.self.filtersize_ ((List.range c.self.filtersize_.prod).map
            (fun p => weightSum E c i j p / (c.self.batchsize_ : ftype))) ∧
        ∀ p < c.self.filtersize_.prod,
          (c.self.weights_.der c1.weights).get i (j * c.self.filtersize_.prod + p)
              * (c.self.batchsize_ : ftype) = weightSum E c i j p ∧
          (c.self.batchsize_ ≠ 1 → weightSum E c i j p ≠ 0 →
            (c.self.weights_.der c1.weights).get i (j * c.self.filtersize_.prod + p)
              ≠ weightSum E c i j p) := by
  have hB0 : c.self.batchsize_ ≠ 0 := by omega
  have hBq : (c.self.batchsize_ : ftype) ≠ 0 := by exact_mod_cast hB0
  obtain ⟨c1, hc1, hder⟩ := CalcWeights_der E c hcpu hB0 hom hin hdisj hd1 hd2 hdo hfit
  obtain ⟨-, -, -, -, hget⟩ := calcLoops_sets E c (c.self.weights_.der c.weights)
  have hval : ∀ i < c.self.outputmaps_, ∀ j < c.prev_layer.outputmaps_,
      ∀ p < c.self.filtersize_.prod,
      (c.self.weights_.der c1.weights).get i (j * c.self.filtersize_.prod + p) =
        weightSum E c i j p / (c.self.batchsize_ : ftype) := by
    intro i hi j hj p hp
    have hcol := block_lt j c.self.filtersize_.prod p _ hj hp
    have := hget i (by show i < c.self.weights_.size1; rw [hw1]; exact hi)
      (j * c.self.filtersize_.prod + p) (by show _ < c.self.weights_.size2; rw [hw2]; exact hcol)
    obtain ⟨hd, hm⟩ := block_div_mod j c.self.filtersize_.prod p hp
    beta_reduce at this
    rw [hd, hm, decide_eq_true (⟨hi, hj⟩ : i < c.self.outputmaps_ ∧ j < c.prev_layer.outputmaps_),
      if_pos rfl] at this
    rw [hder, Mat.get_divScalar, this]
  refine ⟨c1, hc1, fun i hi j hj => ⟨InitMaps_eq _ _ _ _ _ (hval i hi j hj), fun p hp => ?_⟩⟩
  rw [hval i hi j hj p hp]
  refine ⟨div_mul_cancel₀ _ hBq, fun hB1 hS heq => ?_⟩
  have hB1q : (c.self.batchsize_ : ftype) ≠ 1 := by exact_mod_cast hB1
  rw [div_eq_iff hBq] at heq
  have : weightSum E c i j p * ((c.self.batchsize_ : ftype) - 1) = 0 := by linarith
  rcases mul_eq_zero.1 this with h | h
  · exact hS h
  · exact hB1q (by linarith)

/-- The witness of `CalcWeights_mean`: `sampleCall`, a batch of two samples. The
sum of the first kernel element of the pair `(0, 0)` is 7; 7/2 is stored. -/
theorem CalcWeights_mean_witness :
    cpuEnv.COMP_REGIME ≠ 2 ∧ 1 ≤ sampleCall.self.batchsize_ ∧ sampleCall.self.outputmaps_ ≠ 0 ∧
    weightSum cpuEnv sampleCall 0 0 0 = 7 ∧
    ∃ c1, LayerConv.CalcWeights cpuEnv 2 sampleCall = some c1 ∧
      ∀ i < sampleCall.self.outputmaps_, ∀ j < sampleCall.prev_layer.outputmaps_,
        InitMaps (sampleCall.self.weights_.der c1.weights) sampleCall.self.filtersize_ i j =
          Mat.ofShape sampleCall.self.filtersize_
            ((List.range sampleCall.self.filtersize_.prod).map
              (fun p => weightSum cpuEnv sampleCall i j p / (sampleCall.self.batchsize_ : ftype))) ∧
        ∀ p < sampleCall.self.filtersize_.prod,
          (sampleCall.self.weights_.der c1.weights).get i
              (j * sampleCall.self.filtersize_.prod + p)
              * (sampleCall.self.batchsize_ : ftype) = weightSum cpuEnv sampleCall i j p ∧
          (sampleCall.self.batchsize_ ≠ 1 → weightSum cpuEnv sampleCall i j p ≠ 0 →
            (sampleCall.self.weights_.der c1.weights).get i
              (j * sampleCall.self.filtersize_.prod + p)
              ≠ weightSum cpuEnv sampleCall i j p) :=
  ⟨by decide, by decide, by decide,
    by norm_num [weightSum, cpuEnv, correlate, sampleCall, sampleLayer, samplePrevActiv,
      sampleDeriv, InitMaps, Mat.ofShape, Mat.get, Mat.index, List.range, List.range.loop],
    CalcWeights_mean cpuEnv sampleCall (by decide) (by decide) (by decide) (by decide) (by decide)
      (by decide) (by decide) (by decide) (by decide) (by decide) (by decide)⟩


/-! ## C15: the configurations that `Init` rejects -/

theorem readFiltersize_inv (q : List ftype) (fs : List Nat) (h : readFiltersize q = some fs) :
    fs.length = q.length ∧ (∀ x ∈ q, 1 ≤ x) ∧
      ∀ d, d < q.length → fs.getD d 0 = toSizeT (q.getD d 0) := by
  induction q generalizing fs with
  | nil =>
    simp only [readFiltersize, Option.some.injEq] at h
    subst h
    exact ⟨rfl, fun x hx => by simp at hx, fun d hd => by simp at hd⟩
  | cons x xs ih =>
    simp only [readFiltersize, Option.bind_eq_bind, Option.bind_eq_some, mexAssert_eq_some,
      decide_eq_true_eq, Option.pure_def, Option.some.injEq] at h
    obtain ⟨_, hx, rest, hrest, rfl⟩ := h
    obtain ⟨h1, h2, h3⟩ := ih rest hrest
    refine ⟨by simp [h1], ?_, fun d hd => ?_⟩
    · intro y hy
      rcases List.mem_cons.1 hy with rfl | hy
      · exact hx
      · exact h2 y hy
    · cases d with
      | zero => simp
      | succ d => simpa using h3 d (by simpa using hd)

theorem Init_eq_none_of (R : Nat) (cfg : MxLayer) (prev : Layer) (self : LayerConv)
    (h : ∀ L, LayerConv.Init R cfg prev self ≠ some L) : LayerConv.Init R cfg prev self = none := by
  cases hI : LayerConv.Init R cfg prev self with
  | none => rfl
  | some L => exact absurd hI (h L)

/-- C15. `Init` fails whenever the predecessor is of the kind `f`, the field
`outputmaps` is missing or below 1, a supplied function tag is none of `soft`,
`sigm`, `relu`, the field `filtersize` is missing, its length is not the
dimensionality of the predecessor, or one of its extents is below 1, whatever
the map shape of the predecessor and the other fields are (no map shape is
looked at before). When the function tag is absent, a successful `Init` keeps
the function of the layer, which is `relu` for a freshly constructed one. -/
theorem Init_rejects_config (R : Nat) (cfg : MxLayer) (prev : Layer) (self : LayerConv) :
    (prev.type_ = "f" → LayerConv.Init R cfg prev self = none) ∧
    (cfg.outputmaps = none → LayerConv.Init R cfg prev self = none) ∧
    (∀ x, cfg.outputmaps = some x → x < 1 → LayerConv.Init R cfg prev self = none) ∧
    (∀ f, cfg.function = some f → ¬ (f = "soft" ∨ f = "sigm" ∨ f = "relu") →
      LayerConv.Init R cfg prev self = none) ∧
    (cfg.filtersize = none → LayerConv.Init R cfg prev self = none) ∧
    (∀ q, cfg.filtersize = some q → q.length ≠ prev.numdim_ →
      LayerConv.Init R cfg prev self = none) ∧
    (∀ q, cfg.filtersize = some q → (∃ x ∈ q, x < 1) →
      LayerConv.Init R cfg prev self = none) ∧
    (cfg.function = none → ∀ L, LayerConv.Init R cfg prev self = some L →
      L.function_ = self.function_) ∧
    LayerConv.new.function_ = "relu" := by
  refine ⟨fun h => ?_, fun h => ?_, fun x h hx => ?_, fun f h hf => ?_, fun h => ?_,
    fun q h hq => ?_, fun q h hq => ?_, fun h L hL => ?_, rfl⟩
  · apply Init_eq_none_of
    intro L hL
    obtain ⟨om, fn, q, fs, pd, st, sw, h1, -⟩ := (Init_eq_some_iff R cfg prev self L).1 hL
    exact h1 h
  · apply Init_eq_none_of
    intro L hL
    obtain ⟨om, fn, q, fs, pd, st, sw, -, h2, -⟩ := (Init_eq_some_iff R cfg prev self L).1 hL
    rw [h] at h2
    cases h2
  · apply Init_eq_none_of
    intro L hL
    obtain ⟨om, fn, q, fs, pd, st, sw, -, h2, h3, -⟩ := (Init_eq_some_iff R cfg prev self L).1 hL
    rw [h] at h2
    cases h2
    exact absurd h3 (not_le.2 hx)
  · apply Init_eq_none_of
    intro L hL
    obtain ⟨om, fn, q, fs, pd, st, sw, -, -, -, h4, -⟩ := (Init_eq_some_iff R cfg prev self L).1 hL
    unfold readFunction at h4
    rw [h] at h4
    simp only [Option.bind_eq_bind, Option.bind_eq_some, mexAssert_eq_some, decide_eq_true_eq,
      Option.pure_def, Option.some.injEq] at h4
    obtain ⟨_, h5, -⟩ := h4
    exact hf h5
  · apply Init_eq_none_of
    intro L hL
    obtain ⟨om, fn, q, fs, pd, st, sw, -, -, -, -, h5, -⟩ :=
      (Init_eq_some_iff R cfg prev self L).1 hL
    rw [h] at h5
    cases h5
  · apply Init_eq_none_of
    intro L hL
    obtain ⟨om, fn, q', fs, pd, st, sw, -, -, -, -, h5, h6, -⟩ :=
      (Init_eq_some_iff R cfg prev self L).1 hL
    rw [h] at h5
    cases h5
    exact hq h6
  · apply Init_eq_none_of
    intro L hL
    obtain ⟨om, fn, q', fs, pd, st, sw, -, -, -, -, h5, -, h7, -⟩ :=
      (Init_eq_some_iff R cfg prev self L).1 hL
    rw [h] at h5
    cases h5
    obtain ⟨x, hx, hx1⟩ := hq
    exact absurd ((readFiltersize_inv q fs h7).2.1 x hx) (not_le.2 hx1)
  · obtain ⟨om, fn, q, fs, pd, st, sw, -, -, -, h4, -, -, -, -, -, -, -, rfl⟩ :=
      (Init_eq_some_iff R cfg prev self L).1 hL
    unfold readFunction at h4
    rw [h] at h4
    simp only [Option.pure_def, Option.some.injEq] at h4
    exact h4.symm

/-- Every case of `Init_rejects_config` occurs: evaluations of `Init` on
configurations of the 5x5 scenario, one per case. -/
theorem Init_rejects_config_cases :
    LayerConv.Init 0 (scenarioConfig [3, 3] none) { scenarioPrev [5, 5] with type_ := "f" }
      LayerConv.new = none ∧
    LayerConv.Init 0 { scenarioConfig [3, 3] none with outputmaps := none } (scenarioPrev [5, 5])
      LayerConv.new = none ∧
    LayerConv.Init 0 { scenarioConfig [3, 3] none with outputmaps := some 0 }
      (scenarioPrev [5, 5]) LayerConv.new = none ∧
    LayerConv.Init 0 { scenarioConfig [3, 3] none with function := some "tanh" }
      (scenarioPrev [5, 5]) LayerConv.new = none ∧
    LayerConv.Init 0 { scenarioConfig [3, 3] none with filtersize := none } (scenarioPrev [5, 5])
      LayerConv.new = none ∧
    LayerConv.Init 0 (scenarioConfig [3, 3, 3] none) (scenarioPrev [5, 5]) LayerConv.new = none ∧
    LayerConv.Init 0 (scenarioConfig [3, 0] none) (scenarioPrev [5, 5]) LayerConv.new = none ∧
    (LayerConv.Init 0 (scenarioConfig [3, 3] none) (scenarioPrev [5, 5]) LayerConv.new).map
      (fun L => L.function_) = some "relu" ∧
    (LayerConv.Init 0 { scenarioConfig [3, 3] none with function := some "sigm" }
      (scenarioPrev [5, 5]) LayerConv.new).map (fun L => L.function_) = some "sigm" := by
  decide


/-! ## C14: the validation of the padding -/

theorem readPadding_inv (p : List ftype) (fs pd : List Nat) (h : readPadding p fs = some pd) :
    pd.length = p.length ∧
      ∀ d, d < p.length → 0 ≤ p.getD d 0 ∧
        p.getD d 0 ≤ castFtype (szSub (fs.getD d 0) 1) ∧
        pd.getD d 0 = toSizeT (p.getD d 0) := by
  induction p generalizing fs pd with
  | nil =>
    simp only [readPadding, Option.some.injEq] at h
    subst h
    exact ⟨rfl, fun d hd => by simp at hd⟩
  | cons x xs ih =>
    simp only [readPadding, Option.bind_eq_bind, Option.bind_eq_some, mexAssert_eq_some,
      decide_eq_true_eq, Option.pure_def, Option.some.injEq] at h
    obtain ⟨_, hx, rest, hrest, rfl⟩ := h
    obtain ⟨h1, h2⟩ := ih fs.tail rest hrest
    have hhead : fs.headD 0 = fs.getD 0 0 := by cases fs <;> rfl
    refine ⟨by simp [h1], fun d hd => ?_⟩
    cases d with
    | zero =>
      rw [hhead] at hx
      exact ⟨by simpa using hx.1, by simpa using hx.2, by simp⟩
    | succ d =>
      have := h2 d (by simpa using hd)
      have ht : fs.tail.getD d 0 = fs.getD (d + 1) 0 := by cases fs <;> simp
      rw [ht] at this
      simpa using this

theorem toSizeT_of_lt (x : ftype) (h1 : 1 ≤ x) (h2 : x < (SIZE_T_MOD : ftype)) :
    toSizeT x = ⌊x⌋₊ ∧ 1 ≤ toSizeT x ∧ toSizeT x < SIZE_T_MOD := by
  have hfl : ⌊x⌋₊ < SIZE_T_MOD := (Nat.floor_lt (by linarith)).2 h2
  have h1' : 1 ≤ ⌊x⌋₊ := Nat.le_floor (by simpa using h1)
  unfold toSizeT
  rw [Nat.mod_eq_of_lt hfl]
  exact ⟨rfl, h1', hfl⟩

theorem mapLoopResult_minsize_le (pm pd fs : List Nat) (dims : List Nat) (st : MapLoop) :
    (mapLoopResult pm pd fs dims st).minsize_ ≤ st.minsize_ ∧
      ∀ i ∈ dims, (mapLoopResult pm pd fs dims st).minsize_ ≤
        mapExtent (pm.getD i 0) (pd.getD i 0) (fs.getD i 0) := by
  induction dims generalizing st with
  | nil => exact ⟨le_refl _, fun i hi => by simp at hi⟩
  | cons j rest ih =>
    simp only [mapLoopResult, List.foldl_cons] at ih ⊢
    obtain ⟨h1, h2⟩ := ih
      { mapsize_ := st.mapsize_.set j (mapExtent (pm.getD j 0) (pd.getD j 0) (fs.getD j 0)),
        minsize_ := if mapExtent (pm.getD j 0) (pd.getD j 0) (fs.getD j 0) < st.minsize_
          then mapExtent (pm.getD j 0) (pd.getD j 0) (fs.getD j 0) else st.minsize_,
        length_ := szMul st.length_ (mapExtent (pm.getD j 0) (pd.getD j 0) (fs.getD j 0)) }
    simp only at h1
    refine ⟨le_trans h1 (by split <;> omega), fun i hi => ?_⟩
    rcases List.mem_cons.1 hi with rfl | hi
    · exact le_trans h1 (by split <;> omega)
    · exact h2 i hi

/-- What a successful `Init` has made of the map shape and of the block width:
the extents are those of the loop of lines 69-74, all at least 1, `minsize_` is
at least 1 and at most every extent, and the block width is what lines 75-81
make of `minsize_`. -/
theorem Init_minsize (R : Nat) (cfg : MxLayer) (prev : Layer) (self L : LayerConv)
    (hdim : 0 < prev.numdim_) (hI : LayerConv.Init R cfg prev self = some L) :
    ∃ minsize_ : Nat, 1 ≤ minsize_ ∧
      (∀ d < prev.numdim_, 1 ≤ L.mapsize_.getD d 0 ∧ minsize_ ≤ L.mapsize_.getD d 0) ∧
      (∀ d < prev.numdim_, L.mapsize_.getD d 0 =
        mapExtent (prev.mapsize_.getD d 0) (L.padding_.getD d 0) (L.filtersize_.getD d 0)) ∧
      readSumwidth cfg minsize_ self = some L.sum_width_ := by
  obtain ⟨om, fn, q, fs, pd, st, sw, -, -, -, -, -, -, -, -, -, hloop, hsw, rfl⟩ :=
    (Init_eq_some_iff R cfg prev self L).1 hI
  obtain ⟨hpos, hst⟩ := (mapLoop_eq_some _ _ _ _ _ _).1 hloop
  have hext : ∀ d < prev.numdim_, st.mapsize_.getD d 0 =
      mapExtent (prev.mapsize_.getD d 0) (pd.getD d 0) (fs.getD d 0) := by
    intro d hd
    rw [hst]
    exact mapLoopResult_getD _ _ _ _ _ d (by simpa using hd) (List.mem_range.2 hd)
  refine ⟨st.minsize_, ?_, fun d hd => ?_, hext, hsw⟩
  · rw [hst]
    exact mapLoopResult_minsize_ge _ _ _ _ _ 1 (hpos 0 (List.mem_range.2 hdim)) hpos
  · show 1 ≤ st.mapsize_.getD d 0 ∧ st.minsize_ ≤ st.mapsize_.getD d 0
    rw [hext d hd]
    refine ⟨hpos d (List.mem_range.2 hd), ?_⟩
    rw [hst]
    exact (mapLoopResult_minsize_le _ _ _ _ _).2 d (List.mem_range.2 hd)

/-- C12 (as amended). When the configuration has no field `sumwidth`, a
successful `Init` of a freshly constructed layer (with at least one spatial
dimension) leaves the block width at 1, the value of the constructor: line 80
only lowers it, and every map extent is at least 1. -/
theorem Init_default_sumwidth (R : Nat) (cfg : MxLayer) (prev : Layer) (L : LayerConv)
    (hsw : cfg.sumwidth = none) (hdim : 0 < prev.numdim_)
    (hI : LayerConv.Init R cfg prev LayerConv.new = some L) :
    L.sum_width_ = 1 ∧ ∀ d < prev.numdim_, L.sum_width_ ≤ L.mapsize_.getD d 0 := by
  obtain ⟨m, hm, hmap, -, hs⟩ := Init_minsize R cfg prev LayerConv.new L hdim hI
  unfold readSumwidth at hs
  rw [hsw] at hs
  simp only [Option.pure_def, Option.some.injEq] at hs
  have h1 : L.sum_width_ = 1 := by
    rw [← hs]
    show (if 1 > m then m else 1) = 1
    rw [if_neg (by omega)]
  exact ⟨h1, fun d hd => h1 ▸ (hmap d hd).1⟩

/-- The witness of `Init_default_sumwidth`: the 5x5 scenario with a 3x3 filter. -/
theorem Init_default_sumwidth_witness :
    (scenarioConfig [3, 3] (some [1, 1])).sumwidth = none ∧
    0 < (scenarioPrev [5, 5]).numdim_ ∧
    LayerConv.Init 0 (scenarioConfig [3, 3] (some [1, 1])) (scenarioPrev [5, 5]) LayerConv.new
      = some scenarioLayer ∧
    (scenarioLayer.sum_width_ = 1 ∧
      ∀ d < (scenarioPrev [5, 5]).numdim_, scenarioLayer.sum_width_ ≤
        scenarioLayer.mapsize_.getD d 0) :=
  ⟨rfl, by decide, by decide,
    Init_default_sumwidth 0 (scenarioConfig [3, 3] (some [1, 1])) (scenarioPrev [5, 5])
      scenarioLayer rfl (by decide) (by decide)⟩

/-- C12, counterexample. Without the field `sumwidth`, `Init` of a freshly
constructed layer on a 5x5 map with a 3x3 filter gives 3x3 maps, whose minimum
extent is 3, and a block width of 1. -/
theorem Init_default_sumwidth_not_min :
    (scenarioConfig [3, 3] none).sumwidth = none ∧
    (LayerConv.Init 0 (scenarioConfig [3, 3] none) (scenarioPrev [5, 5]) LayerConv.new).map
      (fun L => (L.mapsize_, L.sum_width_)) = some ([3, 3], 1) ∧
    ¬ ∃ L, LayerConv.Init 0 (scenarioConfig [3, 3] none) (scenarioPrev [5, 5]) LayerConv.new
        = some L ∧ L.sum_width_ = min (L.mapsize_.getD 0 0) (L.mapsize_.getD 1 0) := by
  have h : (LayerConv.Init 0 (scenarioConfig [3, 3] none) (scenarioPrev [5, 5])
      LayerConv.new).map (fun L => (L.mapsize_, L.sum_width_)) = some ([3, 3], 1) := by decide
  refine ⟨rfl, h, ?_⟩
  rintro ⟨L, hL, hmin⟩
  rw [hL] at h
  simp only [Option.map_some', Option.some.injEq, Prod.mk.injEq] at h
  rw [h.1, h.2] at hmin
  revert hmin
  decide


theorem readPaddingField_inv (R : Nat) (cfg : MxLayer) (n : Nat) (fs pd : List Nat)
    (h : readPaddingField R cfg n fs = some pd) :
    (cfg.padding = none → pd = List.replicate n 0) ∧
    (∀ p, cfg.padding = some p → p.length = n ∧ readPadding p fs = some pd ∧
      (R = 2 → pd.getD 0 0 = pd.getD 1 0)) := by
  unfold readPaddingField at h
  cases hp : cfg.padding with
  | none =>
    rw [hp] at h
    simp only [Option.pure_def, Option.some.injEq] at h
    exact ⟨fun _ => h.symm, fun p hp' => by simp at hp'⟩
  | some p =>
    rw [hp] at h
    simp only [Option.bind_eq_bind, Option.bind_eq_some, mexAssert_eq_some, decide_eq_true_eq,
      Option.pure_def, Option.some.injEq] at h
    obtain ⟨_, hlen, pd', hpd, _, hsq, rfl⟩ := h
    refine ⟨fun h0 => by simp at h0, fun p' hp' => ?_⟩
    have : p' = p := (Option.some.inj hp').symm
    subst this
    exact ⟨hlen, hpd, hsq⟩

/-- C16 (as amended). Under the accelerated regime (`COMP_REGIME == 2`) and with
at least two spatial dimensions, `Init` fails whenever the filter extents of the
dimensions 0 and 1 differ after the cast of line 49, and whenever a supplied
padding vector has entries 0 and 1 that differ after the cast of line 60. Every
successful `Init` therefore stores equal filter extents and equal paddings for
the dimensions 0 and 1; for a two-dimensional layer these are all of them. The
dimensions from 2 on are not compared. -/
theorem Init_isotropy (cfg : MxLayer) (prev : Layer) (self : LayerConv)
    (hdim : 2 ≤ prev.numdim_) :
    (∀ q, cfg.filtersize = some q → toSizeT (q.getD 0 0) ≠ toSizeT (q.getD 1 0) →
      LayerConv.Init 2 cfg prev self = none) ∧
    (∀ p, cfg.padding = some p → toSizeT (p.getD 0 0) ≠ toSizeT (p.getD 1 0) →
      LayerConv.Init 2 cfg prev self = none) ∧
    (∀ L, LayerConv.Init 2 cfg prev self = some L →
      L.filtersize_.getD 0 0 = L.filtersize_.getD 1 0 ∧
      L.padding_.getD 0 0 = L.padding_.getD 1 0 ∧
      (prev.numdim_ = 2 → ∀ d < 2, ∀ e < 2,
        L.filtersize_.getD d 0 = L.filtersize_.getD e 0 ∧
        L.padding_.getD d 0 = L.padding_.getD e 0)) := by
  have key : ∀ L, LayerConv.Init 2 cfg prev self = some L →
      L.filtersize_.getD 0 0 = L.filtersize_.getD 1 0 ∧
      L.padding_.getD 0 0 = L.padding_.getD 1 0 ∧
      (∀ q, cfg.filtersize = some q → ∀ d < prev.numdim_,
        L.filtersize_.getD d 0 = toSizeT (q.getD d 0)) ∧
      (∀ p, cfg.padding = some p → ∀ d < prev.numdim_,
        L.padding_.getD d 0 = toSizeT (p.getD d 0)) := by
    intro L hI
    obtain ⟨om, fn, q, fs, pd, st, sw, -, -, -, -, h5, h6, h7, h8, h9, -, -, rfl⟩ :=
      (Init_eq_some_iff 2 cfg prev self L).1 hI
    obtain ⟨-, -, hfs⟩ := readFiltersize_inv q fs h7
    obtain ⟨hnone, hsome⟩ := readPaddingField_inv 2 cfg prev.numdim_ fs pd h9
    refine ⟨h8 rfl, ?_, ?_, ?_⟩
    · cases hp : cfg.padding with
      | none =>
        rw [hnone hp]
        simp [List.getD_eq_getElem?_getD, List.getElem?_replicate]
        split <;> split <;> simp
      | some p => exact (hsome p hp).2.2 rfl
    · intro q' hq' d hd
      have : q' = q := Option.some.inj (hq'.symm.trans h5)
      subst this
      exact hfs d (by omega)
    · intro p hp d hd
      obtain ⟨hlen, hpd, -⟩ := hsome p hp
      exact ((readPadding_inv p fs pd hpd).2 d (by omega)).2.2
  refine ⟨fun q hq hne => ?_, fun p hp hne => ?_, fun L hI => ?_⟩
  · apply Init_eq_none_of
    intro L hI
    obtain ⟨h1, -, h3, -⟩ := key L hI
    apply hne
    rw [← h3 q hq 0 (by omega), ← h3 q hq 1 (by omega)]
    exact h1
  · apply Init_eq_none_of
    intro L hI
    obtain ⟨-, h2, -, h4⟩ := key L hI
    apply hne
    rw [← h4 p hp 0 (by omega), ← h4 p hp 1 (by omega)]
    exact h2
  · obtain ⟨h1, h2, -, -⟩ := key L hI
    refine ⟨h1, h2, fun _ d hd e he => ?_⟩
    have hd' : d = 0 ∨ d = 1 := by omega
    have he' : e = 0 ∨ e = 1 := by omega
    rcases hd' with rfl | rfl <;> rcases he' with rfl | rfl
    · exact ⟨rfl, rfl⟩
    · exact ⟨h1, h2⟩
    · exact ⟨h1.symm, h2.symm⟩
    · exact ⟨rfl, rfl⟩

/-- The witness of `Init_isotropy`: the 5x5 scenario under the accelerated
regime. A 3x2 filter is rejected, a 3x3 filter with the padding (1, 0) is
rejected, and a 3x3 filter with the padding (1, 1) is accepted. -/
theorem Init_isotropy_witness :
    2 ≤ (scenarioPrev [5, 5]).numdim_ ∧
    LayerConv.Init 2 (scenarioConfig [3, 2] none) (scenarioPrev [5, 5]) LayerConv.new = none ∧
    LayerConv.Init 2 (scenarioConfig [3, 3] (some [1, 0])) (scenarioPrev [5, 5]) LayerConv.new
      = none ∧
    LayerConv.Init 2 (scenarioConfig [3, 3] (some [1, 1])) (scenarioPrev [5, 5]) LayerConv.new
      = some scenarioLayer ∧
    (∀ L, LayerConv.Init 2 (scenarioConfig [3, 3] (some [1, 1])) (scenarioPrev [5, 5])
        LayerConv.new = some L →
      L.filtersize_.getD 0 0 = L.filtersize_.getD 1 0 ∧
      L.padding_.getD 0 0 = L.padding_.getD 1 0 ∧
      ((scenarioPrev [5, 5]).numdim_ = 2 → ∀ d < 2, ∀ e < 2,
        L.filtersize_.getD d 0 = L.filtersize_.getD e 0 ∧
        L.padding_.getD d 0 = L.padding_.getD e 0)) :=
  ⟨by decide, by decide, by decide, by decide,
    (Init_isotropy (scenarioConfig [3, 3] (some [1, 1])) (scenarioPrev [5, 5]) LayerConv.new
      (by decide)).2.2⟩

/-- C16, counterexample. Under the accelerated regime a three-dimensional layer
over 5x5x5 maps is initialised with the filter extents (3, 3, 2), which are not
all equal, and with the filter extents (3, 3, 3) and the supplied padding
(1, 1, 0), whose entries are not all equal: only the dimensions 0 and 1 are
compared by the assertions of lines 52 and 63. -/
theorem Init_isotropy_three_dims :
    (LayerConv.Init 2 (scenarioConfig [3, 3, 2] none) (scenarioPrev [5, 5, 5]) LayerConv.new).map
      (fun L => (L.filtersize_, L.padding_, L.mapsize_)) = some ([3, 3, 2], [0, 0, 0], [3, 3, 4]) ∧
    (LayerConv.Init 2 (scenarioConfig [3, 3, 3] (some [1, 1, 0])) (scenarioPrev [5, 5, 5])
      LayerConv.new).map
      (fun L => (L.filtersize_, L.padding_, L.mapsize_)) = some ([3, 3, 3], [1, 1, 0], [5, 5, 3]) := by
  decide


/-! ## C11: the bias gradient -/

theorem list_sum_range (n : Nat) (f : Nat → ftype) :
    ((List.range n).map f).sum = ∑ i in Finset.range n, f i := by
  induction n with
  | zero => simp
  | succ n ih =>
    rw [List.range_succ, List.map_append, List.sum_append, ih, Finset.sum_range_succ]
    simp

theorem sum_range_mul (n B : Nat) (g : Nat → ftype) :
    ((List.range (n * B)).map g).sum =
      ((List.range n).map (fun p => ((List.range B).map (fun k => g (p * B + k))).sum)).sum := by
  induction n with
  | zero => simp
  | succ n ih =>
    rw [Nat.succ_mul, List.range_add, List.map_append, List.sum_append, ih, List.range_succ,
      List.map_append, List.sum_append, List.map_map]
    simp only [List.map_cons, List.map_nil, List.sum_cons, List.sum_nil, add_zero]
    rfl

theorem sum_range_swap (n B : Nat) (g : Nat → Nat → ftype) :
    ((List.range n).map (fun p => ((List.range B).map (fun k => g p k)).sum)).sum =
      ((List.range B).map (fun k => ((List.range n).map (fun p => g p k)).sum)).sum := by
  simp only [list_sum_range]
  exact Finset.sum_comm

theorem window_getD (A : List ftype) (off n idx : Nat) (h : idx < n) :
    (window A off n).getD idx 0 = A.getD (off + idx) 0 := by
  unfold window
  rw [List.getD_eq_getElem?_getD, List.getElem?_map, List.getElem?_range h]
  rfl

theorem getD_map_div (l : List ftype) (x : ftype) (idx : Nat) :
    (l.map (fun y => y / x)).getD idx 0 = l.getD idx 0 / x := by
  simp only [List.getD_eq_getElem?_getD, List.getElem?_map]
  cases l[idx]? <;> simp

theorem Mat.index_row (m : Mat) (h : m.size1 = 1) (j : Nat) : m.index 0 j = j := by
  unfold Mat.index
  rw [h]
  split <;> simp

theorem calcBias_der (c : Call)
    (hd1 : c.self.deriv_mat_.size1 = c.self.batchsize_)
    (hd2 : c.self.deriv_mat_.size2 = c.self.outputmaps_ * c.self.mapsize_.prod)
    (hdo : c.self.deriv_mat_.order = false)
    (hom : c.self.outputmaps_ ≠ 0) (hB : c.self.batchsize_ ≠ 0)
    (hfit : c.self.batchsize_ * (c.self.outputmaps_ * c.self.mapsize_.prod) < SIZE_T_MOD) :
    ∃ c2, calcBias c = some c2 ∧
      c2.weights.ders = writeWindow c.weights.ders c.self.biases_.offset
        ((Sum (c.self.deriv_mat_.withSize (c.self.batchsize_ * c.self.mapsize_.prod)
          c.self.outputmaps_) (c.self.biases_.der c.weights) 1).divScalar
            (c.self.batchsize_ : ftype)).data ∧
      c2.weights.values = c.weights.values ∧ c2.self.deriv_mat_ = c.self.deriv_mat_ ∧
      c2.prev_layer = c.prev_layer := by
  have hm1 : szMul c.self.deriv_mat_.size1 c.self.deriv_mat_.size2 =
      c.self.deriv_mat_.size1 * c.self.deriv_mat_.size2 :=
    Nat.mod_eq_of_lt (by rw [hd1, hd2]; exact hfit)
  have hq1 : c.self.deriv_mat_.size1 * c.self.deriv_mat_.size2 / c.self.outputmaps_ =
      c.self.batchsize_ * c.self.mapsize_.prod := by
    rw [hd1, hd2, ← mul_assoc, mul_comm c.self.batchsize_, mul_assoc]
    exact Nat.mul_div_cancel_left _ (Nat.pos_of_ne_zero hom)
  have hq2 : c.self.batchsize_ * c.self.mapsize_.prod * c.self.outputmaps_ / c.self.batchsize_ =
      c.self.outputmaps_ * c.self.mapsize_.prod := by
    rw [mul_assoc, Nat.mul_div_cancel_left _ (Nat.pos_of_ne_zero hB), mul_comm]
  have hr1 : c.self.batchsize_ * c.self.mapsize_.prod * c.self.outputmaps_ =
      c.self.deriv_mat_.size1 * c.self.deriv_mat_.size2 := by
    rw [hd1, hd2]; ring
  have hr2 : c.self.batchsize_ * (c.self.outputmaps_ * c.self.mapsize_.prod) =
      c.self.batchsize_ * c.self.mapsize_.prod * c.self.outputmaps_ := by ring
  have hcalc : calcBias c = some { c with
        self := { c.self with
                  deriv_mat_ := (c.self.deriv_mat_.withSize
                    (c.self.batchsize_ * c.self.mapsize_.prod) c.self.outputmaps_).withSize
                      c.self.batchsize_ (c.self.outputmaps_ * c.self.mapsize_.prod) },
        weights := c.self.biases_.setDer c.weights
          ((Sum (c.self.deriv_mat_.withSize (c.self.batchsize_ * c.self.mapsize_.prod)
            c.self.outputmaps_) (c.self.biases_.der c.weights) 1).divScalar
              (c.self.batchsize_ : ftype)).Validate } := by
    unfold calcBias
    simp only [szDiv, hm1, hom, hB, if_false, hq1, Mat.reshape, hr1, hdo, beq_self_eq_true,
      decide_True, mexAssert_true, Option.bind_eq_bind, Option.some_bind, Option.pure_def]
    have : szMul (c.self.deriv_mat_.withSize (c.self.batchsize_ * c.self.mapsize_.prod)
        c.self.outputmaps_).size1 (c.self.deriv_mat_.withSize
        (c.self.batchsize_ * c.self.mapsize_.prod) c.self.outputmaps_).size2 =
        c.self.batchsize_ * c.self.mapsize_.prod * c.self.outputmaps_ :=
      Nat.mod_eq_of_lt (lt_of_eq_of_lt hr2.symm hfit)
    have hn : (c.self.deriv_mat_.withSize (c.self.batchsize_ * c.self.mapsize_.prod)
        c.self.outputmaps_).size1 * (c.self.deriv_mat_.withSize
        (c.self.batchsize_ * c.self.mapsize_.prod) c.self.outputmaps_).size2 =
        c.self.batchsize_ * c.self.mapsize_.prod * c.self.outputmaps_ := rfl
    simp only [this, hn, hq2, hr2, decide_True, mexAssert_true, Option.some_bind]
  refine ⟨_, hcalc, rfl, rfl, ?_, rfl⟩
  exact Mat.mk_eq _ hd1 hd2 rfl rfl

theorem CalcWeights_two_raw (E : Env) (c : Call) :
    ∃ raw : Mat, LayerConv.CalcWeights E 2 c =
      (calcBias (c.withWeights (c.self.weights_.setDer c.weights raw))).bind (fun c2 =>
        (mexAssert (decide (c.self.batchsize_ ≠ 0 ∨ (c.self.weights_.der c2.weights).data = []))
          "weights_der.Validate()").bind (fun _ =>
          some (c2.withWeights (c.self.weights_.setDer c2.weights
            ((c.self.weights_.der c2.weights).divScalar (c.self.batchsize_ : ftype)).Validate)))) := by
  by_cases hcpu : E.COMP_REGIME ≠ 2
  · exact ⟨_, CalcWeights_two E c hcpu⟩
  · refine ⟨E.WeightActs c.prev_layer.activ_mat_ c.self.deriv_mat_ (c.self.weights_.der c.weights)
      c.prev_layer.mapsize_ (c.self.padding_.getD 0 0) (c.self.filtersize_.getD 0 0)
      c.self.sum_width_, ?_⟩
    unfold LayerConv.CalcWeights
    have h2 : ¬ ((2 : Int) < 2) := by decide
    simp only [if_neg h2, if_true, if_neg hcpu, Option.bind_eq_bind, Option.pure_def]
    rfl

/-- C11. In every regime, for the pass kind 2, a batch of at least one sample
and a layer whose gradient buffer is `[batchSize x sampleLength]` of order
`false` with fewer than `2^64` elements and whose biases are attached as
`[1 x channels]` inside the arena, clear of the weights: `CalcWeights`
succeeds, the stored bias gradient of every output channel `ch` is the sum of
the gradient values of the channel over all samples and all positions divided
by `batchSize`, and the gradient buffer of the layer is what it was, extents
and contents. -/
theorem CalcWeights_bias (E : Env) (c : Call)
    (hB : 1 ≤ c.self.batchsize_) (hom : c.self.outputmaps_ ≠ 0)
    (hb1 : c.self.biases_.size1 = 1) (hb2 : c.self.biases_.size2 = c.self.outputmaps_)
    (hin : c.self.biases_.offset + c.self.outputmaps_ ≤ c.weights.ders.length)
    (hdisj : c.self.weights_.offset + c.self.weights_.size1 * c.self.weights_.size2
        ≤ c.self.biases_.offset ∨
      c.self.biases_.offset + c.self.outputmaps_ ≤ c.self.weights_.offset)
    (hd1 : c.self.deriv_mat_.size1 = c.self.batchsize_)
    (hd2 : c.self.deriv_mat_.size2 = c.self.outputmaps_ * c.self.mapsize_.prod)
    (hdo : c.self.deriv_mat_.order = false)
    (hfit : c.self.batchsize_ * (c.self.outputmaps_ * c.self.mapsize_.prod) < SIZE_T_MOD) :
    ∃ c1, LayerConv.CalcWeights E 2 c = some c1 ∧
      (∀ ch < c.self.outputmaps_,
        (c.self.biases_.der c1.weights).get 0 ch = biasSum c ch / (c.self.batchsize_ : ftype)) ∧
      c1.self.deriv_mat_ = c.self.deriv_mat_ ∧
      c1.self.deriv_mat_.size1 = c.self.batchsize_ ∧
      c1.self.deriv_mat_.size2 = c.self.outputmaps_ * c.self.mapsize_.prod := by
  have hB0 : c.self.batchsize_ ≠ 0 := by omega
  obtain ⟨raw, hraw⟩ := CalcWeights_two_raw E c
  obtain ⟨c2, hc2, hders, -, hderiv, -⟩ := calcBias_der
    (c.withWeights (c.self.weights_.setDer c.weights raw)) hd1 hd2 hdo hom hB0 hfit
  have hders' : c2.weights.ders = writeWindow
      (writeWindow c.weights.ders c.self.weights_.offset raw.data) c.self.biases_.offset
      ((Sum (c.self.deriv_mat_.withSize (c.self.batchsize_ * c.self.mapsize_.prod)
        c.self.outputmaps_) (c.self.biases_.der
          (c.withWeights (c.self.weights_.setDer c.weights raw)).weights) 1).divScalar
            (c.self.batchsize_ : ftype)).data := hders
  have hderiv' : c2.self.deriv_mat_ = c.self.deriv_mat_ := hderiv
  rw [hc2] at hraw
  simp only [Option.some_bind, hB0, ne_eq, not_false_eq_true, true_or, decide_True,
    mexAssert_true] at hraw
  refine ⟨_, hraw, ?_, hderiv', hderiv'.symm ▸ hd1, hderiv'.symm ▸ hd2⟩
  intro ch hch
  -- the storage position of the bias gradient of the channel
  have hidx : (c.self.biases_.der (c2.withWeights (c.self.weights_.setDer c2.weights
      ((c.self.weights_.der c2.weights).divScalar
        (c.self.batchsize_ : ftype)).Validate)).weights).index 0 ch = ch :=
    Mat.index_row _ hb1 ch
  have hA : (writeWindow c.weights.ders c.self.weights_.offset raw.data).length =
      c.weights.ders.length := writeWindow_length _ _ _
  have hlen2 : c2.weights.ders.length = c.weights.ders.length := by
    rw [hders', writeWindow_length]
    exact hA
  have hbdlen : ((Sum (c.self.deriv_mat_.withSize (c.self.batchsize_ * c.self.mapsize_.prod)
      c.self.outputmaps_) (c.self.biases_.der
        (c.withWeights (c.self.weights_.setDer c.weights raw)).weights) 1).divScalar
          (c.self.batchsize_ : ftype)).data.length = c.self.outputmaps_ := by
    simp [Mat.divScalar, Sum, Mat.ofFn, Mat.withSize]
  have hwlen : ((c.self.weights_.der c2.weights).divScalar
      (c.self.batchsize_ : ftype)).Validate.data.length =
      c.self.weights_.size1 * c.self.weights_.size2 := by
    simp [Mat.Validate, Mat.divScalar, Weights.der, window]
  have hstep : (c.self.biases_.der (c2.withWeights (c.self.weights_.setDer c2.weights
      ((c.self.weights_.der c2.weights).divScalar
        (c.self.batchsize_ : ftype)).Validate)).weights).get 0 ch =
      ((Sum (c.self.deriv_mat_.withSize (c.self.batchsize_ * c.self.mapsize_.prod)
        c.self.outputmaps_) (c.self.biases_.der
          (c.withWeights (c.self.weights_.setDer c.weights raw)).weights) 1).divScalar
            (c.self.batchsize_ : ftype)).data.getD ch 0 := by
    unfold Mat.get
    rw [hidx]
    show (window (writeWindow c2.weights.ders c.self.weights_.offset _)
      c.self.biases_.offset (c.self.biases_.size1 * c.self.biases_.size2)).getD ch 0 = _
    rw [hb1, hb2, Nat.one_mul, window_getD _ _ _ _ hch,
      writeWindow_getD _ _ _ _ (by rw [hlen2]; omega), hwlen, if_neg (by omega), hders',
      writeWindow_getD _ _ _ _ (by rw [hA]; omega), hbdlen, if_pos ⟨by omega, by omega⟩,
      Nat.add_sub_cancel_left]
  rw [hstep]
  show (List.map (fun y => y / (c.self.batchsize_ : ftype)) _).getD ch 0 = _
  rw [getD_map_div]
  congr 1
  -- the column sum of the reshaped buffer
  have hsum : (Sum (c.self.deriv_mat_.withSize (c.self.batchsize_ * c.self.mapsize_.prod)
      c.self.outputmaps_) (c.self.biases_.der
        (c.withWeights (c.self.weights_.setDer c.weights raw)).weights) 1).get 0 ch =
      ((List.range (c.self.batchsize_ * c.self.mapsize_.prod)).map (fun r =>
        (c.self.deriv_mat_.withSize (c.self.batchsize_ * c.self.mapsize_.prod)
          c.self.outputmaps_).get r ch)).sum := by
    unfold Sum
    rw [if_pos rfl]
    exact Mat.get_ofFn _ _ _ _ 0 ch (by omega) hch
  have hidx2 : (Sum (c.self.deriv_mat_.withSize (c.self.batchsize_ * c.self.mapsize_.prod)
      c.self.outputmaps_) (c.self.biases_.der
        (c.withWeights (c.self.weights_.setDer c.weights raw)).weights) 1).index 0 ch = ch :=
    Mat.index_row _ (by simp [Sum, Mat.ofFn]) ch
  have hget : (Sum (c.self.deriv_mat_.withSize (c.self.batchsize_ * c.self.mapsize_.prod)
      c.self.outputmaps_) (c.self.biases_.der
        (c.withWeights (c.self.weights_.setDer c.weights raw)).weights) 1).data.getD ch 0 =
      (Sum (c.self.deriv_mat_.withSize (c.self.batchsize_ * c.self.mapsize_.prod)
      c.self.outputmaps_) (c.self.biases_.der
        (c.withWeights (c.self.weights_.setDer c.weights raw)).weights) 1).get 0 ch := by
    unfold Mat.get
    rw [hidx2]
  rw [hget, hsum, mul_comm c.self.batchsize_, sum_range_mul, sum_range_swap]
  unfold biasSum
  apply congrArg
  apply List.map_congr_left
  intro k _
  apply congrArg
  apply List.map_congr_left
  intro p _
  simp only [Mat.get, Mat.index, Mat.withSize, hdo, Bool.false_eq_true, if_false, hd1]
  congr 1
  ring

/-- The witness of `CalcWeights_bias`: `sampleCall`, a batch of two samples on
the CPU path. The gradient values of the channel 0 sum to 7; 7/2 is stored. -/
theorem CalcWeights_bias_witness :
    1 ≤ sampleCall.self.batchsize_ ∧ sampleCall.self.outputmaps_ ≠ 0 ∧
    biasSum sampleCall 0 = 7 ∧
    ∃ c1, LayerConv.CalcWeights cpuEnv 2 sampleCall = some c1 ∧
      (∀ ch < sampleCall.self.outputmaps_,
        (sampleCall.self.biases_.der c1.weights).get 0 ch =
          biasSum sampleCall ch / (sampleCall.self.batchsize_ : ftype)) ∧
      c1.self.deriv_mat_ = sampleCall.self.deriv_mat_ ∧
      c1.self.deriv_mat_.size1 = sampleCall.self.batchsize_ ∧
      c1.self.deriv_mat_.size2 = sampleCall.self.outputmaps_ * sampleCall.self.mapsize_.prod :=
  ⟨by decide, by decide,
    by norm_num [biasSum, sampleCall, sampleLayer, sampleDeriv, Mat.get, Mat.index, List.range,
      List.range.loop],
    CalcWeights_bias cpuEnv sampleCall (by decide) (by decide) (by decide) (by decide) (by decide)
      (by decide) (by decide) (by decide) (by decide) (by decide)⟩


/-! ## C20: the shapes of the bias reshapes -/

theorem foldl_szMul_lt (f : Nat → Nat) (xs : List Nat) (a : Nat) (ha : a < SIZE_T_MOD) :
    xs.foldl (fun acc i => szMul acc (f i)) a < SIZE_T_MOD := by
  induction xs generalizing a with
  | nil => simpa using ha
  | cons x xs ih =>
    rw [List.foldl_cons]
    exact ih _ (Nat.mod_lt _ (by simp [SIZE_T_MOD]))

theorem mapLoopResult_length_ (pm pd fs : List Nat) (dims : List Nat) (st : MapLoop) :
    (mapLoopResult pm pd fs dims st).length_ =
      dims.foldl (fun acc i =>
        szMul acc (mapExtent (pm.getD i 0) (pd.getD i 0) (fs.getD i 0))) st.length_ := by
  induction dims generalizing st with
  | nil => rfl
  | cons i rest ih =>
    simp only [mapLoopResult, List.foldl_cons] at ih ⊢
    rw [ih]

theorem Init_length (R : Nat) (cfg : MxLayer) (prev : Layer) (self L : LayerConv)
    (hI : LayerConv.Init R cfg prev self = some L) :
    L.length_ = (L.outputmaps_ * L.mapsize_.prod) % SIZE_T_MOD ∧
      ∀ x, cfg.outputmaps = some x → 1 ≤ x ∧ L.outputmaps_ = toSizeT x := by
  obtain ⟨om, fn, q, fs, pd, st, sw, -, hom, hom1, -, -, -, -, -, -, hloop, -, rfl⟩ :=
    (Init_eq_some_iff R cfg prev self L).1 hI
  obtain ⟨-, hst⟩ := (mapLoop_eq_some _ _ _ _ _ _).1 hloop
  refine ⟨?_, fun x hx => ?_⟩
  · have hms : st.mapsize_ = (List.range prev.numdim_).map (fun d =>
        mapExtent (prev.mapsize_.getD d 0) (pd.getD d 0) (fs.getD d 0)) := by
      have hl : st.mapsize_.length = prev.numdim_ := by
        rw [hst, mapLoopResult_length]
        simp
      rw [← map_getD_range st.mapsize_, hl]
      apply List.map_congr_left
      intro d hd
      rw [hst]
      exact mapLoopResult_getD _ _ _ _ _ d (by simpa using List.mem_range.1 hd) hd
    have hlen : st.length_ = (List.range prev.numdim_).foldl (fun acc i =>
        szMul acc (mapExtent (prev.mapsize_.getD i 0) (pd.getD i 0) (fs.getD i 0)))
        (toSizeT om) := by
      rw [hst, mapLoopResult_length_]
    show st.length_ = (toSizeT om * st.mapsize_.prod) % SIZE_T_MOD
    rw [hms, ← foldl_szMul_mod, ← hlen]
    refine (Nat.mod_eq_of_lt ?_).symm
    rw [hlen]
    exact foldl_szMul_lt _ _ _ (Nat.mod_lt _ (by simp [SIZE_T_MOD]))
  · have : x = om := Option.some.inj (hx.symm.trans hom)
    subst this
    exact ⟨hom1, rfl⟩

theorem forwardBias_eq (c : Call) (B : Nat) (passnum : Int) (a : Mat)
    (hp : passnum = 0 ∨ passnum = 1)
    (h1 : a.size1 = B) (h2 : a.size2 = c.self.outputmaps_ * c.self.mapsize_.prod)
    (ho : a.order = false) (hom : c.self.outputmaps_ ≠ 0) (hB : B ≠ 0)
    (hfit : B * (c.self.outputmaps_ * c.self.mapsize_.prod) < SIZE_T_MOD) :
    forwardBias c B passnum a =
      some (((a.withSize (B * c.self.mapsize_.prod) c.self.outputmaps_).AddVect
        (c.self.biases_.get c.weights) 1).withSize B
          (c.self.outputmaps_ * c.self.mapsize_.prod)) := by
  have hm1 : szMul a.size1 a.size2 = a.size1 * a.size2 :=
    Nat.mod_eq_of_lt (by rw [h1, h2]; exact hfit)
  have hd1 : a.size1 * a.size2 / c.self.outputmaps_ = B * c.self.mapsize_.prod := by
    rw [h1, h2, ← mul_assoc, mul_comm B, mul_assoc]
    exact Nat.mul_div_cancel_left _ (Nat.pos_of_ne_zero hom)
  have hd2 : B * c.self.mapsize_.prod * c.self.outputmaps_ / B =
      c.self.outputmaps_ * c.self.mapsize_.prod := by
    rw [mul_assoc, Nat.mul_div_cancel_left _ (Nat.pos_of_ne_zero hB), mul_comm]
  have hr1 : B * c.self.mapsize_.prod * c.self.outputmaps_ = a.size1 * a.size2 := by
    rw [h1, h2]; ring
  have hr2 : B * (c.self.outputmaps_ * c.self.mapsize_.prod) =
      B * c.self.mapsize_.prod * c.self.outputmaps_ := by ring
  unfold forwardBias
  rw [if_pos hp]
  simp only [szDiv, hm1, hom, hB, if_false, hd1, Mat.reshape, hr1, ho, beq_self_eq_true,
    decide_True, mexAssert_true, Option.bind_eq_bind, Option.some_bind, Option.pure_def]
  have : szMul ((a.withSize (B * c.self.mapsize_.prod) c.self.outputmaps_).AddVect
      (c.self.biases_.get c.weights) 1).size1
      ((a.withSize (B * c.self.mapsize_.prod) c.self.outputmaps_).AddVect
      (c.self.biases_.get c.weights) 1).size2 = B * c.self.mapsize_.prod * c.self.outputmaps_ :=
    Nat.mod_eq_of_lt (lt_of_eq_of_lt hr2.symm hfit)
  have hn : ((a.withSize (B * c.self.mapsize_.prod) c.self.outputmaps_).AddVect
      (c.self.biases_.get c.weights) 1).size1 *
      ((a.withSize (B * c.self.mapsize_.prod) c.self.outputmaps_).AddVect
      (c.self.biases_.get c.weights) 1).size2 = B * c.self.mapsize_.prod * c.self.outputmaps_ :=
    rfl
  simp only [this, hn, hd2, hr2, decide_True, mexAssert_true, Option.some_bind]

theorem reshape_exact (a : Mat) (B om n : Nat) (hom : om ≠ 0) (hB : B ≠ 0)
    (h1 : a.size1 = B) (h2 : a.size2 = om * n) (hfit : B * (om * n) < SIZE_T_MOD) :
    szDiv (szMul a.size1 a.size2) om = some (B * n) ∧ szMul a.size1 a.size2 % om = 0 ∧
    a.reshape (B * n) om = some (a.withSize (B * n) om) ∧
    ∀ m : Mat, m.size1 = B * n → m.size2 = om →
      szDiv (szMul m.size1 m.size2) B = some (om * n) ∧ szMul m.size1 m.size2 % B = 0 ∧
      m.reshape B (om * n) = some (m.withSize B (om * n)) := by
  have hm1 : szMul a.size1 a.size2 = om * (B * n) := by
    rw [szMul, h1, h2, Nat.mod_eq_of_lt hfit]
    ring
  refine ⟨?_, ?_, ?_, fun m hm1' hm2' => ?_⟩
  · rw [hm1, szDiv, if_neg hom, Nat.mul_div_cancel_left _ (Nat.pos_of_ne_zero hom)]
  · rw [hm1, Nat.mul_mod_right]
  · unfold Mat.reshape
    have : B * n * om = a.size1 * a.size2 := by rw [h1, h2]; ring
    simp [this, mexAssert]
  · have hm2 : szMul m.size1 m.size2 = B * (om * n) := by
      rw [szMul, hm1', hm2', show B * n * om = B * (om * n) by ring, Nat.mod_eq_of_lt hfit]
    refine ⟨?_, ?_, ?_⟩
    · rw [hm2, szDiv, if_neg hB, Nat.mul_div_cancel_left _ (Nat.pos_of_ne_zero hB)]
    · rw [hm2, Nat.mul_mod_right]
    · unfold Mat.reshape
      have : B * (om * n) = m.size1 * m.size2 := by rw [hm1', hm2']; ring
      simp [this, mexAssert]

/-- C20 (as amended). Let `Init` have succeeded with a cast of `outputmaps` that
is defined (the value is below `2^64`), let the call be on a layer with the
channels, the map shape and the sample length that `Init` stored, with a batch
of at least one sample, and let `batchSize * channels * product(mapShape)` be
below `2^64`. Then the channel count is not zero and
`sampleLength = channels * product(mapShape)`; for a buffer
`[batchSize x sampleLength]` both divisions of the bias reshapes have a
non-zero divisor and no remainder, the first reshape gives
`[batchSize * product(mapShape) x channels]` and the second gives
`[batchSize x sampleLength]`; `Forward` (pass kind 0 or 1) and `CalcWeights`
(pass kind 2) succeed and leave their buffer with the shape
`[batchSize x sampleLength]` and as many elements as before. -/
theorem bias_reshapes (E : Env) (R : Nat) (cfg : MxLayer) (prev : Layer) (self L : LayerConv)
    (c : Call) (passnum : Int)
    (hI : LayerConv.Init R cfg prev self = some L)
    (hcast : ∀ x, cfg.outputmaps = some x → x < (SIZE_T_MOD : ftype))
    (hom : c.self.outputmaps_ = L.outputmaps_) (hms : c.self.mapsize_ = L.mapsize_)
    (hlen : c.self.length_ = L.length_)
    (hB : 1 ≤ c.prev_layer.batchsize_)
    (hfit : c.prev_layer.batchsize_ * (L.outputmaps_ * L.mapsize_.prod) < SIZE_T_MOD)
    (hp : passnum = 0 ∨ passnum = 1)
    (hact : (preActiv E c).size1 = c.prev_layer.batchsize_ ∧
      (preActiv E c).size2 = c.self.length_ ∧ (preActiv E c).order = false)
    (hBs : c.self.batchsize_ = c.prev_layer.batchsize_)
    (hder : c.self.deriv_mat_.size1 = c.self.batchsize_ ∧
      c.self.deriv_mat_.size2 = c.self.length_ ∧ c.self.deriv_mat_.order = false) :
    L.outputmaps_ ≠ 0 ∧ L.length_ = L.outputmaps_ * L.mapsize_.prod ∧
    (∀ a : Mat, a.size1 = c.prev_layer.batchsize_ → a.size2 = L.length_ →
      szDiv (szMul a.size1 a.size2) L.outputmaps_ =
        some (c.prev_layer.batchsize_ * L.mapsize_.prod) ∧
      szMul a.size1 a.size2 % L.outputmaps_ = 0 ∧
      a.reshape (c.prev_layer.batchsize_ * L.mapsize_.prod) L.outputmaps_ =
        some (a.withSize (c.prev_layer.batchsize_ * L.mapsize_.prod) L.outputmaps_) ∧
      ∀ m : Mat, m.size1 = c.prev_layer.batchsize_ * L.mapsize_.prod → m.size2 = L.outputmaps_ →
        szDiv (szMul m.size1 m.size2) c.prev_layer.batchsize_ = some L.length_ ∧
        szMul m.size1 m.size2 % c.prev_layer.batchsize_ = 0 ∧
        m.reshape c.prev_layer.batchsize_ L.length_ =
          some (m.withSize c.prev_layer.batchsize_ L.length_)) ∧
    (∃ c1, LayerConv.Forward E passnum c = some c1 ∧
      c1.self.activ_mat_ =
        (((preActiv E c).withSize (c.prev_layer.batchsize_ * L.mapsize_.prod)
          L.outputmaps_).AddVect (c.self.biases_.get c.weights) 1).withSize
            c.prev_layer.batchsize_ L.length_ ∧
      c1.self.activ_mat_.size1 = c.prev_layer.batchsize_ ∧
      c1.self.activ_mat_.size2 = L.length_ ∧
      c1.self.activ_mat_.size1 * c1.self.activ_mat_.size2 =
        (preActiv E c).size1 * (preActiv E c).size2) ∧
    (∃ c2, LayerConv.CalcWeights E 2 c = some c2 ∧
      c2.self.deriv_mat_ =
        (c.self.deriv_mat_.withSize (c.prev_layer.batchsize_ * L.mapsize_.prod)
          L.outputmaps_).withSize c.prev_layer.batchsize_ L.length_ ∧
      c2.self.deriv_mat_.size1 = c.prev_layer.batchsize_ ∧
      c2.self.deriv_mat_.size2 = L.length_ ∧
      c2.self.deriv_mat_.size1 * c2.self.deriv_mat_.size2 =
        c.self.deriv_mat_.size1 * c.self.deriv_mat_.size2) := by
  have hB0 : c.prev_layer.batchsize_ ≠ 0 := by omega
  obtain ⟨hLlen, hLom⟩ := Init_length R cfg prev self L hI
  have hom0 : L.outputmaps_ ≠ 0 := by
    obtain ⟨om, fn, q, fs, pd, st, sw, -, hcfg, -, -, -, -, -, -, -, -, -, -⟩ :=
      (Init_eq_some_iff R cfg prev self L).1 hI
    obtain ⟨h1, h2⟩ := hLom om hcfg
    have := (toSizeT_of_lt om h1 (hcast om hcfg)).2.1
    omega
  have hfit' : L.outputmaps_ * L.mapsize_.prod < SIZE_T_MOD := by
    have : 1 * (L.outputmaps_ * L.mapsize_.prod) ≤
        c.prev_layer.batchsize_ * (L.outputmaps_ * L.mapsize_.prod) :=
      Nat.mul_le_mul_right _ hB
    omega
  have hL : L.length_ = L.outputmaps_ * L.mapsize_.prod := by
    rw [hLlen, Nat.mod_eq_of_lt hfit']
  have hfitc : c.prev_layer.batchsize_ * (c.self.outputmaps_ * c.self.mapsize_.prod) <
      SIZE_T_MOD := by
    rw [hom, hms]
    exact hfit
  have hom0c : c.self.outputmaps_ ≠ 0 := by
    rw [hom]
    exact hom0
  have hLc : c.self.length_ = c.self.outputmaps_ * c.self.mapsize_.prod := by
    rw [hlen, hom, hms]
    exact hL
  refine ⟨hom0, hL, fun a ha1 ha2 => ?_, ?_, ?_⟩
  · rw [hL]
    exact reshape_exact a _ _ _ hom0 hB0 ha1 (ha2.trans hL) hfit
  · have hF := forwardBias_eq c c.prev_layer.batchsize_ passnum (preActiv E c) hp hact.1
      (hact.2.1.trans hLc) hact.2.2 hom0c hB0 hfitc
    refine ⟨c.forwarded (((preActiv E c).withSize
      (c.prev_layer.batchsize_ * c.self.mapsize_.prod) c.self.outputmaps_).AddVect
        (c.self.biases_.get c.weights) 1 |>.withSize c.prev_layer.batchsize_
          (c.self.outputmaps_ * c.self.mapsize_.prod)), ?_, ?_, rfl, ?_, ?_⟩
    · rw [Forward_eq, hF]
      rfl
    · show _ = ((((preActiv E c).withSize (c.prev_layer.batchsize_ * L.mapsize_.prod)
          L.outputmaps_).AddVect (c.self.biases_.get c.weights) 1).withSize
            c.prev_layer.batchsize_ L.length_)
      rw [← hom, ← hms, ← hlen, hLc]
      rfl
    · show c.self.outputmaps_ * c.self.mapsize_.prod = L.length_
      rw [← hlen, hLc]
    · show c.prev_layer.batchsize_ * (c.self.outputmaps_ * c.self.mapsize_.prod) = _
      rw [hact.1, hact.2.1, hLc]
  · rw [← hBs] at hfitc hB0
    obtain ⟨raw, hraw⟩ := CalcWeights_two_raw E c
    obtain ⟨c2, hc2, -, -, hderiv, -⟩ := calcBias_der
      (c.withWeights (c.self.weights_.setDer c.weights raw)) hder.1 (hder.2.1.trans hLc) hder.2.2
      hom0c hB0 hfitc
    have hderiv' : c2.self.deriv_mat_ = c.self.deriv_mat_ := hderiv
    rw [hc2] at hraw
    simp only [Option.some_bind, hB0, ne_eq, not_false_eq_true, true_or, decide_True,
      mexAssert_true] at hraw
    refine ⟨_, hraw, ?_, ?_, ?_, ?_⟩
    · show c2.self.deriv_mat_ = _
      rw [hderiv']
      exact (Mat.mk_eq _ (hder.1.trans hBs) (hder.2.1.trans hlen) rfl rfl).symm
    · show c2.self.deriv_mat_.size1 = _
      rw [hderiv', hder.1, hBs]
    · show c2.self.deriv_mat_.size2 = _
      rw [hderiv', hder.2.1, hlen]
    · show c2.self.deriv_mat_.size1 * c2.self.deriv_mat_.size2 = _
      rw [hderiv']

/-- The witness of `bias_reshapes`: the layer that `Init` makes of `sampleConfig`
on the predecessor of `sampleCall`, and `sampleCall` with an activation buffer
of order `false`: two samples, two channels of 2x2 maps, sample length 8. -/
theorem bias_reshapes_witness :
    (LayerConv.Init 0 sampleConfig sampleCall.prev_layer LayerConv.new).map
      (fun L => (L.outputmaps_, L.mapsize_, L.length_)) = some (2, [2, 2], 8) ∧
    ∀ L, LayerConv.Init 0 sampleConfig sampleCall.prev_layer LayerConv.new = some L →
      L.outputmaps_ ≠ 0 ∧ L.length_ = L.outputmaps_ * L.mapsize_.prod ∧
      (∃ c1, LayerConv.Forward cpuEnv 0 sampleCall = some c1 ∧
        c1.self.activ_mat_.size1 = sampleCall.prev_layer.batchsize_ ∧
        c1.self.activ_mat_.size2 = L.length_) ∧
      (∃ c2, LayerConv.CalcWeights cpuEnv 2 sampleCall = some c2 ∧
        c2.self.deriv_mat_.size1 = sampleCall.prev_layer.batchsize_ ∧
        c2.self.deriv_mat_.size2 = L.length_) := by
  have hI : LayerConv.Init 0 sampleConfig sampleCall.prev_layer LayerConv.new = some
      { LayerConv.new with
          numdim_ := 2, length_prev_ := 1, outputmaps_ := 2, filtersize_ := [2, 2],
          padding_ := [0, 0], mapsize_ := [2, 2], length_ := 8, sum_width_ := 1 } := by
    decide
  refine ⟨by rw [hI]; rfl, fun L hL => ?_⟩
  have hLe := Option.some.inj (hI.symm.trans hL)
  subst hLe
  obtain ⟨h1, h2, -, ⟨c1, hc1, -, h3, h4, -⟩, ⟨c2, hc2, -, h5, h6, -⟩⟩ :=
    bias_reshapes cpuEnv 0 sampleConfig sampleCall.prev_layer LayerConv.new _ sampleCall 0 hI
      (by intro x hx; cases hx; norm_num [SIZE_T_MOD]) rfl rfl rfl (by decide) (by decide)
      (by decide) (preActiv_shape_cpu cpuEnv sampleCall (by decide)) rfl
      ⟨rfl, rfl, rfl⟩
  exact ⟨h1, h2, ⟨c1, hc1, h3, h4⟩, ⟨c2, hc2, h5, h6⟩⟩

/-- C20, counterexample. On a predecessor of one channel with `2^32 x 2^32`
maps, a 1x1 filter and one output map, `Init` succeeds and stores the map shape
`(2^32, 2^32)` and the sample length 0, not `1 * 2^32 * 2^32`: the product of
line 73 is a `size_t`. For a batch of one sample the first division of the bias
reshape then gives the intermediate extent 0, not `1 * 2^32 * 2^32`. -/
theorem bias_reshapes_overflow :
    (LayerConv.Init 0 (scenarioConfig [1, 1] none) (scenarioPrev [4294967296, 4294967296])
      LayerConv.new).map (fun L => (L.outputmaps_, L.mapsize_, L.length_,
        szDiv (szMul 1 L.length_) L.outputmaps_)) =
      some (1, [4294967296, 4294967296], 0, some 0) ∧
    ¬ ∃ L, LayerConv.Init 0 (scenarioConfig [1, 1] none)
        (scenarioPrev [4294967296, 4294967296]) LayerConv.new = some L ∧
      L.length_ = L.outputmaps_ * L.mapsize_.prod := by
  have h : (LayerConv.Init 0 (scenarioConfig [1, 1] none)
      (scenarioPrev [4294967296, 4294967296]) LayerConv.new).map
        (fun L => (L.outputmaps_, L.mapsize_, L.length_)) =
      some (1, [4294967296, 4294967296], 0) := by decide
  refine ⟨by decide, ?_⟩
  rintro ⟨L, hL, hlen⟩
  rw [hL] at h
  simp only [Option.map_some', Option.some.injEq, Prod.mk.injEq] at h
  obtain ⟨h1, h2, h3⟩ := h
  rw [h1, h2, h3] at hlen
  revert hlen
  decide


/-! ## C17: the export of the parameters -/

theorem ofFn_copy_data (m : Mat) :
    (Mat.ofFn m.size1 m.size2 m.order (fun i j => m.get i j)).data =
      (List.range (m.size1 * m.size2)).map (fun idx => m.data.getD idx 0) := by
  unfold Mat.ofFn
  apply List.map_congr_left
  intro idx _
  unfold Mat.get Mat.index
  cases m.order
  · simp only [Bool.false_eq_true, if_false]
    rw [Nat.div_add_mod']
  · simp only [if_true]
    rw [Nat.div_add_mod']

theorem Weights.get_copy (w : Weights) (A : Arena) :
    (Mat.ofFn w.size1 w.size2 w.order (fun i j => (w.get A).get i j)).data = (w.get A).data := by
  have h := ofFn_copy_data (w.get A)
  have hl : (w.get A).data.length = w.size1 * w.size2 := window_length _ _ _
  have h2 := map_getD_range_ftype (w.get A).data
  rw [hl] at h2
  exact h.trans h2

theorem GetWeights_data (E : Env) (S : LayerConv) (A : Arena) (dest : Mat) (o : Nat)
    (hw1 : S.weights_.size1 = S.outputmaps_) (hwo : S.weights_.order = false)
    (hb1 : S.biases_.size1 = 1) (hb2 : S.biases_.size2 = S.outputmaps_)
    (hbo : S.biases_.order = E.kMatlabOrder) :
    (S.GetWeights E A dest o).weights.data =
      writeWindow (writeWindow dest.data o (S.weights_.get A).data)
        (szAdd o (szMul S.outputmaps_ S.weights_.size2)) (S.biases_.get A).data ∧
    (S.GetWeights E A dest o).weights.size1 = dest.size1 ∧
    (S.GetWeights E A dest o).weights.size2 = dest.size2 ∧
    (S.GetWeights E A dest o).weights.order = dest.order := by
  refine ⟨?_, rfl, rfl, rfl⟩
  show writeWindow (writeWindow dest.data o
      (Mat.ofFn S.outputmaps_ (S.weights_.get A).size2 false
        (fun i j => (S.weights_.get A).get i j)).data)
      (szAdd o (szMul S.outputmaps_ (S.weights_.get A).size2))
      (Mat.ofFn 1 S.outputmaps_ E.kMatlabOrder (fun i j => (S.biases_.get A).get i j)).data = _
  have e1 : (Mat.ofFn S.outputmaps_ (S.weights_.get A).size2 false
      (fun i j => (S.weights_.get A).get i j)).data = (S.weights_.get A).data := by
    have := Weights.get_copy S.weights_ A
    rw [hw1, hwo] at this
    exact this
  have e2 : (Mat.ofFn 1 S.outputmaps_ E.kMatlabOrder
      (fun i j => (S.biases_.get A).get i j)).data = (S.biases_.get A).data := by
    have := Weights.get_copy S.biases_ A
    rw [hb1, hb2, hbo] at this
    exact this
  rw [e1, e2]
  rfl

/-- C17. Let a layer have its parameters attached by `InitWeights` at the offset
`o0` (the span fits a `size_t`), let `arena` be the parameter arena at the time
of the export and `dest` a destination with room for the span at the offset `o`.
Then `GetWeights(dest, o)` keeps the extents and the length of `dest`, advances
the offset by `NumWeights()`, writes every weight `(i, j)` to
`dest[o + j * channels + i]` (the layout of the weights window of `InitWeights`)
and then every bias `i` to `dest[o + channels * pixel_num + i]`, leaves every
other element of `dest` as it was, and gives the same result for every arena
with the same values (the gradients are not read; the layer and the arena are
not written, they are no results of the method). Attaching a layer of the same
shape to the exported storage at `o` without initialisation leaves the storage
as it is and yields the weights and the biases of the exported layer. -/
theorem GetWeights_snapshot (E : Env) (L : LayerConv) (W0 arena : Arena) (o0 : Nat)
    (isgen : Bool) (dest : Mat) (o pn : Nat)
    (hpn : pn = szMul L.length_prev_ (mulFiltersize L 1))
    (hfl : L.filtersize_.length = L.numdim_)
    (hroom : o + L.outputmaps_ * pn + L.outputmaps_ ≤ dest.data.length)
    (hdest : dest.data.length < SIZE_T_MOD) :
    ((L.InitWeights E W0 o0 isgen).self.GetWeights E arena dest o).weights.data.length =
      dest.data.length ∧
    ((L.InitWeights E W0 o0 isgen).self.GetWeights E arena dest o).weights.size1 = dest.size1 ∧
    ((L.InitWeights E W0 o0 isgen).self.GetWeights E arena dest o).weights.size2 = dest.size2 ∧
    ((L.InitWeights E W0 o0 isgen).self.GetWeights E arena dest o).offset = o + L.NumWeights ∧
    L.NumWeights = L.outputmaps_ * pn + L.outputmaps_ ∧
    (∀ i < L.outputmaps_, ∀ j < pn,
      ((L.InitWeights E W0 o0 isgen).self.GetWeights E arena dest o).weights.data.getD
          (o + (j * L.outputmaps_ + i)) 0 =
        ((L.InitWeights E W0 o0 isgen).self.weights_.get arena).get i j) ∧
    (∀ i < L.outputmaps_,
      ((L.InitWeights E W0 o0 isgen).self.GetWeights E arena dest o).weights.data.getD
          (o + L.outputmaps_ * pn + i) 0 =
        ((L.InitWeights E W0 o0 isgen).self.biases_.get arena).get 0 i) ∧
    (∀ idx < dest.data.length, (idx < o ∨ o + L.NumWeights ≤ idx) →
      ((L.InitWeights E W0 o0 isgen).self.GetWeights E arena dest o).weights.data.getD idx 0 =
        dest.data.getD idx 0) ∧
    (∀ arena2 : Arena, arena2.values = arena.values →
      (L.InitWeights E W0 o0 isgen).self.GetWeights E arena2 dest o =
        (L.InitWeights E W0 o0 isgen).self.GetWeights E arena dest o) ∧
    (∀ (L2 : LayerConv) (ders : List ftype), L2.outputmaps_ = L.outputmaps_ →
      L2.length_prev_ = L.length_prev_ → L2.numdim_ = L.numdim_ →
      L2.filtersize_ = L.filtersize_ →
      (L2.InitWeights E
        ⟨((L.InitWeights E W0 o0 isgen).self.GetWeights E arena dest o).weights.data, ders⟩
        o false).weights =
        ⟨((L.InitWeights E W0 o0 isgen).self.GetWeights E arena dest o).weights.data, ders⟩ ∧
      (L2.InitWeights E
        ⟨((L.InitWeights E W0 o0 isgen).self.GetWeights E arena dest o).weights.data, ders⟩
        o false).self.weights_.get
          ⟨((L.InitWeights E W0 o0 isgen).self.GetWeights E arena dest o).weights.data, ders⟩ =
        (L.InitWeights E W0 o0 isgen).self.weights_.get arena ∧
      (L2.InitWeights E
        ⟨((L.InitWeights E W0 o0 isgen).self.GetWeights E arena dest o).weights.data, ders⟩
        o false).self.biases_.get
          ⟨((L.InitWeights E W0 o0 isgen).self.GetWeights E arena dest o).weights.data, ders⟩ =
        (L.InitWeights E W0 o0 isgen).self.biases_.get arena) := by
  -- the attached containers
  have hW : (L.InitWeights E W0 o0 isgen).self.weights_ =
      Weights.Attach o0 L.outputmaps_ pn false := by
    rw [hpn]
    rfl
  have hBi : (L.InitWeights E W0 o0 isgen).self.biases_ =
      Weights.Attach (szAdd o0 (szMul L.outputmaps_ pn)) 1 L.outputmaps_ E.kMatlabOrder := by
    rw [hpn]
    rfl
  have hom : (L.InitWeights E W0 o0 isgen).self.outputmaps_ = L.outputmaps_ := rfl
  obtain ⟨hdata, hs1, hs2, -⟩ := GetWeights_data E (L.InitWeights E W0 o0 isgen).self arena dest o
    (by rw [hW]; rfl) (by rw [hW]; rfl) (by rw [hBi]; rfl) (by rw [hBi]; rfl) (by rw [hBi]; rfl)
  have hsz : (L.InitWeights E W0 o0 isgen).self.weights_.size2 = pn := by
    rw [hW]
    rfl
  rw [hom, hsz] at hdata
  have hmul : szMul L.outputmaps_ pn = L.outputmaps_ * pn :=
    Nat.mod_eq_of_lt (by omega)
  have hoff : szAdd o (szMul L.outputmaps_ pn) = o + L.outputmaps_ * pn := by
    rw [hmul]
    exact Nat.mod_eq_of_lt (by omega)
  rw [hoff] at hdata
  have hwl : ((L.InitWeights E W0 o0 isgen).self.weights_.get arena).data.length =
      L.outputmaps_ * pn := by
    rw [hW]
    exact window_length _ _ _
  have hbl : ((L.InitWeights E W0 o0 isgen).self.biases_.get arena).data.length =
      L.outputmaps_ := by
    rw [hBi]
    show (window _ _ (1 * L.outputmaps_)).length = _
    rw [window_length, Nat.one_mul]
  have hN : L.NumWeights = L.outputmaps_ * pn + L.outputmaps_ := by
    rw [NumWeights_mod L hfl, hpn, pixel_num_eq L hfl]
    have : (L.outputmaps_ * (L.length_prev_ * L.filtersize_.prod + 1)) % SIZE_T_MOD =
        (L.outputmaps_ * ((L.length_prev_ * L.filtersize_.prod) % SIZE_T_MOD) + L.outputmaps_)
          % SIZE_T_MOD := by
      rw [Nat.mul_add, Nat.mul_one, Nat.add_mod, Nat.mul_mod, Nat.add_mod
        (L.outputmaps_ * (L.length_prev_ * L.filtersize_.prod % SIZE_T_MOD)),
        Nat.mul_mod L.outputmaps_ (L.length_prev_ * L.filtersize_.prod % SIZE_T_MOD),
        Nat.mod_mod]
    rw [this]
    apply Nat.mod_eq_of_lt
    rw [← pixel_num_eq L hfl, ← hpn]
    omega
  have hlen : ((L.InitWeights E W0 o0 isgen).self.GetWeights E arena dest o).weights.data.length =
      dest.data.length := by
    rw [hdata, writeWindow_length, writeWindow_length]
  have hget : ∀ idx < dest.data.length,
      ((L.InitWeights E W0 o0 isgen).self.GetWeights E arena dest o).weights.data.getD idx 0 =
        if o + L.outputmaps_ * pn ≤ idx ∧ idx < o + L.outputmaps_ * pn + L.outputmaps_ then
          ((L.InitWeights E W0 o0 isgen).self.biases_.get arena).data.getD
            (idx - (o + L.outputmaps_ * pn)) 0
        else if o ≤ idx ∧ idx < o + L.outputmaps_ * pn then
          ((L.InitWeights E W0 o0 isgen).self.weights_.get arena).data.getD (idx - o) 0
        else dest.data.getD idx 0 := by
    intro idx hidx
    rw [hdata, writeWindow_getD _ _ _ _ (by rw [writeWindow_length]; exact hidx), hbl,
      writeWindow_getD _ _ _ _ hidx, hwl]
  have hwin1 : window
      ((L.InitWeights E W0 o0 isgen).self.GetWeights E arena dest o).weights.data o
        (L.outputmaps_ * pn) = ((L.InitWeights E W0 o0 isgen).self.weights_.get arena).data := by
    rw [hdata, window_writeWindow_disjoint _ _ _ _ _ (Or.inl (le_refl _))
      (by rw [writeWindow_length]; omega)]
    have := window_writeWindow dest.data o
      ((L.InitWeights E W0 o0 isgen).self.weights_.get arena).data (by rw [hwl]; omega)
    rwa [hwl] at this
  have hwin2 : window
      ((L.InitWeights E W0 o0 isgen).self.GetWeights E arena dest o).weights.data
        (o + L.outputmaps_ * pn) L.outputmaps_ =
      ((L.InitWeights E W0 o0 isgen).self.biases_.get arena).data := by
    rw [hdata]
    have := window_writeWindow (writeWindow dest.data o
      ((L.InitWeights E W0 o0 isgen).self.weights_.get arena).data) (o + L.outputmaps_ * pn)
      ((L.InitWeights E W0 o0 isgen).self.biases_.get arena).data
      (by rw [hbl, writeWindow_length]; omega)
    rwa [hbl] at this
  refine ⟨hlen, hs1, hs2, ?_, hN, ?_, ?_, ?_, ?_, ?_⟩
  · have hO := GetWeights_offset E (L.InitWeights E W0 o0 isgen).self hfl rfl arena dest o
    have hN2 : (L.InitWeights E W0 o0 isgen).self.NumWeights = L.NumWeights := rfl
    rw [hO, hN2]
    exact Nat.mod_eq_of_lt (by omega)
  · intro i hi j hj
    have hlt : j * L.outputmaps_ + i < L.outputmaps_ * pn := by
      have := block_lt j L.outputmaps_ i pn hj hi
      rwa [mul_comm pn] at this
    rw [hget _ (by omega), if_neg (by omega), if_pos ⟨by omega, by omega⟩,
      Nat.add_sub_cancel_left]
    rw [hW]
    rfl
  · intro i hi
    rw [hget _ (by omega), if_pos ⟨by omega, by omega⟩, Nat.add_sub_cancel_left]
    have hidx := Mat.index_row ((L.InitWeights E W0 o0 isgen).self.biases_.get arena)
      (by rw [hBi]; rfl) i
    unfold Mat.get
    rw [hidx]
  · intro idx hidx hout
    rw [hget idx hidx, if_neg (by omega), if_neg (by omega)]
  · intro arena2 h2
    unfold LayerConv.GetWeights Weights.get
    rw [h2]
  · intro L2 ders h1 h2 h3 h4
    have hmf : mulFiltersize L2 1 = mulFiltersize L 1 := by
      unfold mulFiltersize
      rw [h3, h4]
    have hW2 : ∀ X : Arena, (L2.InitWeights E X o false).self.weights_ =
        Weights.Attach o L.outputmaps_ pn false := by
      intro X
      rw [hpn, ← h1, ← h2, ← hmf]
      rfl
    have hB2 : ∀ X : Arena, (L2.InitWeights E X o false).self.biases_ =
        Weights.Attach (o + L.outputmaps_ * pn) 1 L.outputmaps_ E.kMatlabOrder := by
      intro X
      rw [← hoff, hpn, ← h1, ← h2, ← hmf]
      rfl
    refine ⟨rfl, ?_, ?_⟩
    · rw [hW2]
      show ({ size1 := L.outputmaps_, size2 := pn, order := false,
              data := window _ o (L.outputmaps_ * pn) } : Mat) = _
      rw [hwin1, hW]
      rfl
    · rw [hB2]
      show ({ size1 := 1, size2 := L.outputmaps_, order := E.kMatlabOrder,
              data := window _ (o + L.outputmaps_ * pn) (1 * L.outputmaps_) } : Mat) = _
      rw [Nat.one_mul, hwin2, hBi]
      rfl

/-- The witness of `GetWeights_snapshot`: the layer of `sampleCall`, attached at
the offset 0 of its arena (8 weights, then the biases 10 and 20), exported at
the offset 1 of a destination of 12 zeros. -/
theorem GetWeights_snapshot_witness :
    4 = szMul sampleLayer.length_prev_ (mulFiltersize sampleLayer 1) ∧
    sampleLayer.filtersize_.length = sampleLayer.numdim_ ∧
    1 + sampleLayer.outputmaps_ * 4 + sampleLayer.outputmaps_ ≤ sampleDest.data.length ∧
    sampleDest.data.length < SIZE_T_MOD ∧
    ((sampleLayer.InitWeights cpuEnv sampleCall.weights 0 false).self.GetWeights cpuEnv
      sampleCall.weights sampleDest 1).weights.data = [0, 1, 2, 0, 1, 1, 0, 2, 1, 10, 20, 0] ∧
    ((sampleLayer.InitWeights cpuEnv sampleCall.weights 0 false).self.GetWeights cpuEnv
      sampleCall.weights sampleDest 1).offset = 1 + sampleLayer.NumWeights :=
  ⟨by decide, by decide, by decide, by decide, by decide,
    (GetWeights_snapshot cpuEnv sampleLayer sampleCall.weights sampleCall.weights 0 false
      sampleDest 1 4 (by decide) (by decide) (by decide) (by decide)).2.2.2.1⟩


/-! ## C18: the duality of `Forward` and `Backward` -/

theorem Forward_free (E : Env) (c : Call) (passnum : Int) (hpass : passnum ≠ 0 ∧ passnum ≠ 1) :
    LayerConv.Forward E passnum c = some (c.forwarded (preActiv E c)) := by
  have hp : ¬ (passnum = 0 ∨ passnum = 1) := by
    rintro (h | h)
    · exact hpass.1 h
    · exact hpass.2 h
  rw [Forward_eq]
  unfold forwardBias
  rw [if_neg hp]
  rfl

theorem preActiv_get (E : Env) (c : Call) (hcpu : E.COMP_REGIME ≠ 2)
    (hlen : c.self.length_ = c.self.outputmaps_ * c.self.mapsize_.prod) :
    ∀ k < c.prev_layer.batchsize_, ∀ i < c.self.outputmaps_, ∀ p < c.self.mapsize_.prod,
      (preActiv E c).get k (i * c.self.mapsize_.prod + p) = forwardSum E c k i p := by
  intro k hk i hi p hp
  obtain ⟨-, -, -, h4⟩ := forwardLoops_adds E c c.prev_layer.batchsize_
    ((c.self.activ_mat_.resize c.prev_layer.batchsize_ c.self.length_).assign 0)
  have hcol : i * c.self.mapsize_.prod + p < c.self.length_ := by
    rw [hlen]
    exact block_lt _ _ _ _ hi hp
  have := h4 k hk _ hcol
  obtain ⟨hd, hm⟩ := block_div_mod i c.self.mapsize_.prod p hp
  beta_reduce at this
  rw [hd, hm, if_pos ⟨hk, hi⟩, Mat.get_assign_zero, zero_add] at this
  unfold preActiv
  rw [if_pos hcpu]
  exact this

theorem Backward_get (E : Env) (c : Call) (hcpu : E.COMP_REGIME ≠ 2)
    (hB : c.self.batchsize_ = c.prev_layer.batchsize_)
    (hlen : c.prev_layer.length_ = c.prev_layer.outputmaps_ * c.prev_layer.mapsize_.prod) :
    ∀ k < c.prev_layer.batchsize_, ∀ j < c.prev_layer.outputmaps_,
      ∀ q < c.prev_layer.mapsize_.prod,
      (LayerConv.Backward E c).prev_layer.deriv_mat_.get k (j * c.prev_layer.mapsize_.prod + q) =
        backwardSum E c k j q := by
  intro k hk j hj q hq
  obtain ⟨-, -, -, h4⟩ := backwardLoops_adds E c
    ((c.prev_layer.deriv_mat_.resize c.prev_layer.batchsize_ c.prev_layer.length_).assign 0)
  have hBk : (LayerConv.Backward E c).prev_layer.deriv_mat_ =
      backwardLoops E c
        ((c.prev_layer.deriv_mat_.resize c.prev_layer.batchsize_ c.prev_layer.length_).assign 0) := by
    unfold LayerConv.Backward
    simp only [hcpu, ne_eq, not_false_eq_true, if_true]
    rfl
  rw [hBk]
  have hcol : j * c.prev_layer.mapsize_.prod + q < c.prev_layer.length_ := by
    rw [hlen]
    exact block_lt _ _ _ _ hj hq
  have := h4 k hk _ hcol
  obtain ⟨hd, hm⟩ := block_div_mod j c.prev_layer.mapsize_.prod q hq
  beta_reduce at this
  rw [hd, hm, if_pos ⟨hB ▸ hk, hj⟩, Mat.get_assign_zero, zero_add] at this
  exact this

theorem duality_sums (B om pom n m : Nat) (F Bk : Nat → Nat → Nat → Nat → ftype)
    (g x : Nat → Nat → Nat → ftype)
    (hadj : ∀ k < B, ∀ i < om, ∀ j < pom,
      ∑ p in Finset.range n, F k i j p * g k i p = ∑ q in Finset.range m, x k j q * Bk k i j q) :
    ∑ k in Finset.range B, ∑ i in Finset.range om, ∑ p in Finset.range n,
        (∑ j in Finset.range pom, F k i j p) * g k i p =
      ∑ k in Finset.range B, ∑ j in Finset.range pom, ∑ q in Finset.range m,
        x k j q * ∑ i in Finset.range om, Bk k i j q := by
  apply Finset.sum_congr rfl
  intro k hk
  have hL : ∑ i in Finset.range om, ∑ p in Finset.range n,
        (∑ j in Finset.range pom, F k i j p) * g k i p =
      ∑ i in Finset.range om, ∑ j in Finset.range pom, ∑ p in Finset.range n,
        F k i j p * g k i p := by
    apply Finset.sum_congr rfl
    intro i _
    simp only [Finset.sum_mul]
    exact Finset.sum_comm
  have hR : ∑ j in Finset.range pom, ∑ q in Finset.range m,
        x k j q * ∑ i in Finset.range om, Bk k i j q =
      ∑ i in Finset.range om, ∑ j in Finset.range pom, ∑ q in Finset.range m,
        x k j q * Bk k i j q := by
    simp only [Finset.mul_sum]
    have hsw : ∀ j ∈ Finset.range pom,
        ∑ q in Finset.range m, ∑ i in Finset.range om, x k j q * Bk k i j q =
        ∑ i in Finset.range om, ∑ q in Finset.range m, x k j q * Bk k i j q :=
      fun j _ => Finset.sum_comm
    rw [Finset.sum_congr rfl hsw]
    exact Finset.sum_comm
  rw [hL, hR]
  apply Finset.sum_congr rfl
  intro i hi
  apply Finset.sum_congr rfl
  intro j hj
  exact hadj k (Finset.mem_range.1 hk) i (Finset.mem_range.1 hi) j (Finset.mem_range.1 hj)

/-- C18. On the CPU path, for a pass kind without bias (neither 0 nor 1), assume
that for every sample `k`, output channel `i` and input channel `j` of the call
the kernel operator in transposed mode with the complementary padding
`padding_der` is the adjoint of the operator in non-transposed mode with
`padding` on the maps of the call: the sum over the positions `p` of
`Filter(x[k][j], W[i][j], padding, false)[p] * g[k][i][p]` is the sum over the
positions `q` of `x[k][j][q] * Filter(g[k][i], W[i][j], padding_der, true)[q]`.
Then `Forward` succeeds, and with `Backward` run on the state it returns, the
sum over samples, output channels and positions of `Forward(x)[k][i][p] * g[k][i][p]`
is the sum over samples, input channels and positions of
`x[k][j][q] * Backward(g)[k][j][q]`, in exact arithmetic. -/
theorem Forward_Backward_adjoint (E : Env) (c : Call) (passnum : Int)
    (hcpu : E.COMP_REGIME ≠ 2) (hpass : passnum ≠ 0 ∧ passnum ≠ 1)
    (hlen : c.self.length_ = c.self.outputmaps_ * c.self.mapsize_.prod)
    (hplen : c.prev_layer.length_ = c.prev_layer.outputmaps_ * c.prev_layer.mapsize_.prod)
    (hadj : ∀ k < c.prev_layer.batchsize_, ∀ i < c.self.outputmaps_,
      ∀ j < c.prev_layer.outputmaps_,
      ((List.range c.self.mapsize_.prod).map (fun p =>
        (E.Filter (InitMaps c.prev_layer.activ_mat_ c.prev_layer.mapsize_ k j)
          (InitMaps (c.self.weights_.get c.weights) c.self.filtersize_ i j)
          c.self.padding_ false c.self.mapsize_).getD p 0 *
        c.self.deriv_mat_.get k (i * c.self.mapsize_.prod + p))).sum =
      ((List.range c.prev_layer.mapsize_.prod).map (fun q =>
        c.prev_layer.activ_mat_.get k (j * c.prev_layer.mapsize_.prod + q) *
        (E.Filter (InitMaps c.self.deriv_mat_ c.self.mapsize_ k i)
          (InitMaps (c.self.weights_.get c.weights) c.self.filtersize_ i j)
          (paddingDer c.self) true c.prev_layer.mapsize_).getD q 0)).sum) :
    ∃ c1, LayerConv.Forward E passnum c = some c1 ∧
      ((List.range c.prev_layer.batchsize_).map (fun k =>
        ((List.range c.self.outputmaps_).map (fun i =>
          ((List.range c.self.mapsize_.prod).map (fun p =>
            c1.self.activ_mat_.get k (i * c.self.mapsize_.prod + p) *
            c.self.deriv_mat_.get k (i * c.self.mapsize_.prod + p))).sum)).sum)).sum =
      ((List.range c.prev_layer.batchsize_).map (fun k =>
        ((List.range c.prev_layer.outputmaps_).map (fun j =>
          ((List.range c.prev_layer.mapsize_.prod).map (fun q =>
            c.prev_layer.activ_mat_.get k (j * c.prev_layer.mapsize_.prod + q) *
            (LayerConv.Backward E c1).prev_layer.deriv_mat_.get k
              (j * c.prev_layer.mapsize_.prod + q))).sum)).sum)).sum := by
  refine ⟨c.forwarded (preActiv E c), Forward_free E c passnum hpass, ?_⟩
  have hF := preActiv_get E c hcpu hlen
  have hBk := Backward_get E (c.forwarded (preActiv E c)) hcpu rfl hplen
  simp only [list_sum_range] at hadj ⊢
  have hl : ∑ k in Finset.range c.prev_layer.batchsize_,
      ∑ i in Finset.range c.self.outputmaps_, ∑ p in Finset.range c.self.mapsize_.prod,
        (c.forwarded (preActiv E c)).self.activ_mat_.get k (i * c.self.mapsize_.prod + p) *
          c.self.deriv_mat_.get k (i * c.self.mapsize_.prod + p) =
      ∑ k in Finset.range c.prev_layer.batchsize_,
      ∑ i in Finset.range c.self.outputmaps_, ∑ p in Finset.range c.self.mapsize_.prod,
        (∑ j in Finset.range c.prev_layer.outputmaps_,
          (E.Filter (InitMaps c.prev_layer.activ_mat_ c.prev_layer.mapsize_ k j)
            (InitMaps (c.self.weights_.get c.weights) c.self.filtersize_ i j)
            c.self.padding_ false c.self.mapsize_).getD p 0) *
          c.self.deriv_mat_.get k (i * c.self.mapsize_.prod + p) := by
    apply Finset.sum_congr rfl
    intro k hk
    apply Finset.sum_congr rfl
    intro i hi
    apply Finset.sum_congr rfl
    intro p hp
    have := hF k (Finset.mem_range.1 hk) i (Finset.mem_range.1 hi) p (Finset.mem_range.1 hp)
    rw [forwardSum, list_sum_range] at this
    show (preActiv E c).get k (i * c.self.mapsize_.prod + p) * _ = _
    rw [this]
  have hr : ∑ k in Finset.range c.prev_layer.batchsize_,
      ∑ j in Finset.range c.prev_layer.outputmaps_,
      ∑ q in Finset.range c.prev_layer.mapsize_.prod,
        c.prev_layer.activ_mat_.get k (j * c.prev_layer.mapsize_.prod + q) *
          (LayerConv.Backward E (c.forwarded (preActiv E c))).prev_layer.deriv_mat_.get k
            (j * c.prev_layer.mapsize_.prod + q) =
      ∑ k in Finset.range c.prev_layer.batchsize_,
      ∑ j in Finset.range c.prev_layer.outputmaps_,
      ∑ q in Finset.range c.prev_layer.mapsize_.prod,
        c.prev_layer.activ_mat_.get k (j * c.prev_layer.mapsize_.prod + q) *
          ∑ i in Finset.range c.self.outputmaps_,
            (E.Filter (InitMaps c.self.deriv_mat_ c.self.mapsize_ k i)
              (InitMaps (c.self.weights_.get c.weights) c.self.filtersize_ i j)
              (paddingDer c.self) true c.prev_layer.mapsize_).getD q 0 := by
    apply Finset.sum_congr rfl
    intro k hk
    apply Finset.sum_congr rfl
    intro j hj
    apply Finset.sum_congr rfl
    intro q hq
    have := hBk k (Finset.mem_range.1 hk) j (Finset.mem_range.1 hj) q (Finset.mem_range.1 hq)
    rw [backwardSum, list_sum_range] at this
    have e : (LayerConv.Backward E (c.forwarded (preActiv E c))).prev_layer.deriv_mat_.get k
        (j * c.prev_layer.mapsize_.prod + q) =
        ∑ i in Finset.range c.self.outputmaps_,
          (E.Filter (InitMaps c.self.deriv_mat_ c.self.mapsize_ k i)
            (InitMaps (c.self.weights_.get c.weights) c.self.filtersize_ i j)
            (paddingDer c.self) true c.prev_layer.mapsize_).getD q 0 := this
    rw [e]
  rw [hl, hr]
  exact duality_sums _ _ _ _ _
    (fun k i j p => (E.Filter (InitMaps c.prev_layer.activ_mat_ c.prev_layer.mapsize_ k j)
      (InitMaps (c.self.weights_.get c.weights) c.self.filtersize_ i j)
      c.self.padding_ false c.self.mapsize_).getD p 0)
    (fun k i j q => (E.Filter (InitMaps c.self.deriv_mat_ c.self.mapsize_ k i)
      (InitMaps (c.self.weights_.get c.weights) c.self.filtersize_ i j)
      (paddingDer c.self) true c.prev_layer.mapsize_).getD q 0)
    (fun k i p => c.self.deriv_mat_.get k (i * c.self.mapsize_.prod + p))
    (fun k j q => c.prev_layer.activ_mat_.get k (j * c.prev_layer.mapsize_.prod + q))
    hadj

/-- The witness of `Forward_Backward_adjoint`: `sampleCall` with the kernel
operator `correlate`, which is adjoint on each of its four (map, kernel) pairs. -/
theorem Forward_Backward_adjoint_witness :
    (∀ k < sampleCall.prev_layer.batchsize_, ∀ i < sampleCall.self.outputmaps_,
      ∀ j < sampleCall.prev_layer.outputmaps_,
      ((List.range sampleCall.self.mapsize_.prod).map (fun p =>
        (cpuEnv.Filter (InitMaps sampleCall.prev_layer.activ_mat_ sampleCall.prev_layer.mapsize_ k j)
          (InitMaps (sampleCall.self.weights_.get sampleCall.weights)
            sampleCall.self.filtersize_ i j)
          sampleCall.self.padding_ false sampleCall.self.mapsize_).getD p 0 *
        sampleCall.self.deriv_mat_.get k (i * sampleCall.self.mapsize_.prod + p))).sum =
      ((List.range sampleCall.prev_layer.mapsize_.prod).map (fun q =>
        sampleCall.prev_layer.activ_mat_.get k (j * sampleCall.prev_layer.mapsize_.prod + q) *
        (cpuEnv.Filter (InitMaps sampleCall.self.deriv_mat_ sampleCall.self.mapsize_ k i)
          (InitMaps (sampleCall.self.weights_.get sampleCall.weights)
            sampleCall.self.filtersize_ i j)
          (paddingDer sampleCall.self) true sampleCall.prev_layer.mapsize_).getD q 0)).sum) ∧
    ∃ c1, LayerConv.Forward cpuEnv 2 sampleCall = some c1 ∧
      ((List.range sampleCall.prev_layer.batchsize_).map (fun k =>
        ((List.range sampleCall.self.outputmaps_).map (fun i =>
          ((List.range sampleCall.self.mapsize_.prod).map (fun p =>
            c1.self.activ_mat_.get k (i * sampleCall.self.mapsize_.prod + p) *
            sampleCall.self.deriv_mat_.get k
              (i * sampleCall.self.mapsize_.prod + p))).sum)).sum)).sum =
      ((List.range sampleCall.prev_layer.batchsize_).map (fun k =>
        ((List.range sampleCall.prev_layer.outputmaps_).map (fun j =>
          ((List.range sampleCall.prev_layer.mapsize_.prod).map (fun q =>
            sampleCall.prev_layer.activ_mat_.get k
              (j * sampleCall.prev_layer.mapsize_.prod + q) *
            (LayerConv.Backward cpuEnv c1).prev_layer.deriv_mat_.get k
              (j * sampleCall.prev_layer.mapsize_.prod + q))).sum)).sum)).sum := by
  have hadj : ∀ k < sampleCall.prev_layer.batchsize_, ∀ i < sampleCall.self.outputmaps_,
      ∀ j < sampleCall.prev_layer.outputmaps_,
      ((List.range sampleCall.self.mapsize_.prod).map (fun p =>
        (cpuEnv.Filter (InitMaps sampleCall.prev_layer.activ_mat_ sampleCall.prev_layer.mapsize_ k j)
          (InitMaps (sampleCall.self.weights_.get sampleCall.weights)
            sampleCall.self.filtersize_ i j)
          sampleCall.self.padding_ false sampleCall.self.mapsize_).getD p 0 *
        sampleCall.self.deriv_mat_.get k (i * sampleCall.self.mapsize_.prod + p))).sum =
      ((List.range sampleCall.prev_layer.mapsize_.prod).map (fun q =>
        sampleCall.prev_layer.activ_mat_.get k (j * sampleCall.prev_layer.mapsize_.prod + q) *
        (cpuEnv.Filter (InitMaps sampleCall.self.deriv_mat_ sampleCall.self.mapsize_ k i)
          (InitMaps (sampleCall.self.weights_.get sampleCall.weights)
            sampleCall.self.filtersize_ i j)
          (paddingDer sampleCall.self) true sampleCall.prev_layer.mapsize_).getD q 0)).sum := by
    decide!
  exact ⟨hadj, Forward_Backward_adjoint cpuEnv sampleCall 2 (by decide) (by decide) (by decide)
    (by decide) hadj⟩


/-! ## C19: the order of the samples -/

theorem Mat.ext_get (m1 m2 : Mat) (h1 : m1.size1 = m2.size1) (h2 : m1.size2 = m2.size2)
    (h3 : m1.order = m2.order) (hl1 : m1.data.length = m1.size1 * m1.size2)
    (hl2 : m2.data.length = m2.size1 * m2.size2)
    (hget : ∀ r < m1.size1, ∀ c < m1.size2, m1.get r c = m2.get r c) : m1 = m2 := by
  obtain ⟨s1, s2, o, d1⟩ := m1
  obtain ⟨t1, t2, o2, d2⟩ := m2
  simp only at h1 h2 h3 hl1 hl2
  subst h1 h2 h3
  congr 1
  apply List.ext_getElem (by rw [hl1, hl2])
  intro idx hi1 hi2
  have hidx : idx < s1 * s2 := by rw [← hl1]; exact hi1
  have hpos1 : 0 < s1 := by
    rcases Nat.eq_zero_or_pos s1 with h | h
    · rw [h] at hidx; simp at hidx
    · exact h
  have hpos2 : 0 < s2 := by
    rcases Nat.eq_zero_or_pos s2 with h | h
    · rw [h] at hidx; simp at hidx
    · exact h
  have key : d1.getD idx 0 = d2.getD idx 0 := by
    cases o
    · have := hget (idx % s1) (Nat.mod_lt _ hpos1) (idx / s1)
        (Nat.div_lt_of_lt_mul hidx)
      simp only [Mat.get, Mat.index, Bool.false_eq_true, if_false] at this
      rwa [Nat.div_add_mod'] at this
    · have := hget (idx / s2) (Nat.div_lt_of_lt_mul (by rwa [mul_comm] at hidx)) (idx % s2)
        (Nat.mod_lt _ hpos2)
      simp only [Mat.get, Mat.index, if_true] at this
      rwa [Nat.div_add_mod'] at this
  rw [List.getD_eq_getElem _ _ hi1, List.getD_eq_getElem _ _ hi2] at key
  exact key

theorem foldl_canon {β : Type} (xs : List β) (T : β → Mat → Mat)
    (h : ∀ x a, a.data.length = a.size1 * a.size2 →
      (T x a).data.length = (T x a).size1 * (T x a).size2) (a : Mat)
    (ha : a.data.length = a.size1 * a.size2) :
    (xs.foldl (fun a x => T x a) a).data.length =
      (xs.foldl (fun a x => T x a) a).size1 * (xs.foldl (fun a x => T x a) a).size2 := by
  induction xs generalizing a with
  | nil => exact ha
  | cons x xs ih => exact ih (T x a) (h x a ha)

theorem foldl_perm_eq {β : Type} (xs ys : List β) (T : β → Mat → Mat)
    (delta : β → Nat → Nat → ftype) (hA : ∀ x, Adds (T x) (delta x))
    (hC : ∀ x a, a.data.length = a.size1 * a.size2 →
      (T x a).data.length = (T x a).size1 * (T x a).size2)
    (hp : xs.Perm ys) (a : Mat) (ha : a.data.length = a.size1 * a.size2) :
    xs.foldl (fun a x => T x a) a = ys.foldl (fun a x => T x a) a := by
  obtain ⟨x1, x2, x3, x4⟩ := Adds_foldl xs T delta (fun x _ => hA x) a
  obtain ⟨y1, y2, y3, y4⟩ := Adds_foldl ys T delta (fun x _ => hA x) a
  apply Mat.ext_get _ _ (x1.trans y1.symm) (x2.trans y2.symm) (x3.trans y3.symm)
    (foldl_canon xs T hC a ha) (foldl_canon ys T hC a ha)
  intro r hr col hc
  have hr' : r < a.size1 := by
    have : (xs.foldl (fun a x => T x a) a).size1 = a.size1 := x1
    omega
  have hc' : col < a.size2 := by
    have : (xs.foldl (fun a x => T x a) a).size2 = a.size2 := x2
    omega
  have e1 := x4 r hr' col hc'
  have e2 := y4 r hr' col hc'
  beta_reduce at e1 e2
  rw [e1, e2, (hp.map (fun x => delta x r col)).sum_eq]

theorem foldl_addMap_canon {β : Type} (xs : List β) (ms : List Nat) (k : Nat) (f : β → Nat)
    (m : β → Mat) (a : Mat) (ha : a.data.length = a.size1 * a.size2) :
    (xs.foldl (fun a x => a.addMap ms k (f x) (m x)) a).data.length =
      (xs.foldl (fun a x => a.addMap ms k (f x) (m x)) a).size1 *
        (xs.foldl (fun a x => a.addMap ms k (f x) (m x)) a).size2 :=
  foldl_canon xs (fun x a => a.addMap ms k (f x) (m x))
    (fun x a _ => by simp [Mat.addMap, Mat.ofFn]) a ha

theorem sample_delta (C J r k q : Nat) (g : Nat → Nat → ftype) :
    ((List.range C).map (fun i =>
      ((List.range J).map (fun j => if r = k ∧ q = i then g i j else 0)).sum)).sum =
      if r = k ∧ q < C then ((List.range J).map (fun j => g q j)).sum else 0 := by
  simp only [ite_and, sum_map_ite_const, sum_range_ite]

theorem sample_delta_inner (C J r k q : Nat) (g : Nat → Nat → ftype) :
    ((List.range C).map (fun i =>
      ((List.range J).map (fun j => if r = k ∧ q = j then g i j else 0)).sum)).sum =
      if r = k ∧ q < J then ((List.range C).map (fun i => g i q)).sum else 0 := by
  simp only [ite_and, sum_map_ite_const, sum_range_ite]

theorem forwardSample_adds (E : Env) (c : Call) (k : Nat) :
    Adds (forwardSample E c k) (fun r col =>
      if r = k ∧ col / c.self.mapsize_.prod < c.self.outputmaps_ then
        forwardSum E c k (col / c.self.mapsize_.prod) (col % c.self.mapsize_.prod)
      else 0) := by
  have h := Adds_foldl (List.range c.self.outputmaps_)
      (fun i a => (List.range c.prev_layer.outputmaps_).foldl (fun a j =>
        a.addMap c.self.mapsize_ k i (Mat.ofShape c.self.mapsize_
          (E.Filter (InitMaps c.prev_layer.activ_mat_ c.prev_layer.mapsize_ k j)
            (InitMaps (c.self.weights_.get c.weights) c.self.filtersize_ i j)
            c.self.padding_ false c.self.mapsize_))) a)
      _ (fun i _ => Adds_foldl (List.range c.prev_layer.outputmaps_)
        (fun j a => a.addMap c.self.mapsize_ k i (Mat.ofShape c.self.mapsize_
          (E.Filter (InitMaps c.prev_layer.activ_mat_ c.prev_layer.mapsize_ k j)
            (InitMaps (c.self.weights_.get c.weights) c.self.filtersize_ i j)
            c.self.padding_ false c.self.mapsize_)))
        _ (fun j _ => addMap_adds c.self.mapsize_ k i _))
  intro a
  obtain ⟨h1, h2, h3, h4⟩ := h a
  refine ⟨h1, h2, h3, fun r hr col hc => ?_⟩
  have := h4 r hr col hc
  simp only [Mat.ofShape] at this
  rw [sample_delta] at this
  exact this

theorem backwardSample_adds (E : Env) (c : Call) (k : Nat) :
    Adds (backwardSample E c k) (fun r col =>
      if r = k ∧ col / c.prev_layer.mapsize_.prod < c.prev_layer.outputmaps_ then
        backwardSum E c k (col / c.prev_layer.mapsize_.prod) (col % c.prev_layer.mapsize_.prod)
      else 0) := by
  have h := Adds_foldl (List.range c.self.outputmaps_)
      (fun i a => (List.range c.prev_layer.outputmaps_).foldl (fun a j =>
        a.addMap c.prev_layer.mapsize_ k j (Mat.ofShape c.prev_layer.mapsize_
          (E.Filter (InitMaps c.self.deriv_mat_ c.self.mapsize_ k i)
            (InitMaps (c.self.weights_.get c.weights) c.self.filtersize_ i j)
            (paddingDer c.self) true c.prev_layer.mapsize_))) a)
      _ (fun i _ => Adds_foldl (List.range c.prev_layer.outputmaps_)
        (fun j a => a.addMap c.prev_layer.mapsize_ k j (Mat.ofShape c.prev_layer.mapsize_
          (E.Filter (InitMaps c.self.deriv_mat_ c.self.mapsize_ k i)
            (InitMaps (c.self.weights_.get c.weights) c.self.filtersize_ i j)
            (paddingDer c.self) true c.prev_layer.mapsize_)))
        _ (fun j _ => addMap_adds c.prev_layer.mapsize_ k j _))
  intro a
  obtain ⟨h1, h2, h3, h4⟩ := h a
  refine ⟨h1, h2, h3, fun r hr col hc => ?_⟩
  have := h4 r hr col hc
  simp only [Mat.ofShape] at this
  rw [sample_delta_inner] at this
  exact this

theorem forwardSample_canon (E : Env) (c : Call) (k : Nat) (a : Mat)
    (ha : a.data.length = a.size1 * a.size2) :
    (forwardSample E c k a).data.length =
      (forwardSample E c k a).size1 * (forwardSample E c k a).size2 := by
  unfold forwardSample
  revert a
  generalize List.range c.self.outputmaps_ = xs
  induction xs with
  | nil => exact fun a ha => ha
  | cons i xs ih =>
    intro a ha
    rw [List.foldl_cons]
    exact ih _ (foldl_addMap_canon _ _ _ _ _ a ha)

theorem backwardSample_canon (E : Env) (c : Call) (k : Nat) (a : Mat)
    (ha : a.data.length = a.size1 * a.size2) :
    (backwardSample E c k a).data.length =
      (backwardSample E c k a).size1 * (backwardSample E c k a).size2 := by
  unfold backwardSample
  revert a
  generalize List.range c.self.outputmaps_ = xs
  induction xs with
  | nil => exact fun a ha => ha
  | cons i xs ih =>
    intro a ha
    rw [List.foldl_cons]
    exact ih _ (foldl_addMap_canon _ _ _ (fun j => j) _ a ha)

theorem Mat.ext_fields (m1 m2 : Mat) (h1 : m1.size1 = m2.size1) (h2 : m1.size2 = m2.size2)
    (h3 : m1.order = m2.order) (h4 : m1.data = m2.data) : m1 = m2 := by
  cases m1
  cases m2
  simp_all

theorem list_ext_getD (l1 l2 : List ftype) (hl : l1.length = l2.length)
    (h : ∀ p, l1.getD p 0 = l2.getD p 0) : l1 = l2 := by
  apply List.ext_getElem hl
  intro p h1 h2
  have := h p
  rwa [List.getD_eq_getElem _ _ h1, List.getD_eq_getElem _ _ h2] at this

theorem filDerIn_data (E : Env) (c : Call) (i j : Nat) (order : List Nat) :
    (filDerIn E c i j order).size1 = c.self.filtersize_.headD 1 ∧
    (filDerIn E c i j order).size2 = c.self.filtersize_.tail.prod ∧
    (filDerIn E c i j order).order = false ∧
    (filDerIn E c i j order).data.length = c.self.filtersize_.prod ∧
    ∀ p, (filDerIn E c i j order).data.getD p 0 =
      (order.map (fun k =>
        (E.Filter (InitMaps c.prev_layer.activ_mat_ c.prev_layer.mapsize_ k j)
          (InitMaps c.self.deriv_mat_ c.self.mapsize_ k i)
          c.self.padding_ false c.self.filtersize_).getD p 0)).sum := by
  have hshape : ∀ (ks : List Nat) (acc : Mat),
      (ks.foldl (fun fil_der k => fil_der.add (Mat.ofShape c.self.filtersize_
        (E.Filter (InitMaps c.prev_layer.activ_mat_ c.prev_layer.mapsize_ k j)
          (InitMaps c.self.deriv_mat_ c.self.mapsize_ k i)
          c.self.padding_ false c.self.filtersize_))) acc).size1 = acc.size1 ∧
      (ks.foldl (fun fil_der k => fil_der.add (Mat.ofShape c.self.filtersize_
        (E.Filter (InitMaps c.prev_layer.activ_mat_ c.prev_layer.mapsize_ k j)
          (InitMaps c.self.deriv_mat_ c.self.mapsize_ k i)
          c.self.padding_ false c.self.filtersize_))) acc).size2 = acc.size2 ∧
      (ks.foldl (fun fil_der k => fil_der.add (Mat.ofShape c.self.filtersize_
        (E.Filter (InitMaps c.prev_layer.activ_mat_ c.prev_layer.mapsize_ k j)
          (InitMaps c.self.deriv_mat_ c.self.mapsize_ k i)
          c.self.padding_ false c.self.filtersize_))) acc).order = acc.order := by
    intro ks
    induction ks with
    | nil => exact fun acc => ⟨rfl, rfl, rfl⟩
    | cons k ks ih =>
      intro acc
      rw [List.foldl_cons]
      exact ih _
  obtain ⟨s1, s2, s3⟩ := hshape order ((Mat.ofShape c.self.filtersize_ []).assign 0)
  obtain ⟨hl, hg⟩ := foldl_add_data c.self.filtersize_ order
    (fun k => E.Filter (InitMaps c.prev_layer.activ_mat_ c.prev_layer.mapsize_ k j)
      (InitMaps c.self.deriv_mat_ c.self.mapsize_ k i) c.self.padding_ false c.self.filtersize_)
    (fun k => E.Filter_length _ _ _ _ _)
    ((Mat.ofShape c.self.filtersize_ []).assign 0)
    (by
      show (List.replicate _ _).length = _
      rw [List.length_replicate]
      exact headD_mul_tail_prod _)
  refine ⟨s1, s2, s3, hl, fun p => ?_⟩
  have h0 : ((Mat.ofShape c.self.filtersize_ []).assign 0).data.getD p 0 = 0 := by
    simp only [Mat.assign, List.getD_eq_getElem?_getD, List.getElem?_replicate]
    split <;> rfl
  have := hg p
  rw [h0, zero_add] at this
  exact this

/-- C19. The serial batch loops of `Forward`, `Backward` and `CalcWeights` are
the loops over the samples in the order `0, .., batchSize - 1`. For every order
of the samples that is a permutation of it, the batch loop of `Forward` and the
batch loop of `Backward` leave the same buffer as the serial loop, on every
buffer that holds as many elements as its extents say, and the kernel gradient
of every pair `(i, j)` that `CalcWeights` accumulates is the same as in the
serial loop. The step of a sample `k` changes no element of the buffer outside
the row `k`, and it is the same for every input (the activations of the
predecessor in `Forward`, the gradients of the layer in `Backward`) with the
same row `k`: it depends on the row `k` of the input and on the weights only. -/
theorem batch_order_independent (E : Env) (c : Call) :
    (∀ a, forwardLoops E c c.prev_layer.batchsize_ a =
      forwardLoopsIn E c (List.range c.prev_layer.batchsize_) a) ∧
    (∀ a, backwardLoops E c a = backwardLoopsIn E c (List.range c.self.batchsize_) a) ∧
    (∀ i j, filDer E c i j = filDerIn E c i j (List.range c.self.batchsize_)) ∧
    (∀ order : List Nat, order.Perm (List.range c.prev_layer.batchsize_) →
      ∀ a : Mat, a.data.length = a.size1 * a.size2 →
        forwardLoopsIn E c order a = forwardLoops E c c.prev_layer.batchsize_ a) ∧
    (∀ order : List Nat, order.Perm (List.range c.self.batchsize_) →
      ∀ a : Mat, a.data.length = a.size1 * a.size2 →
        backwardLoopsIn E c order a = backwardLoops E c a) ∧
    (∀ order : List Nat, order.Perm (List.range c.self.batchsize_) →
      ∀ i j, filDerIn E c i j order = filDer E c i j) ∧
    (∀ (k : Nat) (a : Mat), ∀ r < a.size1, ∀ col < a.size2, r ≠ k →
      (forwardSample E c k a).get r col = a.get r col ∧
      (backwardSample E c k a).get r col = a.get r col) ∧
    (∀ (k : Nat) (x : Mat), (∀ col, x.get k col = c.prev_layer.activ_mat_.get k col) →
      ∀ a, forwardSample E (c.withPrevActiv x) k a = forwardSample E c k a) ∧
    (∀ (k : Nat) (g : Mat), (∀ col, g.get k col = c.self.deriv_mat_.get k col) →
      ∀ a, backwardSample E (c.withDeriv g) k a = backwardSample E c k a) := by
  refine ⟨fun a => rfl, fun a => rfl, fun i j => rfl, ?_, ?_, ?_, ?_, ?_, ?_⟩
  · intro order hp a ha
    exact foldl_perm_eq order (List.range c.prev_layer.batchsize_)
      (fun k a => forwardSample E c k a) _ (forwardSample_adds E c)
      (forwardSample_canon E c) hp a ha
  · intro order hp a ha
    exact foldl_perm_eq order (List.range c.self.batchsize_)
      (fun k a => backwardSample E c k a) _ (backwardSample_adds E c)
      (backwardSample_canon E c) hp a ha
  · intro order hp i j
    obtain ⟨a1, a2, a3, a4, a5⟩ := filDerIn_data E c i j order
    obtain ⟨b1, b2, b3, b4, b5⟩ := filDerIn_data E c i j (List.range c.self.batchsize_)
    have hd : (filDerIn E c i j order).data =
        (filDerIn E c i j (List.range c.self.batchsize_)).data := by
      apply list_ext_getD _ _ (a4.trans b4.symm)
      intro p
      rw [a5 p, b5 p]
      exact (hp.map _).sum_eq
    show filDerIn E c i j order = filDerIn E c i j (List.range c.self.batchsize_)
    exact Mat.ext_fields _ _ (a1.trans b1.symm) (a2.trans b2.symm) (a3.trans b3.symm) hd
  · intro k a r hr col hc hne
    obtain ⟨-, -, -, f4⟩ := forwardSample_adds E c k a
    obtain ⟨-, -, -, b4⟩ := backwardSample_adds E c k a
    have e1 := f4 r hr col hc
    have e2 := b4 r hr col hc
    beta_reduce at e1 e2
    rw [if_neg (fun h => hne h.1), add_zero] at e1 e2
    exact ⟨e1, e2⟩
  · intro k x hx a
    have hmaps : ∀ j, InitMaps x c.prev_layer.mapsize_ k j =
        InitMaps c.prev_layer.activ_mat_ c.prev_layer.mapsize_ k j := by
      intro j
      unfold InitMaps
      congr 1
      apply List.map_congr_left
      intro p _
      exact hx _
    simp only [forwardSample, Call.withPrevActiv, hmaps]
  · intro k g hg a
    have hmaps : ∀ i, InitMaps g c.self.mapsize_ k i =
        InitMaps c.self.deriv_mat_ c.self.mapsize_ k i := by
      intro i
      unfold InitMaps
      congr 1
      apply List.map_congr_left
      intro p _
      exact hg _
    simp only [backwardSample, Call.withDeriv, hmaps, paddingDer]

/-- The witness of `batch_order_independent`: the two samples of `sampleCall`
taken in the order 1, 0, on the zeroed buffers of `Forward` and `Backward`. -/
theorem batch_order_independent_witness :
    [1, 0].Perm (List.range sampleCall.prev_layer.batchsize_) ∧
    forwardLoopsIn cpuEnv sampleCall [1, 0]
        ((sampleCall.self.activ_mat_.resize 2 8).assign 0) =
      forwardLoops cpuEnv sampleCall sampleCall.prev_layer.batchsize_
        ((sampleCall.self.activ_mat_.resize 2 8).assign 0) ∧
    backwardLoopsIn cpuEnv sampleCall [1, 0]
        ((sampleCall.prev_layer.deriv_mat_.resize 2 9).assign 0) =
      backwardLoops cpuEnv sampleCall ((sampleCall.prev_layer.deriv_mat_.resize 2 9).assign 0) ∧
    filDerIn cpuEnv sampleCall 1 0 [1, 0] = filDer cpuEnv sampleCall 1 0 :=
  ⟨by decide,
    (batch_order_independent cpuEnv sampleCall).2.2.2.1 [1, 0] (by decide) _ (by decide),
    (batch_order_independent cpuEnv sampleCall).2.2.2.2.1 [1, 0] (by decide) _ (by decide),
    (batch_order_independent cpuEnv sampleCall).2.2.2.2.2.1 [1, 0] (by decide) 1 0⟩

end ConvNet
